import Mathlib

/-!
# Tiled: the layer tree model and the map object tree model

A shallow embedding of `LayerModel` (`src/tiled/layermodel.cpp`), of
`MapObjectModel` (`src/tiled/mapobjectmodel.cpp`), of the add/remove layer
commands (`src/tiled/addremovelayer.h`), of the part of the map data
structure they read and write, and of the recent files list of `MainWindow`
(`src/tiled/mainwindow.cpp`).

Conventions of the embedding

* A `Layer *` is an address (`LayerPtr`); the layer objects live in a store
  `World.layer : LayerPtr → Layer`. `nullptr` is `none`.
* C++ `int` rows and positions are `Int`; no arithmetic on them can overflow
  here (they are only compared and passed on).
* `float` and `qreal` values are the rationals they stand for. A `qreal` that
  is passed to a `float` parameter is narrowed by `toFloat` (round to nearest,
  ties to even); `QPointF` values are compared with the fuzzy `QPointF.eq` of
  Qt. NaN, infinities and the rounding of `qreal` arithmetic are outside the
  model.
* `Q_ASSERT(c)` expands to nothing in a build with `QT_NO_DEBUG`; the
  definitions follow that data flow, and the asserted condition is kept as a
  separate definition where a theorem refers to it.
* Every `emit` and every `begin.../end...` call is logged together with the
  store as it is at that moment, because slots run synchronously.
-/

namespace Tiled

/-! ## Data model -/

/-- Address of a `Layer` object. -/
abbrev LayerPtr := Nat

/-- Address of a `MapObject` object. -/
abbrev ObjectPtr := Nat

/-- The enum `Layer::TypeFlag` as used by `LayerModel::data`. -/
inductive LayerType
  | TileLayerType
  | ObjectGroupType
  | ImageLayerType
  | GroupLayerType
  deriving DecidableEq, Repr

/-- Modelled from the spec: the `Layer` class of libtiled (its source is not
part of the slice). Attributes: name, visibility, opacity, offset, the variant,
the weak back-reference to the parent group layer, and for a group layer the
ordered sequence of child layers (`layers` is only read when `layerType` is
`GroupLayerType`); for an object group the ordered sequence of its map objects
(`objects` is only read when `layerType` is `ObjectGroupType`). -/
structure Layer where
  name : String
  visible : Bool
  opacity : ℚ
  offset : ℚ × ℚ
  layerType : LayerType
  parentLayer : Option LayerPtr
  layers : List LayerPtr
  objects : List ObjectPtr := []

/-- Modelled from the spec: the `Map` root aggregate, which owns the ordered
sequence of top-level layers. -/
structure Map where
  layers : List LayerPtr

/-- The memory the model points into: `mMap` (`none` when no map is set) and
the layer objects by address. -/
structure World where
  mMap : Option Map
  layer : LayerPtr → Layer

/-- The value `QModelIndex` carries: row, column, internal pointer and whether
it belongs to a model (`QModelIndex()` belongs to none). -/
structure QModelIndex where
  row : Int
  column : Int
  internalPointer : Option LayerPtr
  hasModel : Bool
  deriving DecidableEq, Repr

/-- The default constructed `QModelIndex()`. -/
def QModelIndex.invalid : QModelIndex := ⟨-1, -1, none, false⟩

/-- The method `QModelIndex::isValid`: `(r >= 0) && (c >= 0) && (m != nullptr)`. -/
def QModelIndex.isValid (i : QModelIndex) : Bool :=
  decide (0 ≤ i.row) && decide (0 ≤ i.column) && i.hasModel

/-- The method `QAbstractItemModel::createIndex(row, column, ptr)`. -/
def createIndex (row column : Int) (ptr : Option LayerPtr) : QModelIndex :=
  ⟨row, column, ptr, true⟩

/-- The method `QList::indexOf`: position of the first occurrence, `-1` when absent. -/
def QList.indexOf (l : List LayerPtr) (x : LayerPtr) : Int :=
  if x ∈ l then (l.indexOf x : Int) else -1

/-- The method `QList::at(i)`; `none` stands for an out-of-range access. -/
def QList.at (l : List LayerPtr) (i : Int) : Option LayerPtr :=
  if 0 ≤ i then l[i.toNat]? else none

/-- The method `QList::insert(i, x)`: `x` ends up at position `i`; prepends for
`i <= 0` and appends for `i >= size()`. -/
def QList.insert (l : List LayerPtr) (i : Int) (x : LayerPtr) : List LayerPtr :=
  l.take i.toNat ++ x :: l.drop i.toNat

/-- The method `QList::takeAt(i)` seen as the remaining list. -/
def QList.removeAt (l : List LayerPtr) (i : Int) : List LayerPtr :=
  l.take i.toNat ++ l.drop (i.toNat + 1)

/-- The layers of `mMap` (`mMap->layers()`); the source dereferences `mMap`
unguarded, the embedding reads an empty sequence when no map is set. -/
def World.mapLayers (w : World) : List LayerPtr :=
  match w.mMap with
  | some m => m.layers
  | none => []

/-- The call `layer->asGroupLayer()`: the layer itself when it is a group layer. -/
def World.asGroupLayer (w : World) (l : LayerPtr) : Option LayerPtr :=
  if (w.layer l).layerType = LayerType.GroupLayerType then some l else none

/-- The call `groupLayer->layers()`. -/
def World.groupLayers (w : World) (g : LayerPtr) : List LayerPtr :=
  (w.layer g).layers

/-! ## Addressing -/

/-- Embedding of `LayerModel::toLayer` (layermodel.cpp:219-228). -/
def LayerModel.toLayer (w : World) (index : QModelIndex) : Option LayerPtr :=
  if !index.isValid then none
  else
    match index.internalPointer with
    | some groupLayer => QList.at (w.groupLayers groupLayer) index.row
    | none => QList.at w.mapLayers index.row

/-- Embedding of `LayerModel::index(int row, int column, const QModelIndex &parent)`
(layermodel.cpp:47-64). Where `toLayer(parent)` is null the source asserts and
dereferences it; the embedding returns the invalid index there. -/
def LayerModel.index (w : World) (row column : Int) (parent : QModelIndex) : QModelIndex :=
  if !parent.isValid then
    if row < (w.mapLayers.length : Int) then createIndex row column none
    else QModelIndex.invalid
  else
    match LayerModel.toLayer w parent with
    | none => QModelIndex.invalid
    | some layer =>
      match w.asGroupLayer layer with
      | some groupLayer =>
        if row < ((w.groupLayers groupLayer).length : Int) then
          createIndex row column (some groupLayer)
        else QModelIndex.invalid
      | none => QModelIndex.invalid

/-- Embedding of `LayerModel::index(Layer *layer)` (layermodel.cpp:201-217).
The statement `createIndex(row, 0, parentLayer);` inside the `if` has no
`return`: its value is discarded and control falls through to the top-level
lookup. -/
def LayerModel.indexOfLayer (w : World) (layer : Option LayerPtr) : QModelIndex :=
  match layer with
  | none => QModelIndex.invalid
  | some l =>
    let _discarded : Option QModelIndex :=
      match (w.layer l).parentLayer with
      | some parentLayer =>
        some (createIndex (QList.indexOf (w.groupLayers parentLayer) l) 0 (some parentLayer))
      | none => none
    let row := QList.indexOf w.mapLayers l
    createIndex row 0 none

/-- The conditions of the `Q_ASSERT(row != -1)` checks that
`LayerModel::index(Layer *)` passes through for a non-null layer
(layermodel.cpp:210 and 215). -/
def LayerModel.indexOfLayerAsserts (w : World) (l : LayerPtr) : Bool :=
  (match (w.layer l).parentLayer with
   | some parentLayer => decide (QList.indexOf (w.groupLayers parentLayer) l ≠ -1)
   | none => true)
  && decide (QList.indexOf w.mapLayers l ≠ -1)

/-- Embedding of `LayerModel::parent` (layermodel.cpp:66-71). -/
def LayerModel.parent (w : World) (index : QModelIndex) : QModelIndex :=
  match index.internalPointer with
  | some groupLayer => LayerModel.indexOfLayer w (some groupLayer)
  | none => QModelIndex.invalid

/-- Embedding of `LayerModel::rowCount` (layermodel.cpp:76-87). Where
`toLayer(parent)` is null the source asserts and dereferences it; the embedding
returns 0 there. -/
def LayerModel.rowCount (w : World) (parent : QModelIndex) : Int :=
  if parent.isValid then
    match LayerModel.toLayer w parent with
    | none => 0
    | some layer =>
      match w.asGroupLayer layer with
      | some groupLayer => ((w.groupLayers groupLayer).length : Int)
      | none => 0
  else
    match w.mMap with
    | some m => (m.layers.length : Int)
    | none => 0

/-! ## Reading attributes -/

/-- The value `QIcon` by the image files it was given; a default constructed icon has none. -/
structure QIcon where
  files : List String
  deriving DecidableEq, Repr

/-- The member `mTileLayerIcon` as the constructor of `LayerModel` leaves it. -/
def LayerModel.mTileLayerIcon : QIcon :=
  ⟨[":/images/16x16/layer-tile.png", ":images/32x32/layer-tile.png"]⟩

/-- The member `mObjectGroupIcon` as the constructor of `LayerModel` leaves it. -/
def LayerModel.mObjectGroupIcon : QIcon :=
  ⟨[":/images/16x16/layer-object.png", ":images/32x32/layer-object.png"]⟩

/-- The member `mImageLayerIcon` as the constructor of `LayerModel` leaves it. -/
def LayerModel.mImageLayerIcon : QIcon := ⟨[":/images/16x16/layer-image.png"]⟩

/-- The member `mGroupLayerIcon`, which the constructor does not initialise further. -/
def LayerModel.mGroupLayerIcon : QIcon := ⟨[]⟩

/-- The values of `Qt::CheckState`. -/
inductive CheckState
  | Unchecked
  | PartiallyChecked
  | Checked
  deriving DecidableEq, Repr

/-- The `QVariant` values that `LayerModel::data` constructs. -/
inductive QVariant
  | invalid
  | string (s : String)
  | icon (i : QIcon)
  | checkState (c : CheckState)
  | real (x : ℚ)
  deriving DecidableEq

/-- The constant `Qt::DisplayRole`. -/
def Qt.DisplayRole : Int := 0
/-- The constant `Qt::DecorationRole`. -/
def Qt.DecorationRole : Int := 1
/-- The constant `Qt::EditRole`. -/
def Qt.EditRole : Int := 2
/-- The constant `Qt::CheckStateRole`. -/
def Qt.CheckStateRole : Int := 10
/-- The constant `LayerModel::OpacityRole = Qt::UserRole` (layermodel.h:50-52). -/
def LayerModel.OpacityRole : Int := 256
/-- The integer value of `Qt::Checked`. -/
def Qt.Checked : Int := 2

/-- The icon the `DecorationRole` switch of `LayerModel::data` selects. -/
def LayerModel.iconOf : LayerType → QIcon
  | LayerType.TileLayerType => LayerModel.mTileLayerIcon
  | LayerType.ObjectGroupType => LayerModel.mObjectGroupIcon
  | LayerType.ImageLayerType => LayerModel.mImageLayerIcon
  | LayerType.GroupLayerType => LayerModel.mGroupLayerIcon

/-- Embedding of `LayerModel::data` (layermodel.cpp:99-128). The layer is
looked up with `mMap->layerAt(index.row())`; `none` stands for that access
being out of range. -/
def LayerModel.data (w : World) (index : QModelIndex) (role : Int) : Option QVariant :=
  if index.row < 0 then some QVariant.invalid
  else
    match QList.at w.mapLayers index.row with
    | none => none
    | some layer =>
      if role = Qt.DisplayRole ∨ role = Qt.EditRole then
        some (QVariant.string (w.layer layer).name)
      else if role = Qt.DecorationRole then
        some (QVariant.icon (LayerModel.iconOf (w.layer layer).layerType))
      else if role = Qt.CheckStateRole then
        some (QVariant.checkState
          (if (w.layer layer).visible then CheckState.Checked else CheckState.Unchecked))
      else if role = LayerModel.OpacityRole then
        some (QVariant.real (w.layer layer).opacity)
      else some QVariant.invalid

/-! ## The document: store, undo stack and the log of notifications -/

/-- The signals of `LayerModel` and the row brackets of `QAbstractItemModel`
that `LayerModel` calls, with their arguments. -/
inductive Signal
  | beginInsertRows (parent : QModelIndex) (first last : Int)
  | endInsertRows
  | beginRemoveRows (parent : QModelIndex) (first last : Int)
  | endRemoveRows
  | dataChanged (topLeft bottomRight : QModelIndex)
  | layerAdded (layer : LayerPtr)
  | layerAboutToBeRemoved (parentLayer : Option LayerPtr) (index : Int)
  | layerRemoved (layer : LayerPtr)
  | layerChanged (layer : LayerPtr)
  deriving DecidableEq, Repr

/-- One notification together with the store as it is when it is emitted. -/
structure Emission where
  signal : Signal
  world : World

/-- Modelled from the spec: the reversible commands of `changelayer.h` and
`renamelayer.h` that `LayerModel` constructs, by target layer and new value;
the commands of `changemapobject.h` that `MapObjectModel` constructs, by target
object and new values; and an undo macro, a titled ordered group of commands
that is one entry of the history. `SetLayerOpacity` holds the opacity as
`setData` passes it; it reaches the layer through the `float` parameter of
`LayerModel::setLayerOpacity`, that is, narrowed. -/
inductive Command
  | SetLayerVisible (layer : LayerPtr) (visible : Bool)
  | SetLayerOpacity (layer : LayerPtr) (opacity : ℚ)
  | RenameLayer (layer : LayerPtr) (name : String)
  | SetMapObjectVisible (mapObject : ObjectPtr) (visible : Bool)
  | ChangeMapObject (mapObject : ObjectPtr) (name type : String)
  | UndoMacro (title : String) (children : List Command)

/-- The state `LayerModel` works on through `mMapDocument` and `mMap`: the
store, the commands on the undo stack (oldest first) and every notification
emitted so far (oldest first). -/
structure MapDocument where
  world : World
  undoStack : List Command
  emitted : List Emission

/-- An `emit` (or a bracket call): logs the signal with the current store. -/
def MapDocument.emit (d : MapDocument) (s : Signal) : MapDocument :=
  { d with emitted := d.emitted ++ [⟨s, d.world⟩] }

/-- Overwrites the layer object at address `p`. -/
def MapDocument.setLayer (d : MapDocument) (p : LayerPtr) (v : Layer) : MapDocument :=
  { d with world := { d.world with layer := Function.update d.world.layer p v } }

/-- The signals emitted so far, without the snapshots. -/
def MapDocument.signals (d : MapDocument) : List Signal :=
  d.emitted.map Emission.signal

/-! ## Numbers: `float`, `qreal` and `QPointF` -/

/-- Rounding of a non-negative rational to the nearest integer, ties to the
even one: the rounding mode of the conversion from `double` to `float`. -/
def Float32.roundHalfEven (m : ℚ) : Int :=
  if m - ⌊m⌋ < 1 / 2 then ⌊m⌋
  else if m - ⌊m⌋ > 1 / 2 then ⌊m⌋ + 1
  else if ⌊m⌋ % 2 = 0 then ⌊m⌋ else ⌊m⌋ + 1

/-- The implicit conversion of a `qreal` (a `double`) to `float`, which C++
applies to an argument passed to a `float` parameter: the nearest value with a
24 bit significand (IEEE 754 binary32, ties to even, with the fixed spacing
`2^-149` of the subnormal range). A value beyond the largest `float` becomes
an infinity in the code, which is outside the model. -/
def toFloat (x : ℚ) : ℚ :=
  if x = 0 then 0
  else
    let e : Int := max (Int.log 2 |x|) (-126)
    let ulp : ℚ := (2 : ℚ) ^ (e - 23)
    (if x < 0 then -1 else 1) * (Float32.roundHalfEven (|x| / ulp) : ℚ) * ulp

/-- The function `qFuzzyIsNull(double)` of Qt: `qAbs(d) <= 0.000000000001`. -/
def qFuzzyIsNull (d : ℚ) : Bool :=
  decide (|d| ≤ 1 / 1000000000000)

/-- Modelled from the spec: `operator==(const QPointF &, const QPointF &)` of
Qt 5 (outside the repository), which compares the coordinates up to the
tolerance of `qFuzzyIsNull`. -/
def QPointF.eq (p1 p2 : ℚ × ℚ) : Bool :=
  qFuzzyIsNull (p1.1 - p2.1) && qFuzzyIsNull (p1.2 - p2.2)

/-! ## Direct attribute setters -/

/-- Embedding of `LayerModel::setLayerVisible` (layermodel.cpp:306-316). -/
def LayerModel.setLayerVisible (d : MapDocument) (layer : LayerPtr) (visible : Bool) :
    MapDocument :=
  if (d.world.layer layer).visible = visible then d
  else
    let d1 := d.setLayer layer { d.world.layer layer with visible := visible }
    let modelIndex := LayerModel.indexOfLayer d1.world (some layer)
    let d2 := d1.emit (Signal.dataChanged modelIndex modelIndex)
    d2.emit (Signal.layerChanged layer)

/-- Embedding of `LayerModel::setLayerOpacity` (layermodel.cpp:321-328). The
parameter is a `float`: `opacity` is the value the function receives, and a
caller that holds a `qreal` passes `toFloat` of it. -/
def LayerModel.setLayerOpacity (d : MapDocument) (layer : LayerPtr) (opacity : ℚ) :
    MapDocument :=
  if (d.world.layer layer).opacity = opacity then d
  else
    let d1 := d.setLayer layer { d.world.layer layer with opacity := opacity }
    d1.emit (Signal.layerChanged layer)

/-- Embedding of `LayerModel::setLayerOffset` (layermodel.cpp:333-340). The
guard `layer->offset() == offset` is the fuzzy comparison of `QPointF`. -/
def LayerModel.setLayerOffset (d : MapDocument) (layer : LayerPtr) (offset : ℚ × ℚ) :
    MapDocument :=
  if QPointF.eq (d.world.layer layer).offset offset then d
  else
    let d1 := d.setLayer layer { d.world.layer layer with offset := offset }
    d1.emit (Signal.layerChanged layer)

/-- Embedding of `LayerModel::renameLayer` (layermodel.cpp:345-355). -/
def LayerModel.renameLayer (d : MapDocument) (layer : LayerPtr) (name : String) :
    MapDocument :=
  if (d.world.layer layer).name = name then d
  else
    let d1 := d.setLayer layer { d.world.layer layer with name := name }
    let modelIndex := LayerModel.indexOfLayer d1.world (some layer)
    let d2 := d1.emit (Signal.dataChanged modelIndex modelIndex)
    d2.emit (Signal.layerChanged layer)

/-! ## Undo stack -/

mutual
/-- Modelled from the spec: the apply step of a command (its `redo`, in
`changelayer.cpp` and `renamelayer.cpp`, not part of the slice) calls the
direct setter of `LayerModel` for its attribute with the captured new value.
This is the effect on the layers, the undo stack and the log of `LayerModel`:
a command on a map object leaves them as they are, and an undo macro applies
its children in order. -/
def Command.redo (d : MapDocument) : Command → MapDocument
  | Command.SetLayerVisible layer visible => LayerModel.setLayerVisible d layer visible
  | Command.SetLayerOpacity layer opacity =>
    LayerModel.setLayerOpacity d layer (toFloat opacity)
  | Command.RenameLayer layer name => LayerModel.renameLayer d layer name
  | Command.SetMapObjectVisible _ _ => d
  | Command.ChangeMapObject _ _ _ => d
  | Command.UndoMacro _ children => Command.redoAll d children
/-- Applies a sequence of commands, first to last. -/
def Command.redoAll (d : MapDocument) : List Command → MapDocument
  | [] => d
  | c :: cs => Command.redoAll (Command.redo d c) cs
end

/-- Modelled from the spec: `QUndoStack::push` applies the command at once and
records it as the newest entry of the history. -/
def QUndoStack.push (d : MapDocument) (c : Command) : MapDocument :=
  let d1 := c.redo d
  { d1 with undoStack := d1.undoStack ++ [c] }

/-- What `LayerModel::setData` reads from its `QVariant` argument: the results
of `value.toInt()`, of `value.toDouble(&ok)` (`none` when `ok` is false) and of
`value.toString()`. -/
structure EditValue where
  toInt : Int
  toDouble : Option ℚ
  toString : String

/-- Embedding of `LayerModel::setData` (layermodel.cpp:133-174): the returned
flag and the document afterwards. `none` stands for dereferencing the null
layer that `toLayer` returns for a row that is out of range. -/
def LayerModel.setData (d : MapDocument) (index : QModelIndex) (value : EditValue)
    (role : Int) : Option (Bool × MapDocument) :=
  if !index.isValid then some (false, d)
  else
    let layer := LayerModel.toLayer d.world index
    if role = Qt.CheckStateRole then
      let visible := decide (value.toInt = Qt.Checked)
      layer.map fun l =>
        if visible ≠ (d.world.layer l).visible then
          (true, QUndoStack.push d (Command.SetLayerVisible l visible))
        else (true, d)
    else if role = LayerModel.OpacityRole then
      match value.toDouble with
      | some opacity =>
        layer.map fun l =>
          if (d.world.layer l).opacity ≠ opacity then
            (true, QUndoStack.push d (Command.SetLayerOpacity l opacity))
          else (true, d)
      | none => some (false, d)
    else if role = Qt.EditRole then
      let newName := value.toString
      layer.map fun l =>
        if (d.world.layer l).name ≠ newName then
          (true, QUndoStack.push d (Command.RenameLayer l newName))
        else (true, d)
    else some (false, d)

/-! ## Structural mutation -/

/-- Modelled from the spec: `Map::insertLayer(index, layer)` of libtiled
inserts the layer into the top-level sequence at `index`; a top-level layer
has no parent group. -/
def World.mapInsertLayer (w : World) (index : Int) (layer : LayerPtr) : World :=
  { mMap := w.mMap.map fun m => ⟨QList.insert m.layers index layer⟩,
    layer := Function.update w.layer layer { w.layer layer with parentLayer := none } }

/-- Modelled from the spec: `GroupLayer::insertLayer(index, layer)` of libtiled
inserts the layer into the group's child sequence at `index` and makes the
group its parent. -/
def World.groupInsertLayer (w : World) (g : LayerPtr) (index : Int) (layer : LayerPtr) :
    World :=
  let store := Function.update w.layer layer { w.layer layer with parentLayer := some g }
  { mMap := w.mMap,
    layer := Function.update store g
      { store g with layers := QList.insert (store g).layers index layer } }

/-- Modelled from the spec: `Map::takeLayerAt(index)` of libtiled removes the
layer at `index` from the top-level sequence and hands it to the caller. -/
def World.mapTakeLayerAt (w : World) (index : Int) : Option (LayerPtr × World) :=
  (QList.at w.mapLayers index).map fun layer =>
    (layer,
     { mMap := w.mMap.map fun m => ⟨QList.removeAt m.layers index⟩,
       layer := Function.update w.layer layer { w.layer layer with parentLayer := none } })

/-- Modelled from the spec: `GroupLayer::takeLayerAt(index)` of libtiled
removes the layer at `index` from the group's child sequence, clears its parent
and hands it to the caller. -/
def World.groupTakeLayerAt (w : World) (g : LayerPtr) (index : Int) :
    Option (LayerPtr × World) :=
  (QList.at (w.groupLayers g) index).map fun layer =>
    let store := Function.update w.layer g
      { w.layer g with layers := QList.removeAt (w.layer g).layers index }
    (layer,
     { mMap := w.mMap,
       layer := Function.update store layer { store layer with parentLayer := none } })

/-- The layer sequence of the container a `GroupLayer *parentLayer` argument
designates: the map when it is null, else that group layer. -/
def World.container (w : World) (parentLayer : Option LayerPtr) : List LayerPtr :=
  match parentLayer with
  | some g => w.groupLayers g
  | none => w.mapLayers

/-- The branch `if (parentLayer) parentLayer->insertLayer(index, layer); else
mMap->insertLayer(index, layer);` of `LayerModel::insertLayer`. -/
def World.insertLayer (w : World) (parentLayer : Option LayerPtr) (index : Int)
    (layer : LayerPtr) : World :=
  match parentLayer with
  | some g => w.groupInsertLayer g index layer
  | none => w.mapInsertLayer index layer

/-- The branch `if (parentLayer) layer = parentLayer->takeLayerAt(index); else
layer = mMap->takeLayerAt(index);` of `LayerModel::takeLayerAt`. -/
def World.takeLayerAt (w : World) (parentLayer : Option LayerPtr) (index : Int) :
    Option (LayerPtr × World) :=
  match parentLayer with
  | some g => w.groupTakeLayerAt g index
  | none => w.mapTakeLayerAt index

/-- Embedding of `LayerModel::insertLayer` (layermodel.cpp:248-258). -/
def LayerModel.insertLayer (d : MapDocument) (parentLayer : Option LayerPtr) (index : Int)
    (layer : LayerPtr) : MapDocument :=
  let parent := LayerModel.indexOfLayer d.world parentLayer
  let d1 := d.emit (Signal.beginInsertRows parent index index)
  let d2 : MapDocument := { d1 with world := d1.world.insertLayer parentLayer index layer }
  let d3 := d2.emit Signal.endInsertRows
  d3.emit (Signal.layerAdded layer)

/-- Embedding of `LayerModel::takeLayerAt` (layermodel.cpp:265-278): the
returned layer and the document afterwards; `none` when `index` is out of range
for the container. -/
def LayerModel.takeLayerAt (d : MapDocument) (parentLayer : Option LayerPtr) (index : Int) :
    Option (LayerPtr × MapDocument) :=
  let d1 := d.emit (Signal.layerAboutToBeRemoved parentLayer index)
  let parent := LayerModel.indexOfLayer d1.world parentLayer
  let d2 := d1.emit (Signal.beginRemoveRows parent index index)
  (d2.world.takeLayerAt parentLayer index).map fun r =>
    let d3 : MapDocument := { d2 with world := r.2 }
    let d4 := d3.emit Signal.endRemoveRows
    (r.1, d4.emit (Signal.layerRemoved r.1))

/-- One call of `insertLayer` or `takeLayerAt`. -/
inductive LayerOp
  | insertLayer (parentLayer : Option LayerPtr) (index : Int) (layer : LayerPtr)
  | takeLayerAt (parentLayer : Option LayerPtr) (index : Int)

/-- Runs one call. -/
def LayerOp.run (d : MapDocument) : LayerOp → Option MapDocument
  | LayerOp.insertLayer parentLayer index layer =>
    some (LayerModel.insertLayer d parentLayer index layer)
  | LayerOp.takeLayerAt parentLayer index =>
    (LayerModel.takeLayerAt d parentLayer index).map Prod.snd

/-- Runs a sequence of calls, first to last. -/
def LayerOp.runAll (d : MapDocument) : List LayerOp → Option MapDocument
  | [] => some d
  | op :: ops => (op.run d).bind fun d1 => LayerOp.runAll d1 ops

/-- The live container below a model index: the top-level layers of the map
below an invalid (root) index, the children of the group layer below the index
of a group layer, and nothing below the index of any other layer. -/
def LayerModel.childrenOf (w : World) (parent : QModelIndex) : List LayerPtr :=
  if parent.isValid then
    match LayerModel.toLayer w parent with
    | some l => if (w.layer l).layerType = LayerType.GroupLayerType then (w.layer l).layers else []
    | none => []
  else w.mapLayers

/-- The change in the size of container `c` that one call makes when it
succeeds: `+1` for an insertion into `c`, `-1` for a removal from `c`. -/
def LayerOp.delta (c : Option LayerPtr) : LayerOp → Int
  | LayerOp.insertLayer parentLayer _ _ => if parentLayer = c then 1 else 0
  | LayerOp.takeLayerAt parentLayer _ => if parentLayer = c then -1 else 0

/-- A setter call that takes `d` to `d'` stored `v` as the object of `layer`
and touched nothing else: every other layer object, the map and the undo
stack are as before. -/
def StoresOnly (d d' : MapDocument) (layer : LayerPtr) (v : Layer) : Prop :=
  d'.world.layer layer = v ∧
  (∀ p : LayerPtr, p ≠ layer → d'.world.layer p = d.world.layer p) ∧
  d'.world.mMap = d.world.mMap ∧
  d'.undoStack = d.undoStack

/-! ## Add/remove commands and `replaceLayer` -/

/-- The members of `AddRemoveLayer` (addremovelayer.h:51-55): the layer the
command owns while it is not in the map, the parent layer and the index. -/
structure AddRemoveLayer where
  mLayer : Option LayerPtr
  mParentLayer : Option LayerPtr
  mIndex : Int
  deriving DecidableEq, Repr

/-- Modelled from the spec: `AddRemoveLayer::addLayer` (addremovelayer.cpp, not
part of the slice) inserts the owned layer at `mIndex` of `mParentLayer`
through the layer model and gives up ownership. `none` when the command owns
no layer. -/
def AddRemoveLayer.addLayer (c : AddRemoveLayer) (d : MapDocument) :
    Option (AddRemoveLayer × MapDocument) :=
  c.mLayer.map fun layer =>
    ({ c with mLayer := none }, LayerModel.insertLayer d c.mParentLayer c.mIndex layer)

/-- Modelled from the spec: `AddRemoveLayer::removeLayer` (addremovelayer.cpp,
not part of the slice) takes the layer at `mIndex` of `mParentLayer` through the
layer model and owns it from then on. -/
def AddRemoveLayer.removeLayer (c : AddRemoveLayer) (d : MapDocument) :
    Option (AddRemoveLayer × MapDocument) :=
  (LayerModel.takeLayerAt d c.mParentLayer c.mIndex).map fun r =>
    ({ c with mLayer := some r.1 }, r.2)

/-- Embedding of `AddLayer::redo` (addremovelayer.h:77-78). -/
def AddLayer.redo (c : AddRemoveLayer) (d : MapDocument) :
    Option (AddRemoveLayer × MapDocument) :=
  c.addLayer d

/-- Embedding of `AddLayer::undo` (addremovelayer.h:74-75). -/
def AddLayer.undo (c : AddRemoveLayer) (d : MapDocument) :
    Option (AddRemoveLayer × MapDocument) :=
  c.removeLayer d

/-- Embedding of `RemoveLayer::redo` (addremovelayer.h:99-100). -/
def RemoveLayer.redo (c : AddRemoveLayer) (d : MapDocument) :
    Option (AddRemoveLayer × MapDocument) :=
  c.removeLayer d

/-- Embedding of `RemoveLayer::undo` (addremovelayer.h:96-97). -/
def RemoveLayer.undo (c : AddRemoveLayer) (d : MapDocument) :
    Option (AddRemoveLayer × MapDocument) :=
  c.addLayer d

/-- Modelled from the spec: `Layer::siblingIndex` of libtiled, the position of
the layer among the children of its parent context (its parent group layer, or
the map for a layer without parent). -/
def World.siblingIndex (w : World) (layer : LayerPtr) : Int :=
  QList.indexOf (w.container (w.layer layer).parentLayer) layer

/-- The document state of the layer model together with the document's current
layer (`MapDocument::mCurrentLayer`, mapdocument.h). -/
structure DocumentState where
  document : MapDocument
  mCurrentLayer : Option LayerPtr

/-- Modelled from the spec: `MapDocument::setCurrentLayer` (mapdocument.cpp, not
part of the slice) makes the given layer the current layer. -/
def DocumentState.setCurrentLayer (s : DocumentState) (layer : Option LayerPtr) :
    DocumentState :=
  { s with mCurrentLayer := layer }

/-- Embedding of `LayerModel::replaceLayer` (layermodel.cpp:286-301). The slots
of `MapDocument` that react to the notifications of `takeLayerAt` and
`insertLayer` (mapdocument.cpp, not part of the slice) may move the current
layer; their effect is the parameter `slots`, from the notifications emitted
during the two calls and the current layer before them to the current layer
after them. `none` when the layer is not found in its parent context. -/
def LayerModel.replaceLayer (slots : List Emission → Option LayerPtr → Option LayerPtr)
    (s : DocumentState) (layer replacement : LayerPtr) : Option DocumentState :=
  let currentLayer := s.mCurrentLayer
  let parentLayer := (s.document.world.layer layer).parentLayer
  let index := s.document.world.siblingIndex layer
  (LayerModel.takeLayerAt s.document parentLayer index).map fun r =>
    let d2 := LayerModel.insertLayer r.2 parentLayer index replacement
    let s2 : DocumentState :=
      { document := d2,
        mCurrentLayer := slots (d2.emitted.drop s.document.emitted.length) s.mCurrentLayer }
    if some layer = currentLayer then s2.setCurrentLayer (some replacement) else s2

/-! ## `toggleOtherLayers` -/

/-- An undo stack with a macro open: the document, the title given to
`beginMacro` and the commands pushed since, oldest first. -/
structure OpenMacro where
  document : MapDocument
  title : String
  children : List Command

/-- Modelled from the spec: `QUndoStack::beginMacro(title)` opens a macro. -/
def QUndoStack.beginMacro (d : MapDocument) (title : String) : OpenMacro :=
  { document := d, title := title, children := [] }

/-- Modelled from the spec: `QUndoStack::push` while a macro is open applies the
command at once and makes it the newest child of the macro. -/
def OpenMacro.push (m : OpenMacro) (c : Command) : OpenMacro :=
  { m with document := c.redo m.document, children := m.children ++ [c] }

/-- Modelled from the spec: `QUndoStack::endMacro` closes the macro, which is
then one entry of the history, the newest. -/
def OpenMacro.endMacro (m : OpenMacro) : MapDocument :=
  { m.document with
    undoStack := m.document.undoStack ++ [Command.UndoMacro m.title m.children] }

/-- The first loop of `LayerModel::toggleOtherLayers` (layermodel.cpp:367-377):
the value of `visibility` after it, over the layers still to visit. -/
def LayerModel.toggleOtherLayers.visibility (w : World) (layer : LayerPtr) :
    List LayerPtr → Bool
  | [] => true
  | l :: ls =>
    if l = layer then LayerModel.toggleOtherLayers.visibility w layer ls
    else if (w.layer l).visible then false
    else LayerModel.toggleOtherLayers.visibility w layer ls

/-- The second loop of `LayerModel::toggleOtherLayers` (layermodel.cpp:385-391),
over the layers still to visit. -/
def LayerModel.toggleOtherLayers.pushAll (layer : LayerPtr) (visibility : Bool)
    (m : OpenMacro) : List LayerPtr → OpenMacro
  | [] => m
  | l :: ls =>
    if l = layer then LayerModel.toggleOtherLayers.pushAll layer visibility m ls
    else if visibility ≠ (m.document.world.layer l).visible then
      LayerModel.toggleOtherLayers.pushAll layer visibility
        (m.push (Command.SetLayerVisible l visibility)) ls
    else LayerModel.toggleOtherLayers.pushAll layer visibility m ls

/-- Embedding of `LayerModel::toggleOtherLayers` (layermodel.cpp:362-394). -/
def LayerModel.toggleOtherLayers (d : MapDocument) (layer : LayerPtr) : MapDocument :=
  if (d.world.mapLayers.length : Int) ≤ 1 then d
  else
    let visibility := LayerModel.toggleOtherLayers.visibility d.world layer d.world.mapLayers
    let m :=
      if visibility then QUndoStack.beginMacro d "Show Other Layers"
      else QUndoStack.beginMacro d "Hide Other Layers"
    (LayerModel.toggleOtherLayers.pushAll layer visibility m d.world.mapLayers).endMacro

/-! ## The map object tree model (`src/tiled/mapobjectmodel.cpp`) -/

/-- The struct `ObjectOrGroup` that `MapObjectModel` hands to the view as
internal pointer: it refers to a group (`mGroup`) or to an object (`mObject`).
A wrapper is identified with what it refers to. -/
inductive ObjectOrGroup
  | group (mGroup : LayerPtr)
  | object (mObject : ObjectPtr)
  deriving DecidableEq, Repr

/-- The value of a `QModelIndex` of `MapObjectModel`. -/
structure ObjectIndex where
  row : Int
  column : Int
  internalPointer : Option ObjectOrGroup
  hasModel : Bool
  deriving DecidableEq, Repr

/-- The default constructed `QModelIndex()`. -/
def ObjectIndex.invalid : ObjectIndex := ⟨-1, -1, none, false⟩

/-- The method `QModelIndex::isValid`. -/
def ObjectIndex.isValid (i : ObjectIndex) : Bool :=
  decide (0 ≤ i.row) && decide (0 ≤ i.column) && i.hasModel

/-- The method `createIndex(row, column, ptr)` of `MapObjectModel`. -/
def createObjectIndex (row column : Int) (ptr : Option ObjectOrGroup) : ObjectIndex :=
  ⟨row, column, ptr, true⟩

/-- The members of `MapObjectModel`: whether a document is set, the tracked
object groups in row order, and the two identity-wrapper tables `mGroups` and
`mObjects`, each given by the keys that have a wrapper (the order of the keys
carries no meaning). -/
structure MapObjectModel where
  mMapDocument : Bool
  mObjectGroups : List LayerPtr
  mGroups : List LayerPtr
  mObjects : List ObjectPtr
  deriving DecidableEq, Repr

/-- The method `QMap::insert(key, new ObjectOrGroup(key))` on the key set. -/
def QMap.insert (keys : List Nat) (key : Nat) : List Nat :=
  if key ∈ keys then keys else keys ++ [key]

/-- The method `QMap::take(key)` on the key set. -/
def QMap.take (keys : List Nat) (key : Nat) : List Nat :=
  keys.filter fun k => decide (k ≠ key)

/-- The lookup `mGroups[og]` in a const method: the wrapper, or null when the
group has none. -/
def MapObjectModel.groupWrapper (m : MapObjectModel) (og : LayerPtr) : Option ObjectOrGroup :=
  if og ∈ m.mGroups then some (ObjectOrGroup.group og) else none

/-- The lookup `mObjects[o]` in a const method: the wrapper, or null when the
object has none. -/
def MapObjectModel.objectWrapper (m : MapObjectModel) (o : ObjectPtr) : Option ObjectOrGroup :=
  if o ∈ m.mObjects then some (ObjectOrGroup.object o) else none

/-- The call `layer->asObjectGroup()`: the layer itself when it is an object group. -/
def World.asObjectGroup (w : World) (l : LayerPtr) : Option LayerPtr :=
  if (w.layer l).layerType = LayerType.ObjectGroupType then some l else none

/-- The call `og->objects()`. -/
def World.objects (w : World) (og : LayerPtr) : List ObjectPtr :=
  (w.layer og).objects

/-- Embedding of `MapObjectModel::toObjectGroup` (mapobjectmodel.cpp:226-233).
The outer `none` stands for the fault of dereferencing a null wrapper. -/
def MapObjectModel.toObjectGroup (index : ObjectIndex) : Option (Option LayerPtr) :=
  if !index.isValid then some none
  else
    match index.internalPointer with
    | none => none
    | some (ObjectOrGroup.group g) => some (some g)
    | some (ObjectOrGroup.object _) => some none

/-- Embedding of `MapObjectModel::toMapObject` (mapobjectmodel.cpp:235-242).
The outer `none` stands for the fault of dereferencing a null wrapper. -/
def MapObjectModel.toMapObject (index : ObjectIndex) : Option (Option ObjectPtr) :=
  if !index.isValid then some none
  else
    match index.internalPointer with
    | none => none
    | some (ObjectOrGroup.group _) => some none
    | some (ObjectOrGroup.object o) => some (some o)

/-- Embedding of `MapObjectModel::index(int row, int column, const QModelIndex
&parent)` (mapobjectmodel.cpp:45-65). `none` stands for a fault: an access
outside a list, or the dereference of a null group. -/
def MapObjectModel.index (w : World) (m : MapObjectModel) (row column : Int)
    (parent : ObjectIndex) : Option ObjectIndex :=
  if !parent.isValid then
    if row < (m.mObjectGroups.length : Int) then
      (QList.at m.mObjectGroups row).map fun og =>
        createObjectIndex row column (m.groupWrapper og)
    else some ObjectIndex.invalid
  else
    match MapObjectModel.toObjectGroup parent with
    | some (some og) =>
      if row ≥ ((w.objects og).length : Int) then some ObjectIndex.invalid
      else
        match QList.at (w.objects og) row with
        | none => none
        | some o =>
          if ¬ o ∈ m.mObjects then some ObjectIndex.invalid
          else some (createObjectIndex row column (m.objectWrapper o))
    | _ => none

/-- Embedding of `MapObjectModel::rowCount` (mapobjectmodel.cpp:75-84). `none`
stands for the fault of dereferencing a null wrapper. -/
def MapObjectModel.rowCount (w : World) (m : MapObjectModel) (parent : ObjectIndex) :
    Option Int :=
  if !m.mMapDocument then some 0
  else if !parent.isValid then some (m.mObjectGroups.length : Int)
  else
    (MapObjectModel.toObjectGroup parent).map fun og =>
      match og with
      | some og => ((w.objects og).length : Int)
      | none => 0

/-- Embedding of `MapObjectModel::index(ObjectGroup *og)` (mapobjectmodel.cpp:212-217). -/
def MapObjectModel.indexOfGroup (m : MapObjectModel) (og : LayerPtr) : ObjectIndex :=
  createObjectIndex (QList.indexOf m.mObjectGroups og) 0 (m.groupWrapper og)

/-- The signals of `MapObjectModel` and the row brackets it calls, with their
arguments. -/
inductive ObjectSignal
  | beginInsertRows (parent : ObjectIndex) (first last : Int)
  | endInsertRows
  | beginRemoveRows (parent : ObjectIndex) (first last : Int)
  | endRemoveRows
  | dataChanged (topLeft bottomRight : ObjectIndex)
  | objectsChanged (objects : List ObjectPtr)
  | objectsTypeChanged (objects : List ObjectPtr)
  | objectsAdded (objects : List ObjectPtr)
  | objectsRemoved (objects : List ObjectPtr)
  | beginMoveRows (sourceParent : ObjectIndex) (sourceFirst sourceLast : Int)
      (destinationParent : ObjectIndex) (destinationChild : Int)
  | endMoveRows
  | beginResetModel
  | endResetModel
  deriving DecidableEq, Repr

/-- One notification of `MapObjectModel` together with the members of the
model and the store as they are when it is emitted. -/
structure ObjectEmission where
  signal : ObjectSignal
  model : MapObjectModel
  world : World

/-- The members of `MapObjectModel` and every notification it emitted so far
(oldest first). -/
structure ObjectModelState where
  model : MapObjectModel
  emitted : List ObjectEmission

/-- An `emit` (or a bracket call) of `MapObjectModel`. -/
def ObjectModelState.emit (s : ObjectModelState) (w : World) (sig : ObjectSignal) :
    ObjectModelState :=
  { s with emitted := s.emitted ++ [⟨sig, s.model, w⟩] }

/-- The signals emitted so far, without the snapshots. -/
def ObjectModelState.signals (s : ObjectModelState) : List ObjectSignal :=
  s.emitted.map ObjectEmission.signal

/-- The loop `for (index = index - 1; index >= 0; --index) if ((prev =
mMap->layerAt(index)->asObjectGroup())) break;` of `MapObjectModel::layerAdded`
(mapobjectmodel.cpp:301-303): the value of `prev` after it, where the argument
counts the positions still to visit (position `n` is visited first for
`n + 1`). -/
def MapObjectModel.layerAdded.scan (w : World) : Nat → Option LayerPtr
  | 0 => none
  | n + 1 =>
    match w.mapLayers[n]? with
    | none => none
    | some l =>
      match w.asObjectGroup l with
      | some og => some og
      | none => MapObjectModel.layerAdded.scan w n

/-- Embedding of `MapObjectModel::layerAdded` (mapobjectmodel.cpp:292-316). -/
def MapObjectModel.layerAdded (w : World) (s : ObjectModelState) (layer : LayerPtr) :
    ObjectModelState :=
  let index := QList.indexOf w.mapLayers layer
  if index = -1 then s
  else
    match w.asObjectGroup layer with
    | none => s
    | some og =>
      if og ∈ s.model.mGroups then s
      else
        let prev := MapObjectModel.layerAdded.scan w index.toNat
        let index2 : Int :=
          match prev with
          | some p => QList.indexOf s.model.mObjectGroups p + 1
          | none => 0
        let s1 : ObjectModelState :=
          { s with model :=
              { s.model with mObjectGroups := QList.insert s.model.mObjectGroups index2 og } }
        let row := QList.indexOf s1.model.mObjectGroups og
        let s2 := s1.emit w (ObjectSignal.beginInsertRows ObjectIndex.invalid row row)
        let s3 : ObjectModelState :=
          { s2 with model := { s2.model with mGroups := QMap.insert s2.model.mGroups og } }
        let s4 : ObjectModelState :=
          { s3 with model :=
              { s3.model with
                mObjects := (w.objects og).foldl
                  (fun keys o => if ¬ o ∈ keys then QMap.insert keys o else keys)
                  s3.model.mObjects } }
        s4.emit w ObjectSignal.endInsertRows

/-- Embedding of `MapObjectModel::layerChanged` (mapobjectmodel.cpp:318-327). -/
def MapObjectModel.layerChanged (w : World) (s : ObjectModelState) (layer : LayerPtr) :
    ObjectModelState :=
  if (w.layer layer).parentLayer.isSome then s
  else
    match w.asObjectGroup layer with
    | none => s
    | some og =>
      let index := MapObjectModel.indexOfGroup s.model og
      s.emit w (ObjectSignal.dataChanged index index)

/-- The method `QList::removeAt(i)`, which does nothing for an `i` outside the list. -/
def QList.removeAtChecked (l : List LayerPtr) (i : Int) : List LayerPtr :=
  if 0 ≤ i ∧ i < (l.length : Int) then QList.removeAt l i else l

/-- Embedding of `MapObjectModel::layerAboutToBeRemoved`
(mapobjectmodel.cpp:329-345). Where `index` is outside the map's layers the
source reads outside the list; the embedding leaves the state as it is. -/
def MapObjectModel.layerAboutToBeRemoved (w : World) (s : ObjectModelState)
    (groupLayer : Option LayerPtr) (index : Int) : ObjectModelState :=
  if groupLayer.isSome then s
  else
    match QList.at w.mapLayers index with
    | none => s
    | some layer =>
      match w.asObjectGroup layer with
      | none => s
      | some og =>
        let row := QList.indexOf s.model.mObjectGroups og
        let s1 := s.emit w (ObjectSignal.beginRemoveRows ObjectIndex.invalid row row)
        let s2 : ObjectModelState :=
          { s1 with model :=
              { s1.model with mObjectGroups := QList.removeAtChecked s1.model.mObjectGroups row } }
        let s3 : ObjectModelState :=
          { s2 with model := { s2.model with mGroups := QMap.take s2.model.mGroups og } }
        let s4 : ObjectModelState :=
          { s3 with model :=
              { s3.model with
                mObjects := (w.objects og).foldl (fun keys o => QMap.take keys o)
                  s3.model.mObjects } }
        s4.emit w ObjectSignal.endRemoveRows

/-- The slot of `MapObjectModel` that `setMapDocument` connects to a
notification of the document (mapobjectmodel.cpp:274-279), run on the store as
it is when the notification is emitted. -/
def ObjectModelState.handle (s : ObjectModelState) (e : Emission) : ObjectModelState :=
  match e.signal with
  | Signal.layerAdded layer => MapObjectModel.layerAdded e.world s layer
  | Signal.layerChanged layer => MapObjectModel.layerChanged e.world s layer
  | Signal.layerAboutToBeRemoved groupLayer index =>
    MapObjectModel.layerAboutToBeRemoved e.world s groupLayer index
  | _ => s

/-- Runs the slots for a sequence of notifications, oldest first. -/
def ObjectModelState.handleAll (s : ObjectModelState) (es : List Emission) :
    ObjectModelState :=
  es.foldl ObjectModelState.handle s

/-- The notifications a call added to the log of the document. -/
def MapDocument.emittedSince (d' d : MapDocument) : List Emission :=
  d'.emitted.drop d.emitted.length

/-! ## The map object tree model: editing through `setData` -/

/-- Modelled from the spec: the `MapObject` class of libtiled (its source is
not part of the slice), with the attributes the model edits (name, type tag,
visibility) and the object group that owns it. -/
structure MapObject where
  name : String
  type : String
  visible : Bool
  objectGroup : Option LayerPtr

/-- The state the map object model works on: the document state of the layer
model (layers, undo stack, notifications of the layer model), the map objects
by address, and the members and notifications of the map object model. -/
structure Editor where
  document : MapDocument
  object : ObjectPtr → MapObject
  objectModel : ObjectModelState

/-- An `emit` of `MapObjectModel` in the current state. -/
def Editor.emitObject (e : Editor) (sig : ObjectSignal) : Editor :=
  { e with objectModel := e.objectModel.emit e.document.world sig }

/-- The document state moves on to `d'` and the slots of `MapObjectModel` run
for the notifications emitted on the way. -/
def Editor.applyDocument (e : Editor) (d' : MapDocument) : Editor :=
  { e with
    document := d',
    objectModel := e.objectModel.handleAll (d'.emittedSince e.document) }

/-- Embedding of `MapObjectModel::index(MapObject *o, int column)`
(mapobjectmodel.cpp:219-224). For an object without group the source
dereferences null; the embedding takes row -1 there. -/
def MapObjectModel.indexOfObject (e : Editor) (o : ObjectPtr) (column : Int) : ObjectIndex :=
  let row : Int :=
    match (e.object o).objectGroup with
    | some og => QList.indexOf (e.document.world.objects og) o
    | none => -1
  createObjectIndex row column (e.objectModel.model.objectWrapper o)

/-- Embedding of `MapObjectModel::setObjectName` (mapobjectmodel.cpp:393-402). -/
def MapObjectModel.setObjectName (e : Editor) (o : ObjectPtr) (name : String) : Editor :=
  if (e.object o).name = name then e
  else
    let e1 : Editor :=
      { e with object := Function.update e.object o { e.object o with name := name } }
    let index := MapObjectModel.indexOfObject e1 o 0
    let e2 := e1.emitObject (ObjectSignal.dataChanged index index)
    e2.emitObject (ObjectSignal.objectsChanged [o])

/-- Embedding of `MapObjectModel::setObjectType` (mapobjectmodel.cpp:404-416). -/
def MapObjectModel.setObjectType (e : Editor) (o : ObjectPtr) (type : String) : Editor :=
  if (e.object o).type = type then e
  else
    let e1 : Editor :=
      { e with object := Function.update e.object o { e.object o with type := type } }
    let index := MapObjectModel.indexOfObject e1 o 1
    let e2 := e1.emitObject (ObjectSignal.dataChanged index index)
    let e3 := e2.emitObject (ObjectSignal.objectsChanged [o])
    e3.emitObject (ObjectSignal.objectsTypeChanged [o])

/-- Embedding of `MapObjectModel::setObjectVisible` (mapobjectmodel.cpp:454-463). -/
def MapObjectModel.setObjectVisible (e : Editor) (o : ObjectPtr) (visible : Bool) : Editor :=
  if (e.object o).visible = visible then e
  else
    let e1 : Editor :=
      { e with object := Function.update e.object o { e.object o with visible := visible } }
    let index := MapObjectModel.indexOfObject e1 o 0
    let e2 := e1.emitObject (ObjectSignal.dataChanged index index)
    e2.emitObject (ObjectSignal.objectsChanged [o])

mutual
/-- Modelled from the spec: the apply step of a command on the whole state. A
layer command calls the direct setter of `LayerModel` (and the slots of the map
object model run); `SetMapObjectVisible` and `ChangeMapObject`
(changemapobject.cpp, not part of the slice) call the direct setters of
`MapObjectModel` for visibility, resp. for name and type; an undo macro applies
its children in order. -/
def Editor.redo (e : Editor) : Command → Editor
  | Command.SetLayerVisible layer visible =>
    e.applyDocument (LayerModel.setLayerVisible e.document layer visible)
  | Command.SetLayerOpacity layer opacity =>
    e.applyDocument (LayerModel.setLayerOpacity e.document layer (toFloat opacity))
  | Command.RenameLayer layer name =>
    e.applyDocument (LayerModel.renameLayer e.document layer name)
  | Command.SetMapObjectVisible o visible => MapObjectModel.setObjectVisible e o visible
  | Command.ChangeMapObject o name type =>
    MapObjectModel.setObjectType (MapObjectModel.setObjectName e o name) o type
  | Command.UndoMacro _ children => Editor.redoAll e children
/-- Applies a sequence of commands to the whole state, first to last. -/
def Editor.redoAll (e : Editor) : List Command → Editor
  | [] => e
  | c :: cs => Editor.redoAll (Editor.redo e c) cs
end

/-- Modelled from the spec: `QUndoStack::push` on the whole state applies the
command at once and records it as the newest entry of the history. -/
def Editor.push (e : Editor) (c : Command) : Editor :=
  let e1 := e.redo c
  { e1 with document := { e1.document with undoStack := e1.document.undoStack ++ [c] } }

/-- The whole state with a macro open on the undo stack. -/
structure OpenEditorMacro where
  editor : Editor
  title : String
  children : List Command

/-- Modelled from the spec: `QUndoStack::beginMacro(title)` on the whole state. -/
def Editor.beginMacro (e : Editor) (title : String) : OpenEditorMacro :=
  { editor := e, title := title, children := [] }

/-- Modelled from the spec: `QUndoStack::push` while a macro is open applies the
command at once and makes it the newest child of the macro. -/
def OpenEditorMacro.push (m : OpenEditorMacro) (c : Command) : OpenEditorMacro :=
  { m with editor := m.editor.redo c, children := m.children ++ [c] }

/-- Modelled from the spec: `QUndoStack::endMacro` closes the macro, which is
then the newest entry of the history. -/
def OpenEditorMacro.endMacro (m : OpenEditorMacro) : Editor :=
  { m.editor with
    document :=
      { m.editor.document with
        undoStack := m.editor.document.undoStack ++ [Command.UndoMacro m.title m.children] } }

/-- Embedding of `MapObjectModel::setData` (mapobjectmodel.cpp:131-188): the
returned flag and the state afterwards. `none` stands for a fault (the
dereference of a null wrapper or of a null layer). -/
def MapObjectModel.setData (e : Editor) (index : ObjectIndex) (value : EditValue)
    (role : Int) : Option (Bool × Editor) :=
  match MapObjectModel.toMapObject index with
  | none => none
  | some (some mapObject) =>
    if role = Qt.CheckStateRole then
      let visible := decide (value.toInt = Qt.Checked)
      if visible ≠ (e.object mapObject).visible then
        some (true, e.push (Command.SetMapObjectVisible mapObject visible))
      else some (true, e)
    else if role = Qt.EditRole then
      let s := value.toString
      let e1 :=
        if index.column = 0 ∧ s ≠ (e.object mapObject).name then
          ((e.beginMacro "Change Object Name").push
            (Command.ChangeMapObject mapObject s (e.object mapObject).type)).endMacro
        else e
      let e2 :=
        if index.column = 1 ∧ s ≠ (e1.object mapObject).type then
          ((e1.beginMacro "Change Object Type").push
            (Command.ChangeMapObject mapObject (e1.object mapObject).name s)).endMacro
        else e1
      some (true, e2)
    else some (false, e)
  | some none =>
    match MapObjectModel.toObjectGroup index with
    | none => none
    | some (some objectGroup) =>
      if role = Qt.CheckStateRole then
        (LayerModel.setData e.document
            (LayerModel.indexOfLayer e.document.world (some objectGroup)) value role).map
          fun r => (true, e.applyDocument r.2)
      else if role = Qt.EditRole then
        let newName := value.toString
        if (e.document.world.layer objectGroup).name ≠ newName then
          some (true, e.push (Command.RenameLayer objectGroup newName))
        else some (true, e)
      else some (false, e)
    | some none => some (false, e)

/-- The two flags that `MapObjectModel::flags` may add to the flags of the base
class. -/
structure ItemFlags where
  userCheckable : Bool
  editable : Bool
  deriving DecidableEq, Repr

/-- Embedding of `MapObjectModel::parent` (mapobjectmodel.cpp:67-73). `none`
stands for the fault of dereferencing a null wrapper. -/
def MapObjectModel.parent (e : Editor) (index : ObjectIndex) : Option ObjectIndex :=
  (MapObjectModel.toMapObject index).map fun mapObject =>
    match mapObject with
    | some o =>
      match (e.object o).objectGroup with
      | some og => MapObjectModel.indexOfGroup e.objectModel.model og
      | none => createObjectIndex (-1) 0 none
    | none => ObjectIndex.invalid

/-- Embedding of `MapObjectModel::flags` (mapobjectmodel.cpp:190-198): the
flags added to those of the base class, which holds neither of the two. -/
def MapObjectModel.flags (e : Editor) (index : ObjectIndex) : Option ItemFlags :=
  if index.column = 0 then some ⟨true, true⟩
  else (MapObjectModel.parent e index).map fun p => ⟨false, p.isValid⟩

/-! ## The map object tree model: inserting, removing and moving objects -/

/-- Modelled from the spec: `ObjectGroup::insertObject(index, object)` of
libtiled (its source is not part of the slice), the insert-at-index of the map
data structure: the object enters the group's sequence at `index` and the
group becomes its owner. -/
def ObjectGroup.insertObject (e : Editor) (og : LayerPtr) (index : Int) (o : ObjectPtr) :
    Editor :=
  { e with
    document := e.document.setLayer og
      { e.document.world.layer og with
        objects := QList.insert (e.document.world.objects og) index o },
    object := Function.update e.object o { e.object o with objectGroup := some og } }

/-- Modelled from the spec: `ObjectGroup::removeObjectAt(index)` of libtiled,
the remove-at-index of the map data structure: the object at `index` leaves
the group's sequence and has no owner afterwards. `none` stands for the fault
of an `index` outside the sequence. -/
def ObjectGroup.removeObjectAt (e : Editor) (og : LayerPtr) (index : Int) : Option Editor :=
  (QList.at (e.document.world.objects og) index).map fun o =>
    { e with
      document := e.document.setLayer og
        { e.document.world.layer og with
          objects := QList.removeAt (e.document.world.objects og) index },
      object := Function.update e.object o { e.object o with objectGroup := none } }

/-- Modelled from the spec: `ObjectGroup::moveObjects(from, to, count)` of
libtiled, the move-range of the map data structure, on the group's sequence:
the `count` objects starting at `fromRow` are taken out and put back, in their
order, in front of the object that was at `toRow` (at the end for `toRow` the
length); nothing moves when `toRow` is the start or the end of the range or
`count` is 0. -/
def ObjectGroup.moveObjects (objects : List ObjectPtr) (fromRow toRow count : Int) :
    List ObjectPtr :=
  if toRow = fromRow ∨ toRow = fromRow + count ∨ count = 0 then objects
  else
    let movingObjects := (objects.drop fromRow.toNat).take count.toNat
    let others := objects.take fromRow.toNat ++ objects.drop (fromRow.toNat + count.toNat)
    let toRow := if toRow > fromRow then toRow - count else toRow
    others.take toRow.toNat ++ movingObjects ++ others.drop toRow.toNat

/-- Modelled from the spec: the move contract of the view framework for a move
of the rows `sourceFirst..sourceLast` within one parent (what
`QAbstractItemModel::beginMoveRows` checks in Qt, outside the repository): the
move is refused when the destination row lies in the moved range or right
after it, that is in `[sourceFirst, sourceLast + 1]`. -/
def QAbstractItemModel.allowMove (sourceFirst sourceLast destinationChild : Int) : Bool :=
  !(decide (destinationChild ≥ sourceFirst) && decide (destinationChild ≤ sourceLast + 1))

/-- The call `beginMoveRows(parent, first, last, parent, child)` of
`MapObjectModel::moveObjects`, which passes the same parent twice: the
returned flag and the state afterwards. An accepted move is announced, a
refused one is not. -/
def MapObjectModel.beginMoveRows (e : Editor) (parent : ObjectIndex)
    (sourceFirst sourceLast destinationChild : Int) : Bool × Editor :=
  if QAbstractItemModel.allowMove sourceFirst sourceLast destinationChild then
    (true, e.emitObject
      (ObjectSignal.beginMoveRows parent sourceFirst sourceLast parent destinationChild))
  else (false, e)

/-- Embedding of `MapObjectModel::insertObject` (mapobjectmodel.cpp:347-355). -/
def MapObjectModel.insertObject (e : Editor) (og : LayerPtr) (index : Int) (o : ObjectPtr) :
    Editor :=
  let row : Int := if index ≥ 0 then index else ((e.document.world.objects og).length : Int)
  let e1 := e.emitObject
    (ObjectSignal.beginInsertRows (MapObjectModel.indexOfGroup e.objectModel.model og) row row)
  let e2 := ObjectGroup.insertObject e1 og row o
  let e3 : Editor :=
    { e2 with
      objectModel :=
        { e2.objectModel with
          model :=
            { e2.objectModel.model with
              mObjects := QMap.insert e2.objectModel.model.mObjects o } } }
  let e4 := e3.emitObject ObjectSignal.endInsertRows
  e4.emitObject (ObjectSignal.objectsAdded [o])

/-- Embedding of `MapObjectModel::removeObject` (mapobjectmodel.cpp:357-369):
the returned row and the state afterwards. `none` stands for the fault of
`removeObjectAt(-1)` for an object that is not in the group. -/
def MapObjectModel.removeObject (e : Editor) (og : LayerPtr) (o : ObjectPtr) :
    Option (Int × Editor) :=
  let objects := [o]
  let row := QList.indexOf (e.document.world.objects og) o
  let e1 := e.emitObject
    (ObjectSignal.beginRemoveRows (MapObjectModel.indexOfGroup e.objectModel.model og) row row)
  (ObjectGroup.removeObjectAt e1 og row).map fun e2 =>
    let e3 : Editor :=
      { e2 with
        objectModel :=
          { e2.objectModel with
            model :=
              { e2.objectModel.model with
                mObjects := QMap.take e2.objectModel.model.mObjects o } } }
    let e4 := e3.emitObject ObjectSignal.endRemoveRows
    (row, e4.emitObject (ObjectSignal.objectsRemoved objects))

/-- Embedding of `MapObjectModel::moveObjects` (mapobjectmodel.cpp:371-381). -/
def MapObjectModel.moveObjects (e : Editor) (og : LayerPtr) (fromRow toRow count : Int) :
    Editor :=
  let parent := MapObjectModel.indexOfGroup e.objectModel.model og
  let r := MapObjectModel.beginMoveRows e parent fromRow (fromRow + count - 1) toRow
  if !r.1 then e
  else
    let e1 := r.2
    let e2 : Editor :=
      { e1 with
        document := e1.document.setLayer og
          { e1.document.world.layer og with
            objects := ObjectGroup.moveObjects (e1.document.world.objects og)
              fromRow toRow count } }
    e2.emitObject ObjectSignal.endMoveRows

/-- Modelled from the spec: `Map::objectGroups()` of libtiled, the object
groups among the layers of the map's layer sequence, in order. -/
def World.objectGroups (w : World) : List LayerPtr :=
  w.mapLayers.filterMap w.asObjectGroup

/-- The loop over `mMap->objectGroups()` of `MapObjectModel::setMapDocument`
(mapobjectmodel.cpp:281-286), over the groups still to visit. -/
def MapObjectModel.setMapDocument.populate (w : World) (m : MapObjectModel) :
    List LayerPtr → MapObjectModel
  | [] => m
  | og :: ogs =>
    let m1 : MapObjectModel :=
      { m with mObjectGroups := m.mObjectGroups ++ [og], mGroups := QMap.insert m.mGroups og }
    let m2 : MapObjectModel :=
      { m1 with mObjects := (w.objects og).foldl (fun keys o => QMap.insert keys o) m1.mObjects }
    MapObjectModel.setMapDocument.populate w m2 ogs

/-- Embedding of `MapObjectModel::setMapDocument` (mapobjectmodel.cpp:253-290).
The member `mMapDocument` records only whether a document is set, so the
result of the pointer comparison `mMapDocument == mapDocument` is the argument
`isCurrent`; `mapDocument` tells whether the new pointer is non-null, and `w`
is the store, with the map of the new document when there is one. -/
def MapObjectModel.setMapDocument (w : World) (s : ObjectModelState) (isCurrent : Bool)
    (mapDocument : Bool) : ObjectModelState :=
  if isCurrent then s
  else
    let s1 := s.emit w ObjectSignal.beginResetModel
    let s2 : ObjectModelState :=
      { s1 with
        model := { mMapDocument := mapDocument, mObjectGroups := [], mGroups := [],
                   mObjects := [] } }
    let s3 : ObjectModelState :=
      if mapDocument then
        { s2 with model := MapObjectModel.setMapDocument.populate w s2.model w.objectGroups }
      else s2
    s3.emit w ObjectSignal.endResetModel

/-! ## The selected objects of the document -/

/-- Modelled from the spec: `MapDocument::deselectObjects` (declared at
mapdocument.h:302, its body is in mapdocument.cpp, not part of the slice)
takes the given objects out of `mSelectedObjects`. -/
def MapDocument.deselectObjects (mSelectedObjects objects : List ObjectPtr) :
    List ObjectPtr :=
  mSelectedObjects.filter fun o => decide (o ∉ objects)

/-- Modelled from the spec: the slot `MapDocument::onObjectsRemoved` (declared
at mapdocument.h:290), which runs on the `objectsRemoved` notification of the
map object model and purges the removed objects from the selection. -/
def MapDocument.onObjectsRemoved (mSelectedObjects objects : List ObjectPtr) :
    List ObjectPtr :=
  MapDocument.deselectObjects mSelectedObjects objects

/-- The selected objects after the slots of the document have run for one
notification of the map object model: of the notifications of the model, only
`objectsRemoved` names removed objects. -/
def MapDocument.selectionAfter (mSelectedObjects : List ObjectPtr) :
    ObjectSignal → List ObjectPtr
  | ObjectSignal.objectsRemoved objects =>
    MapDocument.onObjectsRemoved mSelectedObjects objects
  | _ => mSelectedObjects

/-- The selected objects as they are once the slots have run for each
notification of a log, oldest first. -/
def MapDocument.selectionTrace (mSelectedObjects : List ObjectPtr) :
    List ObjectEmission → List (List ObjectPtr)
  | [] => []
  | e :: es =>
    MapDocument.selectionAfter mSelectedObjects e.signal ::
      MapDocument.selectionTrace (MapDocument.selectionAfter mSelectedObjects e.signal) es

/-- The notifications a call added to the log of the map object model. -/
def Editor.emittedSince (e' e : Editor) : List ObjectEmission :=
  e'.objectModel.emitted.drop e.objectModel.emitted.length

/-! ## The recent files list (`src/tiled/mainwindow.cpp`) -/

/-- The part of `mSettings` that `MainWindow::setRecentFile` reads and writes:
the string list stored under the key `recentFiles/fileNames`. -/
structure QSettings where
  recentFileNames : List String
  deriving DecidableEq, Repr

/-- Embedding of `MainWindow::recentFiles` (mainwindow.cpp:1329-1333). -/
def MainWindow.recentFiles (mSettings : QSettings) : List String :=
  mSettings.recentFileNames

/-- The loop `while (files.size() > MaxRecentFiles) files.removeLast();` of
`MainWindow::setRecentFile` (mainwindow.cpp:1356-1357), for at most `fuel`
rounds. -/
def MainWindow.setRecentFile.removeExcess (MaxRecentFiles : Nat) :
    Nat → List String → List String
  | 0, files => files
  | fuel + 1, files =>
    if files.length > MaxRecentFiles then
      MainWindow.setRecentFile.removeExcess MaxRecentFiles fuel files.dropLast
    else files

/-- Embedding of `MainWindow::setRecentFile` (mainwindow.cpp:1345-1363): the
settings afterwards. The constant `MaxRecentFiles` is declared in
`mainwindow.h`, which is not part of the slice, and is a parameter; so is the
file system, as the function `canonicalFilePath` that gives
`QFileInfo(fileName).canonicalFilePath()` (empty for a file that does not
exist). The loop runs with one round of fuel per entry of the list, which is
enough since each round removes one entry. The menu update
`updateRecentFiles()` does not write the settings. -/
def MainWindow.setRecentFile (MaxRecentFiles : Nat) (canonicalFilePath : String → String)
    (mSettings : QSettings) (fileName : String) : QSettings :=
  let canonicalFilePath := canonicalFilePath fileName
  if canonicalFilePath.isEmpty then mSettings
  else
    let files := MainWindow.recentFiles mSettings
    let files := files.filter fun f => decide (f ≠ canonicalFilePath)
    let files := canonicalFilePath :: files
    let files := MainWindow.setRecentFile.removeExcess MaxRecentFiles files.length files
    { mSettings with recentFileNames := files }

/-! ## A concrete layer tree used for evaluation

Top level: `[1, 2]`. Layer 1 is a group layer with children `[3, 6]`; layer 3
is a group layer (nested) with children `[4]`; layer 6 is an object group;
layers 2 and 4 are tile layers; every other address holds a tile layer that
belongs to no map. -/

/-- A layer object that belongs to no container. -/
def Layer.blank (name : String) (t : LayerType) : Layer :=
  { name := name, visible := true, opacity := 1, offset := (0, 0), layerType := t,
    parentLayer := none, layers := [] }

/-- The store of the example tree. -/
def exampleLayers : LayerPtr → Layer
  | 1 => { Layer.blank "Group" LayerType.GroupLayerType with layers := [3, 6] }
  | 2 => { Layer.blank "Ground" LayerType.TileLayerType with visible := false }
  | 3 => { Layer.blank "Inner" LayerType.GroupLayerType with
           parentLayer := some 1, layers := [4] }
  | 4 => { Layer.blank "Deep" LayerType.TileLayerType with parentLayer := some 3 }
  | 6 => { Layer.blank "Objects" LayerType.ObjectGroupType with
           parentLayer := some 1, opacity := 0 }
  | _ => Layer.blank "New" LayerType.TileLayerType

/-- The example tree. -/
def exampleWorld : World := { mMap := some ⟨[1, 2]⟩, layer := exampleLayers }

/-- The example tree with an empty undo stack and an empty log. -/
def exampleDocument : MapDocument := { world := exampleWorld, undoStack := [], emitted := [] }

/-- A sequence of calls on the example tree: insert layer 5 as second child of
the nested group 3, then take the top-level layer at position 1. -/
def exampleOps : List LayerOp :=
  [LayerOp.insertLayer (some 3) 1 5, LayerOp.takeLayerAt none 1]

/-- The example document after `exampleOps`. -/
def exampleAfterOps : MapDocument :=
  match LayerModel.takeLayerAt (LayerModel.insertLayer exampleDocument (some 3) 1 5) none 1 with
  | some r => r.2
  | none => exampleDocument

/-- Three top-level tile layers: 1 visible, 2 hidden, 3 visible. -/
def toggleExample : MapDocument :=
  { world :=
      { mMap := some ⟨[1, 2, 3]⟩,
        layer := fun p =>
          { Layer.blank "Layer" LayerType.TileLayerType with visible := decide (p ≠ 2) } },
    undoStack := [], emitted := [] }

/-- The example tree cut down to one top-level layer, the group layer 1. -/
def singleLayerExample : MapDocument :=
  { world := { mMap := some ⟨[1]⟩, layer := exampleLayers }, undoStack := [], emitted := [] }

/-- The target visibility of `toggleOtherLayers(layer)`: hide (false) when a
top-level layer other than `layer` is visible, show (true) otherwise. -/
def LayerModel.toggleTarget (w : World) (layer : LayerPtr) : Bool :=
  !(w.mapLayers.any fun l => decide (l ≠ layer) && (w.layer l).visible)

/-- The title of the macro of `toggleOtherLayers` for a target visibility. -/
def LayerModel.toggleTitle (target : Bool) : String :=
  if target then "Show Other Layers" else "Hide Other Layers"

/-- The top-level layers other than `layer` whose visibility differs from the
target, in layer order. -/
def LayerModel.toggleAffected (w : World) (layer : LayerPtr) (target : Bool) :
    List LayerPtr :=
  w.mapLayers.filter fun l => decide (l ≠ layer) && decide (target ≠ (w.layer l).visible)

/-- A layer stack for the map object model: top level `[1, 2, 3, 4]` where 1
and 4 are tile layers, 2 is a group layer with the nested object group 7 as
child, and 3 is an object group with the objects `[10, 11]`; layer 5 is a
detached object group with the object `[12]`, every other address holds a
detached tile layer. -/
def objectExampleWorld : World :=
  { mMap := some ⟨[1, 2, 3, 4]⟩,
    layer := fun p =>
      match p with
      | 2 => { Layer.blank "Group" LayerType.GroupLayerType with layers := [7] }
      | 3 => { Layer.blank "Objects" LayerType.ObjectGroupType with objects := [10, 11] }
      | 5 => { Layer.blank "More" LayerType.ObjectGroupType with objects := [12] }
      | 7 => { Layer.blank "Nested" LayerType.ObjectGroupType with parentLayer := some 2 }
      | _ => Layer.blank "Tiles" LayerType.TileLayerType }

/-- The document of `objectExampleWorld`. -/
def objectExampleDocument : MapDocument :=
  { world := objectExampleWorld, undoStack := [], emitted := [] }

/-- The map object model in sync with `objectExampleWorld`: it tracks the
object group 3 and its objects. -/
def objectExampleModel : ObjectModelState :=
  { model := { mMapDocument := true, mObjectGroups := [3], mGroups := [3], mObjects := [10, 11] },
    emitted := [] }

/-- Whether the layer at an address is an object group. -/
def World.isObjectGroup (w : World) (l : LayerPtr) : Bool :=
  decide ((w.layer l).layerType = LayerType.ObjectGroupType)

/-- The nearest already-tracked object group among the first `n` top-level
layers of the layer stack, that is, before top-level position `n`. -/
def MapObjectModel.nearestTrackedBefore (w : World) (m : MapObjectModel) (n : Nat) :
    Option LayerPtr :=
  ((w.mapLayers.take n).filter fun l =>
    decide (l ∈ m.mObjectGroups) && w.isObjectGroup l).getLast?

/-- The top-level rows of the model mirror the layer stack: the tracked list is
the list of object groups among the map's top-level layers in the same order,
and the groups with a wrapper are the tracked ones. -/
def MapObjectModel.Mirrors (w : World) (m : MapObjectModel) : Prop :=
  m.mObjectGroups = w.mapLayers.filter w.isObjectGroup ∧
  ∀ g, g ∈ m.mGroups ↔ g ∈ m.mObjectGroups

/-- The whole state for `objectExampleWorld`: the objects 10 and 11 of the
object group 3 are visible, named "Door" and "Key", with type tags "exit" and
"item". -/
def editorExample : Editor :=
  { document := objectExampleDocument,
    object := fun o =>
      if o = 10 then ⟨"Door", "exit", true, some 3⟩
      else if o = 11 then ⟨"Key", "item", true, some 3⟩
      else ⟨"", "", true, none⟩,
    objectModel := objectExampleModel }

/-- The identity-wrapper tables are in step with the tracked content: the
groups with a wrapper are exactly the tracked object groups, and the objects
with a wrapper are exactly the objects contained in tracked object groups. -/
def MapObjectModel.WrappersInSync (w : World) (m : MapObjectModel) : Prop :=
  (∀ g, g ∈ m.mGroups ↔ g ∈ m.mObjectGroups) ∧
  (∀ o, o ∈ m.mObjects ↔ ∃ g ∈ m.mObjectGroups, o ∈ w.objects g)

/-- Every map object is owned once: it occurs at most once in the sequence of
a group, and in the sequence of at most one group. -/
def World.ObjectsOwnedOnce (w : World) : Prop :=
  (∀ g, (w.objects g).Nodup) ∧ ∀ g g' o, o ∈ w.objects g → o ∈ w.objects g' → g = g'

/-- The example state with the object 13 in the nested object group 7, which
the model does not track: the state after loading a map that has an object in
an object group nested in a group layer. Object 13 has no wrapper. -/
def nestedObjectExample : Editor :=
  ObjectGroup.insertObject editorExample 7 0 13

/-! ## Addressing: `index(Layer *)`, `toLayer`, `parent` -/

/-- C1 (defect in the code): layer 3 of the example tree is the child at
position 0 of the top-level group layer 1, yet `LayerModel::index(Layer *)`
discards the index it builds for it and returns `createIndex(-1, 0, nullptr)`:
the index is not valid, `toLayer` does not map it back to layer 3, and the
`Q_ASSERT(row != -1)` on the way is violated. The same happens one level
deeper, for layer 4. -/
theorem C1_index_of_nested_layer_is_lost :
    1 ∈ exampleWorld.mapLayers ∧
    (exampleWorld.layer 3).parentLayer = some 1 ∧
    QList.indexOf (exampleWorld.groupLayers 1) 3 = 0 ∧
    LayerModel.indexOfLayer exampleWorld (some 3) = createIndex (-1) 0 none ∧
    (LayerModel.indexOfLayer exampleWorld (some 3)).isValid = false ∧
    LayerModel.toLayer exampleWorld (LayerModel.indexOfLayer exampleWorld (some 3)) ≠ some 3 ∧
    LayerModel.indexOfLayerAsserts exampleWorld 3 = false ∧
    LayerModel.toLayer exampleWorld (createIndex 0 0 (some 1)) = some 3 ∧
    (LayerModel.indexOfLayer exampleWorld (some 4)).isValid = false := by
  decide

/-- C2 (defect in the code): in the example tree `p = index(0, 0, index(0, 0, root))`
is a valid column-0 index that refers to the nested group layer 3, which has
one child; the child index `index(0, 0, p)` is valid and refers to layer 4, but
`parent` of it is `createIndex(-1, 0, nullptr)`, an invalid index, not `p`. -/
theorem C2_parent_of_child_of_nested_group_is_not_the_group :
    LayerModel.index exampleWorld 0 0 (LayerModel.index exampleWorld 0 0 QModelIndex.invalid)
      = createIndex 0 0 (some 1) ∧
    (createIndex 0 0 (some 1)).isValid = true ∧
    LayerModel.toLayer exampleWorld (createIndex 0 0 (some 1)) = some 3 ∧
    exampleWorld.asGroupLayer 3 = some 3 ∧
    (0 : Int) < (exampleWorld.groupLayers 3).length ∧
    (LayerModel.index exampleWorld 0 0 (createIndex 0 0 (some 1))).isValid = true ∧
    LayerModel.toLayer exampleWorld (LayerModel.index exampleWorld 0 0 (createIndex 0 0 (some 1)))
      = some 4 ∧
    LayerModel.parent exampleWorld (LayerModel.index exampleWorld 0 0 (createIndex 0 0 (some 1)))
      = createIndex (-1) 0 none ∧
    LayerModel.parent exampleWorld (LayerModel.index exampleWorld 0 0 (createIndex 0 0 (some 1)))
      ≠ createIndex 0 0 (some 1) := by
  decide

/-- C3 (defect in the code): in the example tree `i = index(1, 0, index(0, 0, root))`
is a valid index whose layer is the object group 6 ("Objects", visible,
opacity 0), a child of group layer 1. `LayerModel::data` looks the layer up
with `mMap->layerAt(i.row())` and so reports the top-level tile layer 2
("Ground", hidden, opacity 1) for every role. -/
theorem C3_data_of_child_index_reads_top_level_layer :
    LayerModel.index exampleWorld 1 0 (LayerModel.index exampleWorld 0 0 QModelIndex.invalid)
      = createIndex 1 0 (some 1) ∧
    (createIndex 1 0 (some 1)).isValid = true ∧
    LayerModel.toLayer exampleWorld (createIndex 1 0 (some 1)) = some 6 ∧
    (exampleWorld.layer 6).name = "Objects" ∧
    (exampleWorld.layer 6).visible = true ∧
    (exampleWorld.layer 6).opacity = 0 ∧
    (exampleWorld.layer 6).layerType = LayerType.ObjectGroupType ∧
    LayerModel.data exampleWorld (createIndex 1 0 (some 1)) Qt.DisplayRole
      = some (QVariant.string "Ground") ∧
    LayerModel.data exampleWorld (createIndex 1 0 (some 1)) Qt.EditRole
      = some (QVariant.string "Ground") ∧
    LayerModel.data exampleWorld (createIndex 1 0 (some 1)) Qt.CheckStateRole
      = some (QVariant.checkState CheckState.Unchecked) ∧
    LayerModel.data exampleWorld (createIndex 1 0 (some 1)) LayerModel.OpacityRole
      = some (QVariant.real 1) ∧
    LayerModel.data exampleWorld (createIndex 1 0 (some 1)) Qt.DecorationRole
      = some (QVariant.icon LayerModel.mTileLayerIcon) := by
  decide

/-! ## Row counts -/

theorem QList.length_insert (l : List LayerPtr) (i : Int) (x : LayerPtr) :
    (QList.insert l i x).length = l.length + 1 := by
  simp only [QList.insert, List.length_append, List.length_cons, List.length_take,
    List.length_drop]
  omega

theorem QList.at_eq_some {l : List LayerPtr} {i : Int} {x : LayerPtr}
    (h : QList.at l i = some x) : 0 ≤ i ∧ i.toNat < l.length ∧ l[i.toNat]? = some x := by
  unfold QList.at at h
  split at h
  · rename_i h0
    have hlt : i.toNat < l.length := by
      by_contra hge
      rw [List.getElem?_eq_none (by omega)] at h
      cases h
    exact ⟨h0, hlt, h⟩
  · cases h

theorem QList.length_removeAt {l : List LayerPtr} {i : Int} {x : LayerPtr}
    (h : QList.at l i = some x) : ((QList.removeAt l i).length : Int) = l.length - 1 := by
  obtain ⟨_, hlt, _⟩ := QList.at_eq_some h
  simp only [QList.removeAt, List.length_append, List.length_take, List.length_drop]
  omega

theorem layers_update_parentLayer (f : LayerPtr → Layer) (p c : LayerPtr)
    (x : Option LayerPtr) :
    (Function.update f p { f p with parentLayer := x } c).layers = (f c).layers := by
  by_cases h : c = p
  · subst h; simp
  · simp [Function.update_noteq h]

theorem World.mapLayers_length (w : World) :
    (w.mapLayers.length : Int) =
      match w.mMap with
      | some m => (m.layers.length : Int)
      | none => 0 := by
  unfold World.mapLayers
  cases w.mMap <;> simp

theorem World.container_length_mapInsertLayer (w : World) (index : Int) (layer : LayerPtr)
    (c : Option LayerPtr) (hm : w.mMap.isSome = true) :
    (((w.mapInsertLayer index layer).container c).length : Int) =
      (w.container c).length + (if (none : Option LayerPtr) = c then 1 else 0) := by
  cases c with
  | none =>
    obtain ⟨m, hm'⟩ := Option.isSome_iff_exists.mp hm
    simp [World.container, World.mapLayers, World.mapInsertLayer, hm', QList.length_insert]
  | some g =>
    simp [World.container, World.groupLayers, World.mapInsertLayer, layers_update_parentLayer]

theorem World.container_length_groupInsertLayer (w : World) (g : LayerPtr) (index : Int)
    (layer : LayerPtr) (c : Option LayerPtr) :
    (((w.groupInsertLayer g index layer).container c).length : Int) =
      (w.container c).length + (if some g = c then 1 else 0) := by
  cases c with
  | none => simp [World.container, World.mapLayers, World.groupInsertLayer]
  | some c =>
    by_cases h : c = g
    · subst h
      simp [World.container, World.groupLayers, World.groupInsertLayer, QList.length_insert,
        layers_update_parentLayer]
    · have h' : ¬ g = c := fun e => h e.symm
      simp [World.container, World.groupLayers, World.groupInsertLayer,
        Function.update_noteq h, layers_update_parentLayer, h']

theorem World.container_length_mapTakeLayerAt (w : World) (index : Int) (layer : LayerPtr)
    (w' : World) (c : Option LayerPtr) (h : w.mapTakeLayerAt index = some (layer, w')) :
    ((w'.container c).length : Int) =
      (w.container c).length + (if (none : Option LayerPtr) = c then -1 else 0) := by
  unfold World.mapTakeLayerAt at h
  cases hat : QList.at w.mapLayers index with
  | none => simp [hat] at h
  | some x =>
    simp only [hat, Option.map_some', Option.some.injEq, Prod.mk.injEq] at h
    obtain ⟨_, rfl⟩ := h
    cases c with
    | none =>
      cases hm : w.mMap with
      | none => simp [World.mapLayers, hm, QList.at] at hat
      | some m =>
        have hat' : QList.at m.layers index = some x := by
          simpa [World.mapLayers, hm] using hat
        simp [World.container, World.mapLayers, hm, QList.length_removeAt hat']
        omega
    | some g =>
      simp [World.container, World.groupLayers, layers_update_parentLayer]

theorem World.container_length_groupTakeLayerAt (w : World) (g : LayerPtr) (index : Int)
    (layer : LayerPtr) (w' : World) (c : Option LayerPtr)
    (h : w.groupTakeLayerAt g index = some (layer, w')) :
    ((w'.container c).length : Int) =
      (w.container c).length + (if some g = c then -1 else 0) := by
  unfold World.groupTakeLayerAt at h
  cases hat : QList.at (w.groupLayers g) index with
  | none => simp [hat] at h
  | some x =>
    simp only [hat, Option.map_some', Option.some.injEq, Prod.mk.injEq] at h
    obtain ⟨_, rfl⟩ := h
    cases c with
    | none => simp [World.container, World.mapLayers]
    | some c =>
      by_cases hc : c = g
      · subst hc
        have hat' : QList.at (w.layer c).layers index = some x := hat
        simp [World.container, World.groupLayers, layers_update_parentLayer,
          QList.length_removeAt hat']
        omega
      · have h' : ¬ g = c := fun e => hc e.symm
        simp [World.container, World.groupLayers, layers_update_parentLayer,
          Function.update_noteq hc, h']

theorem LayerModel.insertLayer_world (d : MapDocument) (parentLayer : Option LayerPtr)
    (index : Int) (layer : LayerPtr) :
    (LayerModel.insertLayer d parentLayer index layer).world =
      d.world.insertLayer parentLayer index layer := rfl

theorem LayerModel.takeLayerAt_eq (d : MapDocument) (parentLayer : Option LayerPtr)
    (index : Int) :
    LayerModel.takeLayerAt d parentLayer index =
      (d.world.takeLayerAt parentLayer index).map fun (r : LayerPtr × World) =>
        (r.1,
         ({ world := r.2, undoStack := d.undoStack,
            emitted := d.emitted ++
              [Emission.mk (Signal.layerAboutToBeRemoved parentLayer index) d.world,
               Emission.mk
                 (Signal.beginRemoveRows (LayerModel.indexOfLayer d.world parentLayer) index index)
                 d.world,
               Emission.mk Signal.endRemoveRows r.2,
               Emission.mk (Signal.layerRemoved r.1) r.2] } : MapDocument)) := by
  simp [LayerModel.takeLayerAt, MapDocument.emit, List.append_assoc]

theorem LayerModel.takeLayerAt_world {d : MapDocument} {parentLayer : Option LayerPtr}
    {index : Int} {layer : LayerPtr} {d' : MapDocument}
    (h : LayerModel.takeLayerAt d parentLayer index = some (layer, d')) :
    d.world.takeLayerAt parentLayer index = some (layer, d'.world) := by
  rw [LayerModel.takeLayerAt_eq] at h
  generalize d.world.takeLayerAt parentLayer index = t at h ⊢
  cases t with
  | none => simp at h
  | some r =>
    simp only [Option.map_some', Option.some.injEq, Prod.mk.injEq] at h
    obtain ⟨h1, h2⟩ := h
    subst h1
    subst h2
    simp

theorem World.mMap_isSome_mapTakeLayerAt {w w' : World} {index : Int} {layer : LayerPtr}
    (h : w.mapTakeLayerAt index = some (layer, w')) : w'.mMap.isSome = w.mMap.isSome := by
  unfold World.mapTakeLayerAt at h
  cases hat : QList.at w.mapLayers index with
  | none => simp [hat] at h
  | some x =>
    simp only [hat, Option.map_some', Option.some.injEq, Prod.mk.injEq] at h
    obtain ⟨_, rfl⟩ := h
    cases w.mMap <;> rfl

theorem World.mMap_groupTakeLayerAt {w w' : World} {g : LayerPtr} {index : Int}
    {layer : LayerPtr} (h : w.groupTakeLayerAt g index = some (layer, w')) :
    w'.mMap = w.mMap := by
  unfold World.groupTakeLayerAt at h
  cases hat : QList.at (w.groupLayers g) index with
  | none => simp [hat] at h
  | some x =>
    simp only [hat, Option.map_some', Option.some.injEq, Prod.mk.injEq] at h
    obtain ⟨_, rfl⟩ := h
    rfl

/-- One successful call changes the size of every container by its `delta`
and keeps the map set. -/
theorem LayerOp.run_container_length {d d' : MapDocument} {op : LayerOp}
    (hm : d.world.mMap.isSome = true) (h : op.run d = some d') (c : Option LayerPtr) :
    d'.world.mMap.isSome = true ∧
    ((d'.world.container c).length : Int) = (d.world.container c).length + op.delta c := by
  cases op with
  | insertLayer parentLayer index layer =>
    simp only [LayerOp.run, Option.some.injEq] at h
    subst h
    rw [LayerModel.insertLayer_world]
    cases parentLayer with
    | none =>
      refine ⟨?_, World.container_length_mapInsertLayer _ _ _ _ hm⟩
      obtain ⟨m, hm'⟩ := Option.isSome_iff_exists.mp hm
      simp [World.insertLayer, World.mapInsertLayer, hm']
    | some g =>
      exact ⟨hm, World.container_length_groupInsertLayer _ _ _ _ _⟩
  | takeLayerAt parentLayer index =>
    simp only [LayerOp.run] at h
    cases ht : LayerModel.takeLayerAt d parentLayer index with
    | none => simp [ht] at h
    | some r =>
      obtain ⟨layer, d1⟩ := r
      simp only [ht, Option.map_some', Option.some.injEq] at h
      subst h
      have hw := LayerModel.takeLayerAt_world ht
      cases parentLayer with
      | none =>
        exact ⟨(World.mMap_isSome_mapTakeLayerAt hw).trans hm,
          World.container_length_mapTakeLayerAt _ _ _ _ _ hw⟩
      | some g =>
        exact ⟨(congrArg Option.isSome (World.mMap_groupTakeLayerAt hw)).trans hm,
          World.container_length_groupTakeLayerAt _ _ _ _ _ _ hw⟩

/-- A successful sequence of calls changes the size of every container by the
sum of the calls' `delta`. -/
theorem LayerOp.runAll_container_length (ops : List LayerOp) {d d' : MapDocument}
    (hm : d.world.mMap.isSome = true) (h : LayerOp.runAll d ops = some d')
    (c : Option LayerPtr) :
    d'.world.mMap.isSome = true ∧
    ((d'.world.container c).length : Int) =
      (d.world.container c).length + (ops.map (LayerOp.delta c)).sum := by
  induction ops generalizing d with
  | nil =>
    simp only [LayerOp.runAll, Option.some.injEq] at h
    subst h
    simp [hm]
  | cons op ops ih =>
    simp only [LayerOp.runAll] at h
    cases h1 : op.run d with
    | none => simp [h1] at h
    | some d1 =>
      simp only [h1, Option.some_bind] at h
      obtain ⟨hm1, hlen1⟩ := LayerOp.run_container_length hm h1 c
      obtain ⟨hm2, hlen2⟩ := ih hm1 h
      refine ⟨hm2, ?_⟩
      rw [hlen2, hlen1]
      simp only [List.map_cons, List.sum_cons]
      omega

theorem QModelIndex.isValid_createIndex {row column : Int} (ptr : Option LayerPtr)
    (hr : 0 ≤ row) (hc : 0 ≤ column) : (createIndex row column ptr).isValid = true := by
  simp [createIndex, QModelIndex.isValid, hr, hc]

theorem LayerModel.rowCount_of_toLayer {w : World} {i : QModelIndex} {l : LayerPtr}
    (hv : i.isValid = true) (hl : LayerModel.toLayer w i = some l) :
    LayerModel.rowCount w i =
      if (w.layer l).layerType = LayerType.GroupLayerType then
        ((w.layer l).layers.length : Int) else 0 := by
  unfold LayerModel.rowCount
  rw [if_pos hv, hl]
  by_cases hg : (w.layer l).layerType = LayerType.GroupLayerType
  · simp [World.asGroupLayer, World.groupLayers, hg]
  · simp [World.asGroupLayer, hg]

/-- The index `index(row, column, parent)` of an existing row of the live
container below `parent` is valid and `toLayer` resolves it to that row's layer. -/
theorem LayerModel.toLayer_index {w : World} {row column : Int} {parent : QModelIndex}
    {l : LayerPtr} (hc : 0 ≤ column)
    (hl : QList.at (LayerModel.childrenOf w parent) row = some l) :
    (LayerModel.index w row column parent).isValid = true ∧
    LayerModel.toLayer w (LayerModel.index w row column parent) = some l := by
  obtain ⟨hr, hlt, _⟩ := QList.at_eq_some hl
  unfold LayerModel.childrenOf at hl hlt
  unfold LayerModel.index
  by_cases hp : parent.isValid = true
  · rw [if_pos hp] at hl hlt
    simp only [hp, Bool.not_true, Bool.false_eq_true, if_false]
    cases hpl : LayerModel.toLayer w parent with
    | none => simp [hpl] at hlt
    | some g =>
      simp only [hpl] at hl hlt ⊢
      by_cases hg : (w.layer g).layerType = LayerType.GroupLayerType
      · rw [if_pos hg] at hl hlt
        have hrow : row < ((w.groupLayers g).length : Int) := by
          simp only [World.groupLayers]; omega
        simp only [World.asGroupLayer, hg, if_true, hrow]
        have hv := QModelIndex.isValid_createIndex (some g) hr hc
        refine ⟨hv, ?_⟩
        unfold LayerModel.toLayer
        simp only [hv, Bool.not_true, Bool.false_eq_true, if_false]
        exact hl
      · simp [hg] at hlt
  · have hp' : parent.isValid = false := by simpa using hp
    simp only [hp', Bool.false_eq_true, if_false] at hl hlt
    have hrow : row < (w.mapLayers.length : Int) := by omega
    simp only [hp', Bool.not_false, if_true, hrow]
    have hv := QModelIndex.isValid_createIndex none hr hc
    refine ⟨hv, ?_⟩
    unfold LayerModel.toLayer
    simp only [hv, Bool.not_true, Bool.false_eq_true, if_false]
    exact hl

theorem LayerModel.rowCount_root {w : World} {root : QModelIndex}
    (h : root.isValid = false) :
    LayerModel.rowCount w root = (w.container none).length := by
  unfold LayerModel.rowCount
  simp only [h, Bool.false_eq_true, if_false, World.container]
  exact (World.mapLayers_length w).symm

/-- C4: after every sequence of `insertLayer`/`takeLayerAt` calls that runs
through, `rowCount` agrees with the live map. Below the root it is the map's
top-level layer count (0 when no map is set), and that count is the count
before the sequence plus one per top-level insertion minus one per top-level
removal. For every existing row of the live container below any parent index
(the root, or the index of a group layer at any depth), `index(row, column,
parent)` is a valid index that resolves to that row's layer, and `rowCount` of it
is that layer's child count when it is a group layer and 0 otherwise; the child
count of a group layer is its count before the sequence plus the insertions
into it minus the removals from it. -/
theorem C4_rowCount_agrees_with_live_map (d : MapDocument) (ops : List LayerOp)
    (d' : MapDocument) (h : LayerOp.runAll d ops = some d') :
    (∀ root : QModelIndex, root.isValid = false →
      LayerModel.rowCount d'.world root =
        (match d'.world.mMap with
          | some m => (m.layers.length : Int)
          | none => 0) ∧
      (d.world.mMap.isSome = true →
        LayerModel.rowCount d'.world root =
          LayerModel.rowCount d.world root + (ops.map (LayerOp.delta none)).sum)) ∧
    (∀ (row column : Int) (parent : QModelIndex) (l : LayerPtr),
      0 ≤ column → QList.at (LayerModel.childrenOf d'.world parent) row = some l →
      (LayerModel.index d'.world row column parent).isValid = true ∧
      LayerModel.toLayer d'.world (LayerModel.index d'.world row column parent) = some l ∧
      LayerModel.rowCount d'.world (LayerModel.index d'.world row column parent) =
        (if (d'.world.layer l).layerType = LayerType.GroupLayerType then
          ((d'.world.layer l).layers.length : Int) else 0)) ∧
    (∀ g : LayerPtr, d.world.mMap.isSome = true →
      ((d'.world.layer g).layers.length : Int) =
        (d.world.layer g).layers.length + (ops.map (LayerOp.delta (some g))).sum) := by
  refine ⟨fun root hroot => ⟨?_, fun hm => ?_⟩, fun row column parent l hc hl => ?_,
    fun g hm => ?_⟩
  · unfold LayerModel.rowCount
    simp only [hroot, Bool.false_eq_true, if_false]
  · rw [LayerModel.rowCount_root hroot, LayerModel.rowCount_root hroot]
    exact (LayerOp.runAll_container_length ops hm h none).2
  · obtain ⟨hv, ht⟩ := LayerModel.toLayer_index hc hl
    exact ⟨hv, ht, LayerModel.rowCount_of_toLayer hv ht⟩
  · exact (LayerOp.runAll_container_length ops hm h (some g)).2

/-- Witness for C4 on the example tree: after inserting layer 5 into the nested
group 3 and taking the top-level layer at position 1, the root has 1 row (2
before, one top-level removal), the nested group 3, addressed as
`index(0, 0, index(0, 0, root))`, has 2 rows (1 before, one insertion), and its
tile-layer child at row 1 has 0 rows. -/
theorem C4_rowCount_agrees_with_live_map_witness :
    LayerOp.runAll exampleDocument exampleOps = some exampleAfterOps ∧
    LayerModel.rowCount exampleAfterOps.world QModelIndex.invalid = 1 ∧
    LayerModel.rowCount exampleAfterOps.world QModelIndex.invalid =
      LayerModel.rowCount exampleDocument.world QModelIndex.invalid + -1 ∧
    LayerModel.rowCount exampleAfterOps.world
      (LayerModel.index exampleAfterOps.world 0 0 (createIndex 0 0 none)) = 2 ∧
    LayerModel.rowCount exampleAfterOps.world
      (LayerModel.index exampleAfterOps.world 1 0 (createIndex 0 0 (some 1))) = 0 ∧
    ((exampleAfterOps.world.layer 3).layers.length : Int) =
      (exampleDocument.world.layer 3).layers.length + 1 :=
  have h := C4_rowCount_agrees_with_live_map exampleDocument exampleOps exampleAfterOps rfl
  ⟨rfl,
   ((h.1 QModelIndex.invalid rfl).1).trans (by decide),
   ((h.1 QModelIndex.invalid rfl).2 rfl).trans (by decide),
   ((h.2.1 0 0 (createIndex 0 0 none) 3 (by decide) (by decide)).2.2).trans (by decide),
   ((h.2.1 1 0 (createIndex 0 0 (some 1)) 5 (by decide) (by decide)).2.2).trans (by decide),
   (h.2.2 3 rfl).trans (by decide)⟩

/-! ## Numbers -/

theorem toFloat_zero : toFloat 0 = 0 := by
  simp [toFloat]

theorem qFuzzyIsNull_zero : qFuzzyIsNull 0 = true := by
  simp [qFuzzyIsNull]

theorem QPointF.eq_self (p : ℚ × ℚ) : QPointF.eq p p = true := by
  simp [QPointF.eq, qFuzzyIsNull_zero]

theorem QPointF.eq_of_eq {p1 p2 : ℚ × ℚ} (h : p1 = p2) : QPointF.eq p1 p2 = true := by
  rw [h]; exact QPointF.eq_self p2

theorem QPointF.eq_origin_unit : QPointF.eq (0, 0) (1, 0) = false := by
  norm_num [QPointF.eq, qFuzzyIsNull]

theorem QPointF.eq_origin_close : QPointF.eq (0, 0) (1 / 10000000000000, 0) = true := by
  norm_num [QPointF.eq, qFuzzyIsNull, abs_of_pos]

/-! ## `setData` -/

mutual
theorem Command.redo_undoStack (d : MapDocument) (c : Command) :
    (c.redo d).undoStack = d.undoStack := by
  cases c with
  | SetLayerVisible layer visible =>
    simp only [Command.redo, LayerModel.setLayerVisible]; split <;> rfl
  | SetLayerOpacity layer opacity =>
    simp only [Command.redo, LayerModel.setLayerOpacity]; split <;> rfl
  | RenameLayer layer name =>
    simp only [Command.redo, LayerModel.renameLayer]; split <;> rfl
  | SetMapObjectVisible mapObject visible => simp only [Command.redo]
  | ChangeMapObject mapObject name type => simp only [Command.redo]
  | UndoMacro title children =>
    simp only [Command.redo]
    exact Command.redoAll_undoStack d children
theorem Command.redoAll_undoStack (d : MapDocument) (cs : List Command) :
    (Command.redoAll d cs).undoStack = d.undoStack := by
  cases cs with
  | nil => simp only [Command.redoAll]
  | cons c cs =>
    simp only [Command.redoAll]
    rw [Command.redoAll_undoStack (Command.redo d c) cs, Command.redo_undoStack d c]
end

/-- C6: `setData` returns false and leaves the whole document (layers, map,
undo stack, log) unchanged when the index is valid, the role is `OpacityRole`
and the value does not parse as a number; when the index is invalid; and when
the role is none of `CheckStateRole`, `OpacityRole`, `EditRole`. -/
theorem C6_setData_rejects_without_effect (d : MapDocument) (index : QModelIndex)
    (value : EditValue) (role : Int)
    (h : (index.isValid = true ∧ role = LayerModel.OpacityRole ∧ value.toDouble = none) ∨
         index.isValid = false ∨
         (role ≠ Qt.CheckStateRole ∧ role ≠ LayerModel.OpacityRole ∧ role ≠ Qt.EditRole)) :
    LayerModel.setData d index value role = some (false, d) := by
  have hOpacity : LayerModel.OpacityRole ≠ Qt.CheckStateRole := by decide
  by_cases hv : index.isValid = true
  · rcases h with ⟨_, hr, hd⟩ | hi | ⟨h1, h2, h3⟩
    · subst hr
      simp [LayerModel.setData, hv, hd, hOpacity]
    · rw [hv] at hi; cases hi
    · simp [LayerModel.setData, hv, h1, h2, h3]
  · have hv' : index.isValid = false := by simpa using hv
    simp [LayerModel.setData, hv']

/-! ## Direct setters -/

/-- C7: each direct setter called with the layer's current value returns the
document unchanged: no attribute of any layer changes and nothing is added to
the log of notifications (neither `dataChanged` nor `layerChanged`). -/
theorem C7_setters_are_noops_on_equal_value (d : MapDocument) (layer : LayerPtr) :
    LayerModel.setLayerVisible d layer (d.world.layer layer).visible = d ∧
    LayerModel.setLayerOpacity d layer (d.world.layer layer).opacity = d ∧
    LayerModel.setLayerOffset d layer (d.world.layer layer).offset = d ∧
    LayerModel.renameLayer d layer (d.world.layer layer).name = d := by
  simp [LayerModel.setLayerVisible, LayerModel.setLayerOpacity, LayerModel.setLayerOffset,
    LayerModel.renameLayer, QPointF.eq_self]

theorem QList.indexOf_of_mem {l : List LayerPtr} {x : LayerPtr} (h : x ∈ l) :
    0 ≤ QList.indexOf l x ∧ QList.at l (QList.indexOf l x) = some x := by
  simp only [QList.indexOf, h, if_true, QList.at, Int.toNat_ofNat]
  exact ⟨Int.ofNat_nonneg _, by simp [List.getElem?_indexOf h]⟩

/-- For a top-level layer `index(Layer *)` is the layer's own cell: a valid
column-0 index without parent that `toLayer` resolves to the layer. -/
theorem LayerModel.toLayer_indexOfLayer_topLevel {w : World} {l : LayerPtr}
    (h : l ∈ w.mapLayers) :
    (LayerModel.indexOfLayer w (some l)).isValid = true ∧
    (LayerModel.indexOfLayer w (some l)).column = 0 ∧
    (LayerModel.indexOfLayer w (some l)).internalPointer = none ∧
    LayerModel.toLayer w (LayerModel.indexOfLayer w (some l)) = some l := by
  obtain ⟨h0, hat⟩ := QList.indexOf_of_mem h
  have hv : (createIndex (QList.indexOf w.mapLayers l) 0 none).isValid = true :=
    QModelIndex.isValid_createIndex none h0 (le_refl 0)
  refine ⟨hv, rfl, rfl, ?_⟩
  show LayerModel.toLayer w (createIndex (QList.indexOf w.mapLayers l) 0 none) = some l
  unfold LayerModel.toLayer
  simp only [hv, Bool.not_true, Bool.false_eq_true, if_false]
  exact hat

theorem MapDocument.storesOnly_setLayer (d : MapDocument) (layer : LayerPtr) (v : Layer) :
    StoresOnly d (d.setLayer layer v) layer v := by
  refine ⟨by simp [MapDocument.setLayer], fun p hp => ?_, rfl, rfl⟩
  simp [MapDocument.setLayer, Function.update_noteq hp]

/-- C8 as stated fails: in the example tree layer 2 has opacity 1 and offset
(0, 0); `setLayerOpacity(2, 0)` and `setLayerOffset(2, (1, 0))` change the
value but emit `layerChanged(2)` only, no `dataChanged` at all. And
`setLayerOffset(2, (1/10^13, 0))`, with an offset that differs from the
current one by less than the tolerance of the `QPointF` comparison, stores and
emits nothing. -/
theorem C8_opacity_and_offset_emit_no_dataChanged :
    (exampleDocument.world.layer 2).opacity ≠ 0 ∧
    (exampleDocument.world.layer 2).offset ≠ (1, 0) ∧
    (LayerModel.setLayerOpacity exampleDocument 2 0).signals = [Signal.layerChanged 2] ∧
    (LayerModel.setLayerOffset exampleDocument 2 (1, 0)).signals = [Signal.layerChanged 2] ∧
    (¬ ∃ topLeft bottomRight : QModelIndex,
      Signal.dataChanged topLeft bottomRight ∈
        (LayerModel.setLayerOpacity exampleDocument 2 0).signals) ∧
    (¬ ∃ topLeft bottomRight : QModelIndex,
      Signal.dataChanged topLeft bottomRight ∈
        (LayerModel.setLayerOffset exampleDocument 2 (1, 0)).signals) ∧
    (exampleDocument.world.layer 2).offset ≠ (1 / 10000000000000, 0) ∧
    LayerModel.setLayerOffset exampleDocument 2 (1 / 10000000000000, 0) = exampleDocument := by
  have h1 : (LayerModel.setLayerOpacity exampleDocument 2 0).signals = [Signal.layerChanged 2] := by
    decide
  have hg : QPointF.eq (exampleDocument.world.layer 2).offset (1, 0) = false :=
    QPointF.eq_origin_unit
  have hc : QPointF.eq (exampleDocument.world.layer 2).offset (1 / 10000000000000, 0) = true :=
    QPointF.eq_origin_close
  have h2 : (LayerModel.setLayerOffset exampleDocument 2 (1, 0)).signals =
      [Signal.layerChanged 2] := by
    simp only [LayerModel.setLayerOffset, hg]
    rfl
  refine ⟨by decide, by decide, h1, h2, ?_, ?_, ?_, ?_⟩
  · rintro ⟨a, b, h⟩
    rw [h1] at h
    simp at h
  · rintro ⟨a, b, h⟩
    rw [h2] at h
    simp at h
  · show ((0 : ℚ), (0 : ℚ)) ≠ (1 / 10000000000000, 0)
    intro h
    have := congrArg Prod.fst h
    norm_num at this
  · simp only [LayerModel.setLayerOffset, hc, if_true]

/-- C8 (amended): each of the four direct setters, called with a value that
differs from the layer's current one (for `setLayerOffset`: that the `QPointF`
comparison tells apart from it), stores the new value in that attribute only
(the layer's other attributes, all other layers, the map and the undo stack
are unchanged) and emits `layerChanged` for the layer as the last
notification. `setLayerVisible` and `renameLayer` emit, before it,
`dataChanged` for `index(layer)`, which for a top-level layer is the layer's
own cell; `setLayerOpacity` and `setLayerOffset` emit `layerChanged` and
nothing else. An offset that the `QPointF` comparison takes as equal to the
current one leaves the document unchanged. -/
theorem C8_setters_store_and_notify (d : MapDocument) (layer : LayerPtr) :
    (∀ visible : Bool, (d.world.layer layer).visible ≠ visible →
      StoresOnly d (LayerModel.setLayerVisible d layer visible) layer
        { d.world.layer layer with visible := visible } ∧
      (LayerModel.setLayerVisible d layer visible).signals =
        d.signals ++
          [Signal.dataChanged
            (LayerModel.indexOfLayer (LayerModel.setLayerVisible d layer visible).world
              (some layer))
            (LayerModel.indexOfLayer (LayerModel.setLayerVisible d layer visible).world
              (some layer)),
           Signal.layerChanged layer] ∧
      (layer ∈ d.world.mapLayers →
        (LayerModel.indexOfLayer (LayerModel.setLayerVisible d layer visible).world
          (some layer)).isValid = true ∧
        (LayerModel.indexOfLayer (LayerModel.setLayerVisible d layer visible).world
          (some layer)).column = 0 ∧
        LayerModel.toLayer (LayerModel.setLayerVisible d layer visible).world
          (LayerModel.indexOfLayer (LayerModel.setLayerVisible d layer visible).world
            (some layer)) = some layer)) ∧
    (∀ name : String, (d.world.layer layer).name ≠ name →
      StoresOnly d (LayerModel.renameLayer d layer name) layer
        { d.world.layer layer with name := name } ∧
      (LayerModel.renameLayer d layer name).signals =
        d.signals ++
          [Signal.dataChanged
            (LayerModel.indexOfLayer (LayerModel.renameLayer d layer name).world (some layer))
            (LayerModel.indexOfLayer (LayerModel.renameLayer d layer name).world (some layer)),
           Signal.layerChanged layer] ∧
      (layer ∈ d.world.mapLayers →
        (LayerModel.indexOfLayer (LayerModel.renameLayer d layer name).world
          (some layer)).isValid = true ∧
        (LayerModel.indexOfLayer (LayerModel.renameLayer d layer name).world
          (some layer)).column = 0 ∧
        LayerModel.toLayer (LayerModel.renameLayer d layer name).world
          (LayerModel.indexOfLayer (LayerModel.renameLayer d layer name).world
            (some layer)) = some layer)) ∧
    (∀ opacity : ℚ, (d.world.layer layer).opacity ≠ opacity →
      StoresOnly d (LayerModel.setLayerOpacity d layer opacity) layer
        { d.world.layer layer with opacity := opacity } ∧
      (LayerModel.setLayerOpacity d layer opacity).signals =
        d.signals ++ [Signal.layerChanged layer]) ∧
    (∀ offset : ℚ × ℚ,
      (QPointF.eq (d.world.layer layer).offset offset = false →
        StoresOnly d (LayerModel.setLayerOffset d layer offset) layer
          { d.world.layer layer with offset := offset } ∧
        (LayerModel.setLayerOffset d layer offset).signals =
          d.signals ++ [Signal.layerChanged layer]) ∧
      (QPointF.eq (d.world.layer layer).offset offset = true →
        LayerModel.setLayerOffset d layer offset = d)) := by
  refine ⟨fun visible h => ?_, fun name h => ?_, fun opacity h => ?_,
    fun offset => ⟨fun h => ?_, fun h => ?_⟩⟩
  · have e : LayerModel.setLayerVisible d layer visible =
        ((d.setLayer layer { d.world.layer layer with visible := visible }).emit
          (Signal.dataChanged
            (LayerModel.indexOfLayer
              (d.setLayer layer { d.world.layer layer with visible := visible }).world
              (some layer))
            (LayerModel.indexOfLayer
              (d.setLayer layer { d.world.layer layer with visible := visible }).world
              (some layer)))).emit (Signal.layerChanged layer) := by
      simp [LayerModel.setLayerVisible, h]
    rw [e]
    refine ⟨MapDocument.storesOnly_setLayer d layer _,
      by simp [MapDocument.signals, MapDocument.emit, MapDocument.setLayer], fun hmem => ?_⟩
    have hmem' : layer ∈
        (d.setLayer layer { d.world.layer layer with visible := visible }).world.mapLayers :=
      hmem
    obtain ⟨hv, hc, _, ht⟩ := LayerModel.toLayer_indexOfLayer_topLevel hmem'
    exact ⟨hv, hc, ht⟩
  · have e : LayerModel.renameLayer d layer name =
        ((d.setLayer layer { d.world.layer layer with name := name }).emit
          (Signal.dataChanged
            (LayerModel.indexOfLayer
              (d.setLayer layer { d.world.layer layer with name := name }).world (some layer))
            (LayerModel.indexOfLayer
              (d.setLayer layer { d.world.layer layer with name := name }).world
              (some layer)))).emit (Signal.layerChanged layer) := by
      simp [LayerModel.renameLayer, h]
    rw [e]
    refine ⟨MapDocument.storesOnly_setLayer d layer _,
      by simp [MapDocument.signals, MapDocument.emit, MapDocument.setLayer], fun hmem => ?_⟩
    have hmem' : layer ∈
        (d.setLayer layer { d.world.layer layer with name := name }).world.mapLayers := hmem
    obtain ⟨hv, hc, _, ht⟩ := LayerModel.toLayer_indexOfLayer_topLevel hmem'
    exact ⟨hv, hc, ht⟩
  · have e : LayerModel.setLayerOpacity d layer opacity =
        (d.setLayer layer { d.world.layer layer with opacity := opacity }).emit
          (Signal.layerChanged layer) := by
      simp [LayerModel.setLayerOpacity, h]
    rw [e]
    exact ⟨MapDocument.storesOnly_setLayer d layer _,
      by simp [MapDocument.signals, MapDocument.emit, MapDocument.setLayer]⟩
  · have e : LayerModel.setLayerOffset d layer offset =
        (d.setLayer layer { d.world.layer layer with offset := offset }).emit
          (Signal.layerChanged layer) := by
      simp [LayerModel.setLayerOffset, h]
    rw [e]
    exact ⟨MapDocument.storesOnly_setLayer d layer _,
      by simp [MapDocument.signals, MapDocument.emit, MapDocument.setLayer]⟩
  · simp [LayerModel.setLayerOffset, h]

/-- Witness for C6 on the example tree: a non-numeric opacity write to layer 2,
a write through the invalid index, and a write with `DecorationRole`. -/
theorem C6_setData_rejects_without_effect_witness :
    LayerModel.setData exampleDocument (createIndex 1 0 none) ⟨0, none, "abc"⟩
        LayerModel.OpacityRole = some (false, exampleDocument) ∧
    LayerModel.setData exampleDocument QModelIndex.invalid ⟨2, some 0, "x"⟩
        Qt.CheckStateRole = some (false, exampleDocument) ∧
    LayerModel.setData exampleDocument (createIndex 1 0 none) ⟨2, some 0, "x"⟩
        Qt.DecorationRole = some (false, exampleDocument) :=
  ⟨C6_setData_rejects_without_effect exampleDocument (createIndex 1 0 none) ⟨0, none, "abc"⟩
      LayerModel.OpacityRole (Or.inl ⟨by decide, rfl, rfl⟩),
   C6_setData_rejects_without_effect exampleDocument QModelIndex.invalid ⟨2, some 0, "x"⟩
      Qt.CheckStateRole (Or.inr (Or.inl (by decide))),
   C6_setData_rejects_without_effect exampleDocument (createIndex 1 0 none) ⟨2, some 0, "x"⟩
      Qt.DecorationRole (Or.inr (Or.inr (by decide)))⟩

/-- Witness for C8 (amended) on the example tree, for the top-level layer 2
(hidden, named "Ground", opacity 1, offset (0, 0)) and for layer 3, which is
nested in the group layer 1 (visible). -/
theorem C8_setters_store_and_notify_witness :
    2 ∈ exampleDocument.world.mapLayers ∧
    StoresOnly exampleDocument (LayerModel.setLayerVisible exampleDocument 2 true) 2
      { exampleDocument.world.layer 2 with visible := true } ∧
    (LayerModel.setLayerVisible exampleDocument 2 true).signals =
      [Signal.dataChanged (createIndex 1 0 none) (createIndex 1 0 none),
       Signal.layerChanged 2] ∧
    LayerModel.toLayer (LayerModel.setLayerVisible exampleDocument 2 true).world
      (LayerModel.indexOfLayer (LayerModel.setLayerVisible exampleDocument 2 true).world
        (some 2)) = some 2 ∧
    StoresOnly exampleDocument (LayerModel.setLayerVisible exampleDocument 3 false) 3
      { exampleDocument.world.layer 3 with visible := false } ∧
    StoresOnly exampleDocument (LayerModel.renameLayer exampleDocument 2 "Floor") 2
      { exampleDocument.world.layer 2 with name := "Floor" } ∧
    (LayerModel.setLayerOpacity exampleDocument 2 0).signals =
      exampleDocument.signals ++ [Signal.layerChanged 2] ∧
    StoresOnly exampleDocument (LayerModel.setLayerOffset exampleDocument 2 (1, 0)) 2
      { exampleDocument.world.layer 2 with offset := (1, 0) } ∧
    LayerModel.setLayerOffset exampleDocument 2 (1 / 10000000000000, 0) = exampleDocument :=
  have h := C8_setters_store_and_notify exampleDocument 2
  have h3 := C8_setters_store_and_notify exampleDocument 3
  ⟨by decide, (h.1 true (by decide)).1, (h.1 true (by decide)).2.1.trans (by decide),
   ((h.1 true (by decide)).2.2 (by decide)).2.2,
   (h3.1 false (by decide)).1,
   (h.2.1 "Floor" (by decide)).1, (h.2.2.1 0 (by decide)).2,
   ((h.2.2.2 (1, 0)).1 QPointF.eq_origin_unit).1,
   (h.2.2.2 (1 / 10000000000000, 0)).2 QPointF.eq_origin_close⟩

/-! ## Structural mutation -/

/-- C9 (defect in the code): inserting layer 5 at position 1 of the nested
group layer 3 of the example tree (child count 1, so the position is in range)
puts layer 5 there, but the rows-about-to-be-inserted bracket is opened under
`createIndex(-1, 0, nullptr)`, the value `LayerModel::index(Layer *)` returns
for the nested parent: an invalid index, which stands for the root, while the
index that addresses group layer 3 is `createIndex(0, 0, layer 1)`. -/
theorem C9_insert_into_nested_group_announces_wrong_parent :
    (exampleDocument.world.layer 3).parentLayer = some 1 ∧
    exampleDocument.world.container (some 3) = [4] ∧
    (LayerModel.insertLayer exampleDocument (some 3) 1 5).world.container (some 3) = [4, 5] ∧
    (LayerModel.insertLayer exampleDocument (some 3) 1 5).signals =
      [Signal.beginInsertRows (createIndex (-1) 0 none) 1 1, Signal.endInsertRows,
       Signal.layerAdded 5] ∧
    (createIndex (-1) 0 none).isValid = false ∧
    LayerModel.toLayer exampleDocument.world (createIndex (-1) 0 none) ≠ some 3 ∧
    LayerModel.toLayer exampleDocument.world (createIndex 0 0 (some 1)) = some 3 ∧
    LayerModel.indexOfLayerAsserts exampleDocument.world 3 = false := by
  decide

theorem World.mapTakeLayerAt_of_at {w : World} {index : Int} {x : LayerPtr}
    (h : QList.at w.mapLayers index = some x) :
    w.mapTakeLayerAt index = some (x,
      { mMap := w.mMap.map fun m => ⟨QList.removeAt m.layers index⟩,
        layer := Function.update w.layer x { w.layer x with parentLayer := none } }) := by
  unfold World.mapTakeLayerAt
  rw [h]
  rfl

theorem World.groupTakeLayerAt_of_at {w : World} {g : LayerPtr} {index : Int} {x : LayerPtr}
    (h : QList.at (w.groupLayers g) index = some x) :
    w.groupTakeLayerAt g index = some (x,
      { mMap := w.mMap,
        layer := Function.update
          (Function.update w.layer g
            { w.layer g with layers := QList.removeAt (w.layer g).layers index }) x
          { Function.update w.layer g
              { w.layer g with layers := QList.removeAt (w.layer g).layers index } x with
            parentLayer := none } }) := by
  unfold World.groupTakeLayerAt
  rw [h]
  rfl

/-- Taking an existing position out of a container succeeds, yields the layer
at that position and leaves the container without that position. -/
theorem World.takeLayerAt_of_at {w : World} {parentLayer : Option LayerPtr} {index : Int}
    {x : LayerPtr} (h : QList.at (w.container parentLayer) index = some x) :
    ∃ w', w.takeLayerAt parentLayer index = some (x, w') ∧
      w'.container parentLayer = QList.removeAt (w.container parentLayer) index := by
  cases parentLayer with
  | none =>
    refine ⟨_, World.mapTakeLayerAt_of_at h, ?_⟩
    cases hm : w.mMap with
    | none => simp [World.container, World.mapLayers, hm, QList.at] at h
    | some m => simp [World.container, World.mapLayers, hm]
  | some g =>
    refine ⟨_, World.groupTakeLayerAt_of_at h, ?_⟩
    simp [World.container, World.groupLayers, layers_update_parentLayer]

/-- C10: `takeLayerAt(parentLayer, index)` with `0 <= index < child count` of
the target container (the map when `parentLayer` is null, else that group
layer) returns the layer that was at position `index`; afterwards the container
is the old sequence without that one position. It emits exactly four
notifications, in this order: `layerAboutToBeRemoved(parentLayer, index)` and
the begin of the remove bracket for rows `[index, index]`, both while the store
is still the old one (the layer is still at position `index` of the container),
then the end of the remove bracket and `layerRemoved` with the returned layer,
both on the store after the removal. -/
theorem C10_takeLayerAt_returns_layer_and_orders_notifications (d : MapDocument)
    (parentLayer : Option LayerPtr) (index : Int) (h0 : 0 ≤ index)
    (h1 : index < ((d.world.container parentLayer).length : Int)) :
    ∃ (layer : LayerPtr) (d' : MapDocument),
      LayerModel.takeLayerAt d parentLayer index = some (layer, d') ∧
      (d.world.container parentLayer)[index.toNat]? = some layer ∧
      d'.world.container parentLayer =
        (d.world.container parentLayer).take index.toNat ++
          (d.world.container parentLayer).drop (index.toNat + 1) ∧
      d'.world.container parentLayer = (d.world.container parentLayer).eraseIdx index.toNat ∧
      d'.undoStack = d.undoStack ∧
      d'.emitted = d.emitted ++
        [Emission.mk (Signal.layerAboutToBeRemoved parentLayer index) d.world,
         Emission.mk
           (Signal.beginRemoveRows (LayerModel.indexOfLayer d.world parentLayer) index index)
           d.world,
         Emission.mk Signal.endRemoveRows d'.world,
         Emission.mk (Signal.layerRemoved layer) d'.world] := by
  have hlt : index.toNat < (d.world.container parentLayer).length := by omega
  have hat : QList.at (d.world.container parentLayer) index =
      some ((d.world.container parentLayer)[index.toNat]) := by
    simp [QList.at, h0, List.getElem?_eq_getElem hlt]
  obtain ⟨w', hw, hc⟩ := World.takeLayerAt_of_at hat
  refine ⟨(d.world.container parentLayer)[index.toNat],
    { world := w', undoStack := d.undoStack,
      emitted := d.emitted ++
        [Emission.mk (Signal.layerAboutToBeRemoved parentLayer index) d.world,
         Emission.mk
           (Signal.beginRemoveRows (LayerModel.indexOfLayer d.world parentLayer) index index)
           d.world,
         Emission.mk Signal.endRemoveRows w',
         Emission.mk (Signal.layerRemoved ((d.world.container parentLayer)[index.toNat])) w'] },
    ?_, List.getElem?_eq_getElem hlt, hc, ?_, rfl, rfl⟩
  · rw [LayerModel.takeLayerAt_eq, hw]
    rfl
  · rw [List.eraseIdx_eq_take_drop_succ]
    exact hc

/-- Witness for C10 on the example tree: taking position 0 of the nested group
layer 3 returns layer 4 and leaves the group empty; the first notification is
`layerAboutToBeRemoved(layer 3, 0)`, the last is `layerRemoved(layer 4)`. -/
theorem C10_takeLayerAt_returns_layer_and_orders_notifications_witness :
    (0 : Int) < ((exampleDocument.world.container (some 3)).length : Int) ∧
    ∃ (layer : LayerPtr) (d' : MapDocument),
      LayerModel.takeLayerAt exampleDocument (some 3) 0 = some (layer, d') ∧
      (exampleDocument.world.container (some 3))[(0 : Int).toNat]? = some layer ∧
      d'.world.container (some 3) =
        (exampleDocument.world.container (some 3)).take (0 : Int).toNat ++
          (exampleDocument.world.container (some 3)).drop ((0 : Int).toNat + 1) ∧
      d'.world.container (some 3) =
        (exampleDocument.world.container (some 3)).eraseIdx (0 : Int).toNat ∧
      d'.undoStack = exampleDocument.undoStack ∧
      d'.emitted = exampleDocument.emitted ++
        [Emission.mk (Signal.layerAboutToBeRemoved (some 3) 0) exampleDocument.world,
         Emission.mk
           (Signal.beginRemoveRows (LayerModel.indexOfLayer exampleDocument.world (some 3)) 0 0)
           exampleDocument.world,
         Emission.mk Signal.endRemoveRows d'.world,
         Emission.mk (Signal.layerRemoved layer) d'.world] :=
  ⟨by decide,
   C10_takeLayerAt_returns_layer_and_orders_notifications exampleDocument (some 3) 0
     (by decide) (by decide)⟩


/-! ## Insertion and removal are inverse -/

theorem QList.at_insert {l : List LayerPtr} {i : Int} (x : LayerPtr) (h0 : 0 ≤ i)
    (h1 : i ≤ (l.length : Int)) : QList.at (QList.insert l i x) i = some x := by
  have hlen : (l.take i.toNat).length = i.toNat := by
    rw [List.length_take]; omega
  simp only [QList.at, QList.insert, h0, if_true]
  rw [List.getElem?_append_right (by omega)]
  simp [hlen]

theorem QList.removeAt_insert {l : List LayerPtr} {i : Int} (x : LayerPtr) (_ : 0 ≤ i)
    (h1 : i ≤ (l.length : Int)) : QList.removeAt (QList.insert l i x) i = l := by
  have hlen : (l.take i.toNat).length = i.toNat := by
    rw [List.length_take]; omega
  have hd : List.drop (i.toNat + 1) (List.take i.toNat l) = [] :=
    List.drop_eq_nil_of_le (by omega)
  simp only [QList.removeAt, QList.insert]
  rw [List.take_append_eq_append_take, List.drop_append_eq_append_drop]
  simp [hlen, List.take_take, hd]

theorem QList.insert_removeAt {l : List LayerPtr} {i : Int} {x : LayerPtr}
    (h : QList.at l i = some x) : QList.insert (QList.removeAt l i) i x = l := by
  obtain ⟨h0, hlt, hx⟩ := QList.at_eq_some h
  have hlen : (l.take i.toNat).length = i.toNat := by
    rw [List.length_take]; omega
  simp only [QList.removeAt, QList.insert]
  rw [List.take_append_eq_append_take, List.drop_append_eq_append_drop]
  simp only [hlen, List.take_take, min_self, Nat.sub_self, List.take_zero, List.append_nil,
    List.drop_zero]
  have hd : List.drop i.toNat (List.take i.toNat l) = [] :=
    List.drop_eq_nil_of_le (by omega)
  rw [hd, List.nil_append]
  have hx' : l[i.toNat] = x := by
    rw [List.getElem?_eq_getElem hlt] at hx
    exact Option.some.inj hx
  rw [← hx', ← List.drop_eq_getElem_cons hlt, List.take_append_drop]

theorem World.container_insertLayer (w : World) (parentLayer : Option LayerPtr) (index : Int)
    (layer : LayerPtr) (c : Option LayerPtr)
    (hm : parentLayer = none → w.mMap.isSome = true) :
    (w.insertLayer parentLayer index layer).container c =
      if c = parentLayer then QList.insert (w.container c) index layer else w.container c := by
  cases parentLayer with
  | none =>
    obtain ⟨m, hm'⟩ := Option.isSome_iff_exists.mp (hm rfl)
    cases c with
    | none =>
      simp [World.insertLayer, World.container, World.mapLayers, World.mapInsertLayer, hm']
    | some g =>
      simp [World.insertLayer, World.container, World.groupLayers, World.mapInsertLayer,
        layers_update_parentLayer]
  | some p =>
    cases c with
    | none => simp [World.insertLayer, World.container, World.mapLayers, World.groupInsertLayer]
    | some g =>
      by_cases h : g = p
      · subst h
        simp [World.insertLayer, World.container, World.groupLayers, World.groupInsertLayer,
          layers_update_parentLayer]
      · simp [World.insertLayer, World.container, World.groupLayers, World.groupInsertLayer,
          Function.update_noteq h, layers_update_parentLayer, h]

theorem World.container_takeLayerAt {w w' : World} {parentLayer : Option LayerPtr}
    {index : Int} {x : LayerPtr} (h : w.takeLayerAt parentLayer index = some (x, w'))
    (c : Option LayerPtr) :
    w'.container c =
      if c = parentLayer then QList.removeAt (w.container c) index else w.container c := by
  cases parentLayer with
  | none =>
    simp only [World.takeLayerAt, World.mapTakeLayerAt] at h
    cases hat : QList.at w.mapLayers index with
    | none => simp [hat] at h
    | some y =>
      simp only [hat, Option.map_some', Option.some.injEq, Prod.mk.injEq] at h
      obtain ⟨_, rfl⟩ := h
      cases c with
      | none =>
        cases hm : w.mMap with
        | none => simp [World.mapLayers, hm, QList.at] at hat
        | some m => simp [World.container, World.mapLayers, hm]
      | some g => simp [World.container, World.groupLayers, layers_update_parentLayer]
  | some p =>
    simp only [World.takeLayerAt, World.groupTakeLayerAt] at h
    cases hat : QList.at (w.groupLayers p) index with
    | none => simp [hat] at h
    | some y =>
      simp only [hat, Option.map_some', Option.some.injEq, Prod.mk.injEq] at h
      obtain ⟨_, rfl⟩ := h
      cases c with
      | none => simp [World.container, World.mapLayers]
      | some g =>
        by_cases hg : g = p
        · subst hg
          simp [World.container, World.groupLayers, layers_update_parentLayer]
        · simp [World.container, World.groupLayers, layers_update_parentLayer,
            Function.update_noteq hg, hg]

theorem World.mMap_isSome_insertLayer (w : World) (parentLayer : Option LayerPtr) (index : Int)
    (layer : LayerPtr) :
    (w.insertLayer parentLayer index layer).mMap.isSome = w.mMap.isSome := by
  cases parentLayer with
  | none => cases hm : w.mMap <;> simp [World.insertLayer, World.mapInsertLayer, hm]
  | some g => rfl

theorem World.mMap_isSome_takeLayerAt {w w' : World} {parentLayer : Option LayerPtr}
    {index : Int} {x : LayerPtr} (h : w.takeLayerAt parentLayer index = some (x, w')) :
    w'.mMap.isSome = w.mMap.isSome := by
  cases parentLayer with
  | none => exact World.mMap_isSome_mapTakeLayerAt h
  | some g => exact congrArg Option.isSome (World.mMap_groupTakeLayerAt h)

theorem Layer.with_parentLayer_self (x : Layer) :
    { x with parentLayer := x.parentLayer } = x := by
  cases x; rfl

theorem World.eq_of_fields {w w' : World} (h1 : w.mMap = w'.mMap)
    (h2 : ∀ p, w.layer p = w'.layer p) : w = w' := by
  cases w; cases w'
  simp only [World.mk.injEq]
  exact ⟨h1, funext h2⟩

/-- Inserting a layer and taking the same position again returns the layer
and restores every container. -/
theorem World.takeLayerAt_insertLayer (w : World) (parentLayer : Option LayerPtr)
    (index : Int) (layer : LayerPtr) (h0 : 0 ≤ index)
    (h1 : index ≤ ((w.container parentLayer).length : Int))
    (hm : parentLayer = none → w.mMap.isSome = true) :
    ∃ w2, (w.insertLayer parentLayer index layer).takeLayerAt parentLayer index
        = some (layer, w2) ∧
      ∀ c, w2.container c = w.container c := by
  have hins := World.container_insertLayer w parentLayer index layer parentLayer hm
  rw [if_pos rfl] at hins
  have hat : QList.at ((w.insertLayer parentLayer index layer).container parentLayer) index
      = some layer := by
    rw [hins]; exact QList.at_insert layer h0 h1
  obtain ⟨w2, hw2, _⟩ := World.takeLayerAt_of_at hat
  refine ⟨w2, hw2, fun c => ?_⟩
  rw [World.container_takeLayerAt hw2 c, World.container_insertLayer w parentLayer index layer c hm]
  by_cases hc : c = parentLayer
  · subst hc
    simp only [if_true]
    exact QList.removeAt_insert layer h0 h1
  · simp only [hc, if_false]

/-- Inserting a detached layer and taking the same position again restores
the whole store. -/
theorem World.takeLayerAt_insertLayer_eq (w : World) (parentLayer : Option LayerPtr)
    (index : Int) (layer : LayerPtr) (h0 : 0 ≤ index)
    (h1 : index ≤ ((w.container parentLayer).length : Int))
    (hm : parentLayer = none → w.mMap.isSome = true)
    (hp : (w.layer layer).parentLayer = none) (hne : parentLayer ≠ some layer) :
    (w.insertLayer parentLayer index layer).takeLayerAt parentLayer index = some (layer, w) := by
  cases parentLayer with
  | none =>
    obtain ⟨m, hm'⟩ := Option.isSome_iff_exists.mp (hm rfl)
    simp only [World.container, World.mapLayers, hm'] at h1
    have hat : QList.at (w.insertLayer none index layer).mapLayers index = some layer := by
      simp only [World.insertLayer, World.mapInsertLayer, World.mapLayers, hm', Option.map_some']
      exact QList.at_insert layer h0 h1
    simp only [World.takeLayerAt]
    rw [World.mapTakeLayerAt_of_at hat]
    simp only [Option.some.injEq, Prod.mk.injEq, true_and]
    apply World.eq_of_fields
    · simp [World.insertLayer, World.mapInsertLayer, hm', QList.removeAt_insert layer h0 h1]
    · intro p
      by_cases hpl : p = layer
      · subst hpl
        simp [World.insertLayer, World.mapInsertLayer, ← hp, Layer.with_parentLayer_self]
      · simp [World.insertLayer, World.mapInsertLayer, Function.update_noteq hpl]
  | some g =>
    have hg : g ≠ layer := fun e => hne (by rw [e])
    simp only [World.container, World.groupLayers] at h1
    have hat : QList.at ((w.insertLayer (some g) index layer).groupLayers g) index
        = some layer := by
      simp only [World.insertLayer, World.groupInsertLayer, World.groupLayers,
        Function.update_same, layers_update_parentLayer]
      exact QList.at_insert layer h0 h1
    simp only [World.takeLayerAt]
    rw [World.groupTakeLayerAt_of_at hat]
    simp only [Option.some.injEq, Prod.mk.injEq, true_and]
    apply World.eq_of_fields
    · rfl
    · intro p
      by_cases hpl : p = layer
      · subst hpl
        simp [World.insertLayer, World.groupInsertLayer, Function.update_noteq (Ne.symm hg),
          ← hp, Layer.with_parentLayer_self]
      · by_cases hpg : p = g
        · subst hpg
          simp [World.insertLayer, World.groupInsertLayer, Function.update_noteq hpl,
            Function.update_noteq hg, QList.removeAt_insert layer h0 h1]
        · simp [World.insertLayer, World.groupInsertLayer, Function.update_noteq hpl,
            Function.update_noteq hpg]

/-- Taking a layer and inserting it at the same position again restores every
container. -/
theorem World.insertLayer_takeLayerAt {w w1 : World} {parentLayer : Option LayerPtr}
    {index : Int} {layer : LayerPtr}
    (h : w.takeLayerAt parentLayer index = some (layer, w1))
    (hat : QList.at (w.container parentLayer) index = some layer) (c : Option LayerPtr) :
    (w1.insertLayer parentLayer index layer).container c = w.container c := by
  have hm : parentLayer = none → w1.mMap.isSome = true := by
    intro hp
    subst hp
    rw [World.mMap_isSome_takeLayerAt h]
    cases hmm : w.mMap with
    | none => simp [World.container, World.mapLayers, hmm, QList.at] at hat
    | some m => rfl
  rw [World.container_insertLayer w1 parentLayer index layer c hm,
    World.container_takeLayerAt h c]
  by_cases hc : c = parentLayer
  · subst hc
    simp only [if_true]
    exact QList.insert_removeAt hat
  · simp only [hc, if_false]

/-- Taking a layer whose back-reference is its parent context and inserting it
at the same position again restores the whole store. -/
theorem World.insertLayer_takeLayerAt_eq {w : World} {parentLayer : Option LayerPtr}
    {index : Int} {layer : LayerPtr}
    (hat : QList.at (w.container parentLayer) index = some layer)
    (hp : (w.layer layer).parentLayer = parentLayer) (hne : parentLayer ≠ some layer) :
    ∃ w1, w.takeLayerAt parentLayer index = some (layer, w1) ∧
      w1.insertLayer parentLayer index layer = w := by
  cases parentLayer with
  | none =>
    simp only [World.container] at hat
    refine ⟨_, World.mapTakeLayerAt_of_at hat, ?_⟩
    cases hm : w.mMap with
    | none => simp [World.mapLayers, hm, QList.at] at hat
    | some m =>
      have hat' : QList.at m.layers index = some layer := by
        simpa [World.mapLayers, hm] using hat
      apply World.eq_of_fields
      · simp [World.insertLayer, World.mapInsertLayer, hm, QList.insert_removeAt hat']
      · intro p
        by_cases hpl : p = layer
        · subst hpl
          simp [World.insertLayer, World.mapInsertLayer, ← hp, Layer.with_parentLayer_self]
        · simp [World.insertLayer, World.mapInsertLayer, Function.update_noteq hpl]
  | some g =>
    have hg : g ≠ layer := fun e => hne (by rw [e])
    simp only [World.container] at hat
    refine ⟨_, World.groupTakeLayerAt_of_at hat, ?_⟩
    have hat' : QList.at (w.layer g).layers index = some layer := hat
    apply World.eq_of_fields
    · rfl
    · intro p
      by_cases hpl : p = layer
      · subst hpl
        simp [World.insertLayer, World.groupInsertLayer, Function.update_noteq (Ne.symm hg),
          ← hp, Layer.with_parentLayer_self]
      · by_cases hpg : p = g
        · subst hpg
          simp [World.insertLayer, World.groupInsertLayer, Function.update_noteq hpl,
            Function.update_noteq hg, QList.insert_removeAt hat']
        · simp [World.insertLayer, World.groupInsertLayer, Function.update_noteq hpl,
            Function.update_noteq hpg]

theorem LayerModel.takeLayerAt_of_world {d : MapDocument} {parentLayer : Option LayerPtr}
    {index : Int} {layer : LayerPtr} {w' : World}
    (h : d.world.takeLayerAt parentLayer index = some (layer, w')) :
    ∃ d', LayerModel.takeLayerAt d parentLayer index = some (layer, d') ∧ d'.world = w' ∧
      d'.undoStack = d.undoStack := by
  rw [LayerModel.takeLayerAt_eq, h]
  exact ⟨_, rfl, rfl, rfl⟩

/-- C11: for every container (the map, which must be set, or a group layer) and
every index in `[0, child count]`: `insertLayer(parent, index, L)` followed by
`takeLayerAt(parent, index)` returns `L` and restores the layer sequence of
every container, and restores the whole store when `L` was detached (no parent,
not the parent itself). For every layer at an index below the child count,
`takeLayerAt(parent, index)` followed by `insertLayer(parent, index, returned
layer)` restores the layer sequence of every container, and the whole store
when the layer's back-reference was its parent context. `AddLayer` (redo = add,
undo = remove) and `RemoveLayer` (redo = remove, undo = add) therefore run redo
and then undo successfully, end with the command members they started with, and
leave the layer sequences of all containers as they were before the redo. -/
theorem C11_insert_and_take_are_inverse (d : MapDocument) (parentLayer : Option LayerPtr)
    (index : Int) (h0 : 0 ≤ index)
    (h1 : index ≤ ((d.world.container parentLayer).length : Int))
    (hm : parentLayer = none → d.world.mMap.isSome = true) :
    (∀ layer : LayerPtr, ∃ d2 : MapDocument,
      LayerModel.takeLayerAt (LayerModel.insertLayer d parentLayer index layer) parentLayer index
        = some (layer, d2) ∧
      (∀ c, d2.world.container c = d.world.container c) ∧
      ((d.world.layer layer).parentLayer = none → parentLayer ≠ some layer →
        d2.world = d.world)) ∧
    (∀ layer : LayerPtr, QList.at (d.world.container parentLayer) index = some layer →
      ∃ d1 : MapDocument,
        LayerModel.takeLayerAt d parentLayer index = some (layer, d1) ∧
        (∀ c, (LayerModel.insertLayer d1 parentLayer index layer).world.container c
          = d.world.container c) ∧
        ((d.world.layer layer).parentLayer = parentLayer → parentLayer ≠ some layer →
          (LayerModel.insertLayer d1 parentLayer index layer).world = d.world)) ∧
    (∀ layer : LayerPtr, ∃ (c1 : AddRemoveLayer) (d1 d2 : MapDocument),
      AddLayer.redo ⟨some layer, parentLayer, index⟩ d = some (c1, d1) ∧
      AddLayer.undo c1 d1 = some (⟨some layer, parentLayer, index⟩, d2) ∧
      (∀ c, d2.world.container c = d.world.container c)) ∧
    (∀ layer : LayerPtr, QList.at (d.world.container parentLayer) index = some layer →
      ∃ (c1 : AddRemoveLayer) (d1 d2 : MapDocument),
        RemoveLayer.redo ⟨none, parentLayer, index⟩ d = some (c1, d1) ∧
        RemoveLayer.undo c1 d1 = some (⟨none, parentLayer, index⟩, d2) ∧
        (∀ c, d2.world.container c = d.world.container c)) := by
  have hA : ∀ layer : LayerPtr, ∃ d2 : MapDocument,
      LayerModel.takeLayerAt (LayerModel.insertLayer d parentLayer index layer) parentLayer index
        = some (layer, d2) ∧
      (∀ c, d2.world.container c = d.world.container c) ∧
      ((d.world.layer layer).parentLayer = none → parentLayer ≠ some layer →
        d2.world = d.world) := by
    intro layer
    obtain ⟨w2, hw2, hc⟩ := World.takeLayerAt_insertLayer d.world parentLayer index layer h0 h1 hm
    obtain ⟨d2, hd2, hwd, _⟩ :=
      LayerModel.takeLayerAt_of_world
        (show (LayerModel.insertLayer d parentLayer index layer).world.takeLayerAt parentLayer
          index = some (layer, w2) from hw2)
    refine ⟨d2, hd2, fun c => by rw [hwd]; exact hc c, fun hp hne => ?_⟩
    have heq := World.takeLayerAt_insertLayer_eq d.world parentLayer index layer h0 h1 hm hp hne
    rw [heq] at hw2
    have : w2 = d.world := by
      have := Option.some.inj hw2
      exact (Prod.mk.inj this).2.symm
    rw [hwd, this]
  have hB : ∀ layer : LayerPtr, QList.at (d.world.container parentLayer) index = some layer →
      ∃ d1 : MapDocument,
        LayerModel.takeLayerAt d parentLayer index = some (layer, d1) ∧
        (∀ c, (LayerModel.insertLayer d1 parentLayer index layer).world.container c
          = d.world.container c) ∧
        ((d.world.layer layer).parentLayer = parentLayer → parentLayer ≠ some layer →
          (LayerModel.insertLayer d1 parentLayer index layer).world = d.world) := by
    intro layer hat
    obtain ⟨w1, hw1, _⟩ := World.takeLayerAt_of_at hat
    obtain ⟨d1, hd1, hwd, _⟩ := LayerModel.takeLayerAt_of_world hw1
    refine ⟨d1, hd1, fun c => ?_, fun hp hne => ?_⟩
    · rw [LayerModel.insertLayer_world, hwd]
      exact World.insertLayer_takeLayerAt hw1 hat c
    · obtain ⟨w1', hw1', heq⟩ := World.insertLayer_takeLayerAt_eq hat hp hne
      rw [hw1] at hw1'
      have : w1 = w1' := (Prod.mk.inj (Option.some.inj hw1')).2
      rw [LayerModel.insertLayer_world, hwd, this]
      exact heq
  refine ⟨hA, hB, fun layer => ?_, fun layer hat => ?_⟩
  · obtain ⟨d2, hd2, hc, _⟩ := hA layer
    refine ⟨⟨none, parentLayer, index⟩, LayerModel.insertLayer d parentLayer index layer, d2,
      rfl, ?_, hc⟩
    simp only [AddLayer.undo, AddRemoveLayer.removeLayer, hd2, Option.map_some']
  · obtain ⟨d1, hd1, hc, _⟩ := hB layer hat
    refine ⟨⟨some layer, parentLayer, index⟩, d1,
      LayerModel.insertLayer d1 parentLayer index layer, ?_, rfl, hc⟩
    simp only [RemoveLayer.redo, AddRemoveLayer.removeLayer, hd1, Option.map_some']

/-- Witness for C11 on the example tree, for the nested group layer 3
(children `[4]`) and index 1: inserting the detached layer 5 and taking
position 1 again, and taking layer 4 at position 0 and inserting it again. -/
theorem C11_insert_and_take_are_inverse_witness :
    (∃ d2 : MapDocument,
      LayerModel.takeLayerAt (LayerModel.insertLayer exampleDocument (some 3) 1 5) (some 3) 1
        = some (5, d2) ∧
      (∀ c, d2.world.container c = exampleDocument.world.container c) ∧
      d2.world = exampleDocument.world) ∧
    (∃ (c1 : AddRemoveLayer) (d1 d2 : MapDocument),
      AddLayer.redo ⟨some 5, some 3, 1⟩ exampleDocument = some (c1, d1) ∧
      AddLayer.undo c1 d1 = some (⟨some 5, some 3, 1⟩, d2) ∧
      (∀ c, d2.world.container c = exampleDocument.world.container c)) ∧
    (∃ d1 : MapDocument,
      LayerModel.takeLayerAt exampleDocument (some 3) 0 = some (4, d1) ∧
      (LayerModel.insertLayer d1 (some 3) 0 4).world = exampleDocument.world) :=
  have h1 := C11_insert_and_take_are_inverse exampleDocument (some 3) 1 (by decide)
    (by decide) (by intro h; cases h)
  have h0 := C11_insert_and_take_are_inverse exampleDocument (some 3) 0 (by decide)
    (by decide) (by intro h; cases h)
  ⟨(h1.1 5).imp fun _ h => ⟨h.1, h.2.1, h.2.2 (by decide) (by decide)⟩,
   h1.2.2.1 5,
   (h0.2.1 4 (by decide)).imp fun _ h => ⟨h.1, h.2.2 (by decide) (by decide)⟩⟩

/-! ## `replaceLayer` -/

theorem QList.insert_removeAt_eq_set {l : List LayerPtr} {i : Int} {x : LayerPtr}
    (r : LayerPtr) (h : QList.at l i = some x) :
    QList.insert (QList.removeAt l i) i r = l.set i.toNat r := by
  obtain ⟨h0, hlt, _⟩ := QList.at_eq_some h
  have hlen : (l.take i.toNat).length = i.toNat := by
    rw [List.length_take]; omega
  have hd : List.drop i.toNat (List.take i.toNat l) = [] :=
    List.drop_eq_nil_of_le (by omega)
  rw [List.set_eq_take_cons_drop r hlt]
  simp only [QList.removeAt, QList.insert]
  rw [List.take_append_eq_append_take, List.drop_append_eq_append_drop]
  simp [hlen, List.take_take, hd]

theorem QList.not_mem_set_of_nodup {l : List LayerPtr} {i : Int} {x : LayerPtr}
    {r : LayerPtr} (h : QList.at l i = some x) (hn : l.Nodup) (hr : r ≠ x) :
    x ∉ l.set i.toNat r := by
  obtain ⟨h0, hlt, hx⟩ := QList.at_eq_some h
  have hx' : l[i.toNat] = x := by
    rw [List.getElem?_eq_getElem hlt] at hx
    exact Option.some.inj hx
  have hsplit : l = l.take i.toNat ++ x :: l.drop (i.toNat + 1) := by
    rw [← hx', ← List.drop_eq_getElem_cons hlt, List.take_append_drop]
  rw [hsplit] at hn
  obtain ⟨_, h2, h3⟩ := List.nodup_append.mp hn
  have hx1 : x ∉ l.take i.toNat := fun hm => h3 hm (List.mem_cons_self _ _)
  have hx2 : x ∉ l.drop (i.toNat + 1) := (List.nodup_cons.mp h2).1
  rw [List.set_eq_take_cons_drop r hlt]
  intro hm
  rcases List.mem_append.mp hm with hm | hm
  · exact hx1 hm
  · rcases List.mem_cons.mp hm with hm | hm
    · exact hr hm.symm
    · exact hx2 hm

theorem World.parentLayer_insertLayer (w : World) (parentLayer : Option LayerPtr)
    (index : Int) (layer : LayerPtr) :
    ((w.insertLayer parentLayer index layer).layer layer).parentLayer = parentLayer := by
  cases parentLayer with
  | none => simp [World.insertLayer, World.mapInsertLayer]
  | some g =>
    by_cases h : layer = g
    · subst h
      simp [World.insertLayer, World.groupInsertLayer]
    · simp [World.insertLayer, World.groupInsertLayer, Function.update_noteq h]

/-- C12: let `old` be a layer found in the container of its parent context
(the map, or its parent group layer), that container being free of
duplicates and the only container that holds `old`, and let `replacement` be
in no container. Then `replaceLayer(old, replacement)` succeeds; the container
afterwards is the old sequence with the entry at `old`'s sibling index set to
`replacement` (same length, every other entry at its former position);
`replacement` has that parent context; every other container is unchanged;
`old` is in no container any more; and if `old` was the current layer when the
call started, `replacement` is the current layer when it returns, whatever the
document's slots did to the current layer during the call. -/
theorem C12_replaceLayer_puts_replacement_at_old_position
    (slots : List Emission → Option LayerPtr → Option LayerPtr) (s : DocumentState)
    (old replacement : LayerPtr)
    (hmem : old ∈ s.document.world.container (s.document.world.layer old).parentLayer)
    (hnodup : (s.document.world.container (s.document.world.layer old).parentLayer).Nodup)
    (hunique : ∀ c, old ∈ s.document.world.container c →
      c = (s.document.world.layer old).parentLayer)
    (hrep : ∀ c, replacement ∉ s.document.world.container c) :
    ∃ s' : DocumentState,
      LayerModel.replaceLayer slots s old replacement = some s' ∧
      0 ≤ s.document.world.siblingIndex old ∧
      QList.at (s.document.world.container (s.document.world.layer old).parentLayer)
        (s.document.world.siblingIndex old) = some old ∧
      s'.document.world.container (s.document.world.layer old).parentLayer =
        (s.document.world.container (s.document.world.layer old).parentLayer).set
          (s.document.world.siblingIndex old).toNat replacement ∧
      (s'.document.world.container (s.document.world.layer old).parentLayer).length =
        (s.document.world.container (s.document.world.layer old).parentLayer).length ∧
      (s'.document.world.layer replacement).parentLayer =
        (s.document.world.layer old).parentLayer ∧
      (∀ c, c ≠ (s.document.world.layer old).parentLayer →
        s'.document.world.container c = s.document.world.container c) ∧
      (∀ c, old ∉ s'.document.world.container c) ∧
      (s.mCurrentLayer = some old → s'.mCurrentLayer = some replacement) := by
  obtain ⟨h0, hat⟩ := QList.indexOf_of_mem hmem
  have hat' : QList.at (s.document.world.container (s.document.world.layer old).parentLayer)
      (s.document.world.siblingIndex old) = some old := hat
  have h0' : 0 ≤ s.document.world.siblingIndex old := h0
  have hne : replacement ≠ old := fun e => hrep _ (e ▸ hmem)
  obtain ⟨w1, hw1, _⟩ := World.takeLayerAt_of_at hat'
  obtain ⟨d1, hd1, hwd, _⟩ := LayerModel.takeLayerAt_of_world hw1
  have hm1 : (s.document.world.layer old).parentLayer = none → w1.mMap.isSome = true := by
    intro hp
    rw [World.mMap_isSome_takeLayerAt hw1]
    cases hmm : s.document.world.mMap with
    | none =>
      rw [hp] at hmem
      simp [World.container, World.mapLayers, hmm] at hmem
    | some m => rfl
  have hcont : ∀ c, (LayerModel.insertLayer d1 (s.document.world.layer old).parentLayer
      (s.document.world.siblingIndex old) replacement).world.container c =
      if c = (s.document.world.layer old).parentLayer then
        (s.document.world.container c).set (s.document.world.siblingIndex old).toNat replacement
      else s.document.world.container c := by
    intro c
    rw [LayerModel.insertLayer_world, hwd, World.container_insertLayer w1 _ _ _ c hm1,
      World.container_takeLayerAt hw1 c]
    by_cases hc : c = (s.document.world.layer old).parentLayer
    · simp only [hc, if_true]
      exact QList.insert_removeAt_eq_set replacement hat'
    · simp only [hc, if_false]
  have hrl : LayerModel.replaceLayer slots s old replacement =
      some (if some old = s.mCurrentLayer then
        DocumentState.setCurrentLayer
          { document := LayerModel.insertLayer d1 (s.document.world.layer old).parentLayer
              (s.document.world.siblingIndex old) replacement,
            mCurrentLayer := slots ((LayerModel.insertLayer d1
              (s.document.world.layer old).parentLayer
              (s.document.world.siblingIndex old) replacement).emitted.drop
                s.document.emitted.length) s.mCurrentLayer }
          (some replacement)
        else
          { document := LayerModel.insertLayer d1 (s.document.world.layer old).parentLayer
              (s.document.world.siblingIndex old) replacement,
            mCurrentLayer := slots ((LayerModel.insertLayer d1
              (s.document.world.layer old).parentLayer
              (s.document.world.siblingIndex old) replacement).emitted.drop
                s.document.emitted.length) s.mCurrentLayer }) := by
    simp only [LayerModel.replaceLayer, hd1, Option.map_some']
  have hdoc : ∀ s' : DocumentState,
      s' = (if some old = s.mCurrentLayer then
        DocumentState.setCurrentLayer
          { document := LayerModel.insertLayer d1 (s.document.world.layer old).parentLayer
              (s.document.world.siblingIndex old) replacement,
            mCurrentLayer := slots ((LayerModel.insertLayer d1
              (s.document.world.layer old).parentLayer
              (s.document.world.siblingIndex old) replacement).emitted.drop
                s.document.emitted.length) s.mCurrentLayer }
          (some replacement)
        else
          { document := LayerModel.insertLayer d1 (s.document.world.layer old).parentLayer
              (s.document.world.siblingIndex old) replacement,
            mCurrentLayer := slots ((LayerModel.insertLayer d1
              (s.document.world.layer old).parentLayer
              (s.document.world.siblingIndex old) replacement).emitted.drop
                s.document.emitted.length) s.mCurrentLayer }) →
      s'.document = LayerModel.insertLayer d1 (s.document.world.layer old).parentLayer
        (s.document.world.siblingIndex old) replacement ∧
      (s.mCurrentLayer = some old → s'.mCurrentLayer = some replacement) := by
    intro s' hs'
    by_cases hcur : some old = s.mCurrentLayer
    · rw [if_pos hcur] at hs'
      subst hs'
      exact ⟨rfl, fun _ => rfl⟩
    · rw [if_neg hcur] at hs'
      subst hs'
      exact ⟨rfl, fun h => absurd h.symm hcur⟩
  refine ⟨_, hrl, h0', hat', ?_, ?_, ?_, ?_, ?_, ?_⟩
  · rw [(hdoc _ rfl).1, hcont, if_pos rfl]
  · rw [(hdoc _ rfl).1, hcont, if_pos rfl, List.length_set]
  · rw [(hdoc _ rfl).1, LayerModel.insertLayer_world]
    exact World.parentLayer_insertLayer _ _ _ _
  · intro c hc
    rw [(hdoc _ rfl).1, hcont, if_neg hc]
  · intro c
    rw [(hdoc _ rfl).1, hcont]
    by_cases hc : c = (s.document.world.layer old).parentLayer
    · rw [if_pos hc, hc]
      exact QList.not_mem_set_of_nodup hat' hnodup hne
    · rw [if_neg hc]
      exact fun hm => hc (hunique c hm)
  · exact (hdoc _ rfl).2

/-- Witness for C12 on the example tree: layer 4, the only child of the nested
group layer 3 and the current layer, is replaced by the detached layer 5; the
slots are taken to clear the current layer during the call. -/
theorem C12_replaceLayer_puts_replacement_at_old_position_witness :
    ∃ s' : DocumentState,
      LayerModel.replaceLayer (fun _ _ => none) ⟨exampleDocument, some 4⟩ 4 5 = some s' ∧
      s'.document.world.container (some 3) = [5] ∧
      (s'.document.world.layer 5).parentLayer = some 3 ∧
      (∀ c, 4 ∉ s'.document.world.container c) ∧
      s'.mCurrentLayer = some 5 := by
  have hunique : ∀ c, 4 ∈ exampleDocument.world.container c → c = some 3 := by
    intro c hc
    cases c with
    | none => exact absurd hc (by decide)
    | some g =>
      by_cases h1 : g = 1
      · subst h1
        exact absurd hc (by decide)
      · by_cases h3 : g = 3
        · rw [h3]
        · exfalso
          have : exampleDocument.world.container (some g) = [] := by
            show (exampleLayers g).layers = []
            unfold exampleLayers
            split <;> simp_all [Layer.blank]
          rw [this] at hc
          cases hc
  have hrep : ∀ c, 5 ∉ exampleDocument.world.container c := by
    intro c hc
    cases c with
    | none => exact absurd hc (by decide)
    | some g =>
      have : 5 ∉ (exampleLayers g).layers := by
        unfold exampleLayers
        split <;> simp [Layer.blank]
      exact this hc
  obtain ⟨s', h1, _, _, h4, _, h6, _, h8, h9⟩ :=
    C12_replaceLayer_puts_replacement_at_old_position (fun _ _ => none)
      ⟨exampleDocument, some 4⟩ 4 5 (by decide) (by decide) hunique hrep
  exact ⟨s', h1, h4, h6, h8, h9 rfl⟩

/-! ## `toggleOtherLayers` -/

/-- C13: when the map has at most one top-level layer, `toggleOtherLayers`
returns the document unchanged: no macro is opened, nothing is pushed on the
undo stack, no layer changes and nothing is emitted. -/
theorem C13_toggleOtherLayers_single_layer_is_noop (d : MapDocument) (layer : LayerPtr)
    (h : (d.world.mapLayers.length : Int) ≤ 1) :
    LayerModel.toggleOtherLayers d layer = d := by
  simp [LayerModel.toggleOtherLayers, h]

/-- Witness for C13: the example tree cut down to the single top-level group
layer 1 (which has children), toggled for layer 1 and for the nested layer 3. -/
theorem C13_toggleOtherLayers_single_layer_is_noop_witness :
    LayerModel.toggleOtherLayers singleLayerExample 1 = singleLayerExample ∧
    LayerModel.toggleOtherLayers singleLayerExample 3 = singleLayerExample :=
  ⟨C13_toggleOtherLayers_single_layer_is_noop singleLayerExample 1 (by decide),
   C13_toggleOtherLayers_single_layer_is_noop singleLayerExample 3 (by decide)⟩

theorem LayerModel.toggleOtherLayers.visibility_eq (w : World) (layer : LayerPtr)
    (ls : List LayerPtr) :
    LayerModel.toggleOtherLayers.visibility w layer ls =
      !(ls.any fun l => decide (l ≠ layer) && (w.layer l).visible) := by
  induction ls with
  | nil => rfl
  | cons l ls ih =>
    simp only [LayerModel.toggleOtherLayers.visibility, List.any_cons]
    by_cases hl : l = layer
    · simp [hl, ih]
    · by_cases hv : (w.layer l).visible = true
      · simp [hl, hv]
      · simp [hl, hv, ih]

theorem LayerModel.setLayerVisible_layer_of_ne (d : MapDocument) {l l' : LayerPtr}
    (visible : Bool) (h : l' ≠ l) :
    (LayerModel.setLayerVisible d l visible).world.layer l' = d.world.layer l' := by
  unfold LayerModel.setLayerVisible
  split
  · rfl
  · simp [MapDocument.emit, MapDocument.setLayer, Function.update_noteq h]

theorem LayerModel.toggleOtherLayers.pushAll_eq (layer : LayerPtr) (visibility : Bool)
    (ls : List LayerPtr) :
    ∀ m : OpenMacro, ls.Nodup →
      (LayerModel.toggleOtherLayers.pushAll layer visibility m ls).children =
        m.children ++
          (ls.filter fun l =>
            decide (l ≠ layer) && decide (visibility ≠ (m.document.world.layer l).visible)).map
            (fun l => Command.SetLayerVisible l visibility) ∧
      (LayerModel.toggleOtherLayers.pushAll layer visibility m ls).title = m.title ∧
      (LayerModel.toggleOtherLayers.pushAll layer visibility m ls).document.undoStack =
        m.document.undoStack := by
  induction ls with
  | nil => intro m _; simp [LayerModel.toggleOtherLayers.pushAll]
  | cons l ls ih =>
    intro m hn
    obtain ⟨hl, hn'⟩ := List.nodup_cons.mp hn
    simp only [LayerModel.toggleOtherLayers.pushAll]
    by_cases hla : l = layer
    · rw [if_pos hla]
      have := ih m hn'
      simpa [List.filter_cons, hla] using this
    · by_cases hv : visibility ≠ (m.document.world.layer l).visible
      · rw [if_neg hla, if_pos hv]
        obtain ⟨h1, h2, h3⟩ := ih (m.push (Command.SetLayerVisible l visibility)) hn'
        refine ⟨?_, h2, ?_⟩
        · rw [h1]
          have hf : (ls.filter fun l' => decide (l' ≠ layer) &&
              decide (visibility ≠
                ((m.push (Command.SetLayerVisible l visibility)).document.world.layer
                  l').visible)) =
              (ls.filter fun l' => decide (l' ≠ layer) &&
                decide (visibility ≠ (m.document.world.layer l').visible)) := by
            apply List.filter_congr
            intro l' hl'
            have hne : l' ≠ l := fun e => hl (e ▸ hl')
            have : (m.push (Command.SetLayerVisible l visibility)).document.world.layer l'
                = m.document.world.layer l' :=
              LayerModel.setLayerVisible_layer_of_ne m.document visibility hne
            rw [this]
          rw [hf]
          simp [OpenMacro.push, List.filter_cons, hla, hv]
        · rw [h3]
          exact Command.redo_undoStack m.document _
      · rw [if_neg hla, if_neg hv]
        have := ih m hn'
        simpa [List.filter_cons, hla, hv] using this

/-- C14 as stated fails for layers nested in a group layer. In the example
tree (top level `[1, 2]`, group layer 1 with the children 3 and 6, layer 3
with the child 4; all visible but layer 2) `toggleOtherLayers(2)` pushes a
macro with the single child that hides layer 1: the layers 3, 4 and 6, which
are not layer 2 and whose visibility differs from the target as well, get no
command. In the example tree cut down to the top-level group layer 1, a map of
four layers of which layer 1 and layer 6 are visible and are not layer 3,
`toggleOtherLayers(3)` pushes nothing at all. -/
theorem C14_nested_layers_get_no_command :
    (exampleDocument.world.mapLayers = [1, 2] ∧
      exampleDocument.world.groupLayers 1 = [3, 6] ∧
      exampleDocument.world.groupLayers 3 = [4] ∧
      (exampleDocument.world.layer 1).visible = true ∧
      (exampleDocument.world.layer 3).visible = true ∧
      (exampleDocument.world.layer 4).visible = true ∧
      (exampleDocument.world.layer 6).visible = true ∧
      (LayerModel.toggleOtherLayers exampleDocument 2).undoStack =
        [Command.UndoMacro "Hide Other Layers" [Command.SetLayerVisible 1 false]]) ∧
    (singleLayerExample.world.mapLayers = [1] ∧
      singleLayerExample.world.groupLayers 1 = [3, 6] ∧
      singleLayerExample.world.groupLayers 3 = [4] ∧
      (singleLayerExample.world.layer 1).visible = true ∧
      (singleLayerExample.world.layer 6).visible = true ∧
      (LayerModel.toggleOtherLayers singleLayerExample 3).undoStack = []) :=
  ⟨⟨by decide, by decide, by decide, by decide, by decide, by decide, by decide, rfl⟩,
   ⟨by decide, by decide, by decide, by decide, by decide, rfl⟩⟩

/-- C14 (amended): for every map with at least two top-level layers (the layer
sequence being free of duplicates) and every layer `A`, `toggleOtherLayers(A)`
adds exactly one entry to the undo stack, a macro. Its target visibility is
hide when a top-level layer other than `A` is visible and show otherwise; its
title is "Hide Other Layers" resp. "Show Other Layers"; its children are one
`SetLayerVisible(l, target)` per top-level layer `l` other than `A` whose
visibility differs from the target, in layer order. -/
theorem C14_toggleOtherLayers_pushes_one_titled_entry (d : MapDocument) (A : LayerPtr)
    (h2 : 2 ≤ (d.world.mapLayers.length : Int)) (hnodup : d.world.mapLayers.Nodup) :
    (LayerModel.toggleOtherLayers d A).undoStack =
      d.undoStack ++
        [Command.UndoMacro (LayerModel.toggleTitle (LayerModel.toggleTarget d.world A))
          ((LayerModel.toggleAffected d.world A (LayerModel.toggleTarget d.world A)).map
            fun l => Command.SetLayerVisible l (LayerModel.toggleTarget d.world A))] ∧
    (LayerModel.toggleTarget d.world A = false ↔
      ∃ l ∈ d.world.mapLayers, l ≠ A ∧ (d.world.layer l).visible = true) ∧
    (∀ l, l ∈ LayerModel.toggleAffected d.world A (LayerModel.toggleTarget d.world A) ↔
      l ∈ d.world.mapLayers ∧ l ≠ A ∧
        (d.world.layer l).visible ≠ LayerModel.toggleTarget d.world A) := by
  have hgt : ¬ (d.world.mapLayers.length : Int) ≤ 1 := by omega
  refine ⟨?_, ?_, ?_⟩
  · simp only [LayerModel.toggleOtherLayers, hgt, if_false]
    rw [LayerModel.toggleOtherLayers.visibility_eq]
    obtain ⟨h1, h2', h3⟩ := LayerModel.toggleOtherLayers.pushAll_eq A
      (LayerModel.toggleTarget d.world A) d.world.mapLayers
      (if LayerModel.toggleTarget d.world A = true then
        QUndoStack.beginMacro d "Show Other Layers"
        else QUndoStack.beginMacro d "Hide Other Layers") hnodup
    simp only [OpenMacro.endMacro]
    change _ ++ [Command.UndoMacro _ _] = _
    rw [show (!(d.world.mapLayers.any fun l => decide (l ≠ A) && (d.world.layer l).visible))
      = LayerModel.toggleTarget d.world A from rfl]
    rw [h3, h2', h1]
    by_cases ht : LayerModel.toggleTarget d.world A = true
    · simp [ht, QUndoStack.beginMacro, LayerModel.toggleTitle, LayerModel.toggleAffected]
    · simp [ht, QUndoStack.beginMacro, LayerModel.toggleTitle, LayerModel.toggleAffected]
  · simp [LayerModel.toggleTarget]
  · intro l
    simp only [LayerModel.toggleAffected, List.mem_filter, Bool.and_eq_true, decide_eq_true_eq]
    constructor
    · rintro ⟨hm, hne, hv⟩
      exact ⟨hm, hne, fun e => hv e.symm⟩
    · rintro ⟨hm, hne, hv⟩
      exact ⟨hm, hne, fun e => hv e.symm⟩

/-- Witness for C14 (amended): for the top-level layers `[1 (visible),
2 (hidden), 3 (visible)]` and layer 1 the undo stack gains one macro titled
"Hide Other Layers" with exactly one child, the command that hides layer 3. -/
theorem C14_toggleOtherLayers_pushes_one_titled_entry_witness :
    (LayerModel.toggleOtherLayers toggleExample 1).undoStack =
      [Command.UndoMacro "Hide Other Layers" [Command.SetLayerVisible 3 false]] :=
  (C14_toggleOtherLayers_pushes_one_titled_entry toggleExample 1 (by decide)
    (by decide)).1.trans rfl


/-! ## The map object tree model: reacting to layer events -/

theorem QMap.mem_take {keys : List Nat} {key k : Nat} :
    k ∈ QMap.take keys key ↔ k ∈ keys ∧ k ≠ key := by
  simp [QMap.take]

theorem QMap.mem_foldl_take (objs : List Nat) :
    ∀ (keys : List Nat) (k : Nat),
      k ∈ objs.foldl (fun keys o => QMap.take keys o) keys ↔ k ∈ keys ∧ k ∉ objs := by
  induction objs with
  | nil => intro keys k; simp
  | cons o objs ih =>
    intro keys k
    simp only [List.foldl_cons, ih, QMap.mem_take, List.mem_cons, not_or]
    constructor
    · rintro ⟨⟨h1, h2⟩, h3⟩
      exact ⟨h1, h2, h3⟩
    · rintro ⟨h1, h2, h3⟩
      exact ⟨⟨h1, h2⟩, h3⟩

theorem QList.removeAtChecked_of_at {l : List LayerPtr} {i : Int} {x : LayerPtr}
    (h : QList.at l i = some x) : QList.removeAtChecked l i = QList.removeAt l i := by
  obtain ⟨h0, hlt, _⟩ := QList.at_eq_some h
  have : 0 ≤ i ∧ i < (l.length : Int) := ⟨h0, by omega⟩
  simp [QList.removeAtChecked, this]

theorem QList.not_mem_removeAt_of_nodup {l : List LayerPtr} {i : Int} {x : LayerPtr}
    (h : QList.at l i = some x) (hn : l.Nodup) : x ∉ QList.removeAt l i := by
  obtain ⟨h0, hlt, hx⟩ := QList.at_eq_some h
  have hx' : l[i.toNat] = x := by
    rw [List.getElem?_eq_getElem hlt] at hx
    exact Option.some.inj hx
  have hsplit : l = l.take i.toNat ++ x :: l.drop (i.toNat + 1) := by
    rw [← hx', ← List.drop_eq_getElem_cons hlt, List.take_append_drop]
  rw [hsplit] at hn
  obtain ⟨_, h2, h3⟩ := List.nodup_append.mp hn
  intro hm
  rcases List.mem_append.mp hm with hm | hm
  · exact h3 hm (List.mem_cons_self _ _)
  · exact (List.nodup_cons.mp h2).1 hm

/-- C17: let `G` be the layer at top-level position `index`. If `G` is an
object group that the model tracks (in a duplicate-free list), then
`layerAboutToBeRemoved(nullptr, index)` removes exactly `G`'s row from the
tracked list, the other groups keeping their order; it opens the remove
bracket for that row on the old members and closes it on the new ones, and
emits nothing else; afterwards a group has a wrapper iff it had one and is not
`G`, and an object has a wrapper iff it had one and is not an object of `G`.
If `G` is not an object group, the state of the model is unchanged. -/
theorem C17_layerAboutToBeRemoved_removes_exactly_the_group (w : World)
    (s : ObjectModelState) (index : Int) (G : LayerPtr)
    (hat : QList.at w.mapLayers index = some G) :
    (w.asObjectGroup G = some G → G ∈ s.model.mObjectGroups → s.model.mObjectGroups.Nodup →
      QList.at s.model.mObjectGroups (QList.indexOf s.model.mObjectGroups G) = some G ∧
      (MapObjectModel.layerAboutToBeRemoved w s none index).model.mObjectGroups =
        s.model.mObjectGroups.take (QList.indexOf s.model.mObjectGroups G).toNat ++
          s.model.mObjectGroups.drop ((QList.indexOf s.model.mObjectGroups G).toNat + 1) ∧
      G ∉ (MapObjectModel.layerAboutToBeRemoved w s none index).model.mObjectGroups ∧
      (∀ g, g ∈ (MapObjectModel.layerAboutToBeRemoved w s none index).model.mGroups ↔
        g ∈ s.model.mGroups ∧ g ≠ G) ∧
      (∀ o, o ∈ (MapObjectModel.layerAboutToBeRemoved w s none index).model.mObjects ↔
        o ∈ s.model.mObjects ∧ o ∉ w.objects G) ∧
      (MapObjectModel.layerAboutToBeRemoved w s none index).model.mMapDocument =
        s.model.mMapDocument ∧
      (MapObjectModel.layerAboutToBeRemoved w s none index).emitted =
        s.emitted ++
          [ObjectEmission.mk
            (ObjectSignal.beginRemoveRows ObjectIndex.invalid
              (QList.indexOf s.model.mObjectGroups G) (QList.indexOf s.model.mObjectGroups G))
            s.model w,
           ObjectEmission.mk ObjectSignal.endRemoveRows
            (MapObjectModel.layerAboutToBeRemoved w s none index).model w]) ∧
    (w.asObjectGroup G = none → MapObjectModel.layerAboutToBeRemoved w s none index = s) := by
  constructor
  · intro hog hmem hnodup
    obtain ⟨_, hrow⟩ := QList.indexOf_of_mem hmem
    have hdef : MapObjectModel.layerAboutToBeRemoved w s none index =
        { model :=
            { mMapDocument := s.model.mMapDocument,
              mObjectGroups := QList.removeAt s.model.mObjectGroups
                (QList.indexOf s.model.mObjectGroups G),
              mGroups := QMap.take s.model.mGroups G,
              mObjects := (w.objects G).foldl (fun keys o => QMap.take keys o)
                s.model.mObjects },
          emitted := s.emitted ++
            [ObjectEmission.mk
              (ObjectSignal.beginRemoveRows ObjectIndex.invalid
                (QList.indexOf s.model.mObjectGroups G)
                (QList.indexOf s.model.mObjectGroups G))
              s.model w,
             ObjectEmission.mk ObjectSignal.endRemoveRows
              { mMapDocument := s.model.mMapDocument,
                mObjectGroups := QList.removeAt s.model.mObjectGroups
                  (QList.indexOf s.model.mObjectGroups G),
                mGroups := QMap.take s.model.mGroups G,
                mObjects := (w.objects G).foldl (fun keys o => QMap.take keys o)
                  s.model.mObjects } w] } := by
      simp [MapObjectModel.layerAboutToBeRemoved, hat, hog, ObjectModelState.emit,
        QList.removeAtChecked_of_at hrow]
    rw [hdef]
    refine ⟨hrow, rfl, QList.not_mem_removeAt_of_nodup hrow hnodup, fun g => QMap.mem_take,
      fun o => QMap.mem_foldl_take _ _ _, rfl, rfl⟩
  · intro hnot
    simp [MapObjectModel.layerAboutToBeRemoved, hat, hnot]

/-- Witness for C17 on the example stack: position 2 holds the tracked object
group 3 with the objects 10 and 11; position 0 holds a tile layer. -/
theorem C17_layerAboutToBeRemoved_removes_exactly_the_group_witness :
    (MapObjectModel.layerAboutToBeRemoved objectExampleWorld objectExampleModel none 2).model.mObjectGroups
      = [] ∧
    (∀ o, o ∈ (MapObjectModel.layerAboutToBeRemoved objectExampleWorld objectExampleModel
        none 2).model.mObjects ↔
      o ∈ objectExampleModel.model.mObjects ∧ o ∉ objectExampleWorld.objects 3) ∧
    MapObjectModel.layerAboutToBeRemoved objectExampleWorld objectExampleModel none 0
      = objectExampleModel :=
  have h2 := C17_layerAboutToBeRemoved_removes_exactly_the_group objectExampleWorld
    objectExampleModel 2 3 (by decide)
  have h0 := C17_layerAboutToBeRemoved_removes_exactly_the_group objectExampleWorld
    objectExampleModel 0 1 (by decide)
  ⟨((h2.1 (by decide) (by decide) (by decide)).2.1).trans (by decide),
   (h2.1 (by decide) (by decide) (by decide)).2.2.2.2.1,
   h0.2 (by decide)⟩

/-- C18: for a layer whose parent group is non-null (and which therefore is no
entry of the map's top-level sequence), the slots `layerAdded` and
`layerChanged`, and `layerAboutToBeRemoved` for any index below its parent
group, leave the state of the model (tracked list, both wrapper tables, log of
notifications) exactly as it is, whatever the variant of the layer. -/
theorem C18_nested_layer_events_are_ignored (w : World) (s : ObjectModelState)
    (layer parent : LayerPtr) (index : Int)
    (hp : (w.layer layer).parentLayer = some parent) (hnot : layer ∉ w.mapLayers) :
    MapObjectModel.layerAdded w s layer = s ∧
    MapObjectModel.layerChanged w s layer = s ∧
    MapObjectModel.layerAboutToBeRemoved w s (some parent) index = s := by
  refine ⟨?_, ?_, ?_⟩
  · simp [MapObjectModel.layerAdded, QList.indexOf, hnot]
  · simp [MapObjectModel.layerChanged, hp]
  · simp [MapObjectModel.layerAboutToBeRemoved]

/-- Witness for C18 on the example stack: layer 7 is an object group nested in
the group layer 2. -/
theorem C18_nested_layer_events_are_ignored_witness :
    objectExampleWorld.asObjectGroup 7 = some 7 ∧
    MapObjectModel.layerAdded objectExampleWorld objectExampleModel 7 = objectExampleModel ∧
    MapObjectModel.layerChanged objectExampleWorld objectExampleModel 7 = objectExampleModel ∧
    MapObjectModel.layerAboutToBeRemoved objectExampleWorld objectExampleModel (some 2) 0
      = objectExampleModel :=
  ⟨by decide,
   C18_nested_layer_events_are_ignored objectExampleWorld objectExampleModel 7 2 0
     (by decide) (by decide)⟩

/-! ## The map object tree model: addressing -/

theorem ObjectIndex.isValid_createObjectIndex {row column : Int} (ptr : Option ObjectOrGroup)
    (hr : 0 ≤ row) (hc : 0 ≤ column) : (createObjectIndex row column ptr).isValid = true := by
  simp [createObjectIndex, ObjectIndex.isValid, hr, hc]

/-- C19: `MapObjectModel::index` returns the invalid index, without a fault,
at the root for every row at or beyond the number of tracked object groups,
and under a group index for every row at or beyond the group's object count
and for every row of the group whose object has no wrapper. For every other
row of the group (and a column that is not negative) it returns a valid index
that `toMapObject` resolves to the object at that row. `rowCount` is the number
of tracked groups at the root (a model without document tracks none) and the
group's object count under a group index. -/
theorem C19_index_returns_invalid_for_unresolved_rows (w : World) (m : MapObjectModel)
    (row column : Int) :
    (∀ parent : ObjectIndex, parent.isValid = false → (m.mObjectGroups.length : Int) ≤ row →
      MapObjectModel.index w m row column parent = some ObjectIndex.invalid) ∧
    (∀ (parent : ObjectIndex) (og : LayerPtr), parent.isValid = true →
      MapObjectModel.toObjectGroup parent = some (some og) →
      (((w.objects og).length : Int) ≤ row →
        MapObjectModel.index w m row column parent = some ObjectIndex.invalid) ∧
      (∀ o : ObjectPtr, QList.at (w.objects og) row = some o →
        (o ∉ m.mObjects →
          MapObjectModel.index w m row column parent = some ObjectIndex.invalid) ∧
        (o ∈ m.mObjects → 0 ≤ column →
          ∃ i : ObjectIndex, MapObjectModel.index w m row column parent = some i ∧
            i.isValid = true ∧ i.row = row ∧ i.column = column ∧
            MapObjectModel.toMapObject i = some (some o))) ∧
      (m.mMapDocument = true →
        MapObjectModel.rowCount w m parent = some ((w.objects og).length : Int))) ∧
    (∀ parent : ObjectIndex, parent.isValid = false →
      (m.mMapDocument = true ∨ m.mObjectGroups = []) →
      MapObjectModel.rowCount w m parent = some (m.mObjectGroups.length : Int)) := by
  refine ⟨fun parent hp hrow => ?_, fun parent og hp hog => ⟨fun hrow => ?_, fun o ho => ⟨?_, ?_⟩,
    fun hdoc => ?_⟩, fun parent hp hdoc => ?_⟩
  · have : ¬ row < (m.mObjectGroups.length : Int) := by omega
    simp [MapObjectModel.index, hp, this]
  · simp [MapObjectModel.index, hp, hog, hrow]
  · intro hno
    obtain ⟨_, hlt, _⟩ := QList.at_eq_some ho
    have : ¬ ((w.objects og).length : Int) ≤ row := by omega
    simp [MapObjectModel.index, hp, hog, this, ho, hno]
  · intro hmem hc
    obtain ⟨h0, hlt, _⟩ := QList.at_eq_some ho
    have : ¬ ((w.objects og).length : Int) ≤ row := by omega
    refine ⟨createObjectIndex row column (some (ObjectOrGroup.object o)), ?_,
      ObjectIndex.isValid_createObjectIndex _ h0 hc, rfl, rfl, ?_⟩
    · simp [MapObjectModel.index, hp, hog, this, ho, hmem, MapObjectModel.objectWrapper]
    · have hv := ObjectIndex.isValid_createObjectIndex (some (ObjectOrGroup.object o)) h0 hc
      simp only [MapObjectModel.toMapObject, hv, Bool.not_true, Bool.false_eq_true, if_false]
      rfl
  · simp [MapObjectModel.rowCount, hdoc, hp, hog]
  · rcases hdoc with hdoc | hdoc
    · simp [MapObjectModel.rowCount, hdoc, hp]
    · by_cases hd : m.mMapDocument = true
      · simp [MapObjectModel.rowCount, hd, hp]
      · simp [MapObjectModel.rowCount, hd, hdoc]

/-- Witness for C19 on the example stack, under the index of the tracked
object group 3 (objects `[10, 11]`): row 2 is beyond the object count; row 1
resolves to object 11; with the wrapper of object 11 missing, row 1 gives the
invalid index; at the root, row 1 is beyond the one tracked group. -/
theorem C19_index_returns_invalid_for_unresolved_rows_witness :
    MapObjectModel.index objectExampleWorld objectExampleModel.model 1 0 ObjectIndex.invalid
      = some ObjectIndex.invalid ∧
    MapObjectModel.index objectExampleWorld objectExampleModel.model 2 0
      (createObjectIndex 0 0 (some (ObjectOrGroup.group 3))) = some ObjectIndex.invalid ∧
    (∃ i : ObjectIndex,
      MapObjectModel.index objectExampleWorld objectExampleModel.model 1 0
        (createObjectIndex 0 0 (some (ObjectOrGroup.group 3))) = some i ∧
      i.isValid = true ∧ i.row = 1 ∧ i.column = 0 ∧
      MapObjectModel.toMapObject i = some (some 11)) ∧
    MapObjectModel.index objectExampleWorld ⟨true, [3], [3], [10]⟩ 1 0
      (createObjectIndex 0 0 (some (ObjectOrGroup.group 3))) = some ObjectIndex.invalid ∧
    MapObjectModel.rowCount objectExampleWorld objectExampleModel.model
      (createObjectIndex 0 0 (some (ObjectOrGroup.group 3))) = some 2 ∧
    MapObjectModel.rowCount objectExampleWorld objectExampleModel.model ObjectIndex.invalid
      = some 1 :=
  ⟨(C19_index_returns_invalid_for_unresolved_rows objectExampleWorld objectExampleModel.model
      1 0).1 ObjectIndex.invalid (by decide) (by decide),
   ((C19_index_returns_invalid_for_unresolved_rows objectExampleWorld objectExampleModel.model
      2 0).2.1 (createObjectIndex 0 0 (some (ObjectOrGroup.group 3))) 3 (by decide)
      (by decide)).1 (by decide),
   (((C19_index_returns_invalid_for_unresolved_rows objectExampleWorld objectExampleModel.model
      1 0).2.1 (createObjectIndex 0 0 (some (ObjectOrGroup.group 3))) 3 (by decide)
      (by decide)).2.1 11 (by decide)).2 (by decide) (by decide),
   (((C19_index_returns_invalid_for_unresolved_rows objectExampleWorld ⟨true, [3], [3], [10]⟩
      1 0).2.1 (createObjectIndex 0 0 (some (ObjectOrGroup.group 3))) 3 (by decide)
      (by decide)).2.1 11 (by decide)).1 (by decide),
   ((C19_index_returns_invalid_for_unresolved_rows objectExampleWorld objectExampleModel.model
      0 0).2.1 (createObjectIndex 0 0 (some (ObjectOrGroup.group 3))) 3 (by decide)
      (by decide)).2.2 (by decide),
   (C19_index_returns_invalid_for_unresolved_rows objectExampleWorld objectExampleModel.model
      0 0).2.2 ObjectIndex.invalid (by decide) (Or.inl (by decide))⟩

/-! ## The map object tree model: where an added object group goes -/

theorem World.asObjectGroup_eq (w : World) (l : LayerPtr) :
    w.asObjectGroup l = if w.isObjectGroup l = true then some l else none := by
  simp [World.asObjectGroup, World.isObjectGroup]

theorem MapObjectModel.layerAdded.scan_eq (w : World) :
    ∀ n, n ≤ w.mapLayers.length →
      MapObjectModel.layerAdded.scan w n =
        ((w.mapLayers.take n).filter w.isObjectGroup).getLast? := by
  intro n
  induction n with
  | zero => intro _; simp [MapObjectModel.layerAdded.scan]
  | succ n ih =>
    intro hn
    have hlt : n < w.mapLayers.length := by omega
    simp only [MapObjectModel.layerAdded.scan, List.getElem?_eq_getElem hlt, List.take_succ,
      Option.toList, List.filter_append, World.asObjectGroup_eq]
    by_cases hp : w.isObjectGroup (w.mapLayers[n]) = true
    · simp [hp, List.filter_cons]
    · simp [hp, List.filter_cons, ih (by omega)]

theorem QList.indexOf_toNat_of_mem {l : List LayerPtr} {x : LayerPtr} (h : x ∈ l) :
    QList.indexOf l x = (l.indexOf x : Int) := by
  simp [QList.indexOf, h]

theorem MapObjectModel.layerAdded_mObjectGroups (w : World) (s : ObjectModelState)
    (og : LayerPtr) (hmem : og ∈ w.mapLayers) (hog : w.isObjectGroup og = true)
    (hnew : og ∉ s.model.mGroups) :
    (MapObjectModel.layerAdded w s og).model.mObjectGroups =
      QList.insert s.model.mObjectGroups
        (match ((w.mapLayers.take (w.mapLayers.indexOf og)).filter w.isObjectGroup).getLast? with
          | some p => QList.indexOf s.model.mObjectGroups p + 1
          | none => 0) og ∧
    (MapObjectModel.layerAdded w s og).model.mGroups = QMap.insert s.model.mGroups og := by
  have hidx : QList.indexOf w.mapLayers og ≠ -1 := by
    rw [QList.indexOf_toNat_of_mem hmem]; omega
  have hscan := MapObjectModel.layerAdded.scan_eq w (w.mapLayers.indexOf og)
    (le_of_lt (List.indexOf_lt_length.mpr hmem))
  have htoNat : (QList.indexOf w.mapLayers og).toNat = w.mapLayers.indexOf og := by
    rw [QList.indexOf_toNat_of_mem hmem]; simp
  simp only [MapObjectModel.layerAdded, hidx, if_false, World.asObjectGroup_eq, hog, if_true,
    hnew, htoNat, hscan, ObjectModelState.emit]
  constructor <;> first | rfl | trivial

/-- C15: let `og` be a top-level object group of the layer stack that has no
wrapper yet, every object group before it in the stack being tracked. Then
`layerAdded(og)` puts `og` into the tracked list immediately after the nearest
tracked object group that precedes it in the layer stack (the entries up to and
including that group stay before it, all others after it), and at row 0 when
no tracked object group precedes it. -/
theorem C15_layerAdded_places_group_after_nearest_preceding (w : World)
    (s : ObjectModelState) (og : LayerPtr) (hmem : og ∈ w.mapLayers)
    (hog : w.isObjectGroup og = true) (hnew : og ∉ s.model.mGroups)
    (htracked : ∀ l ∈ w.mapLayers.take (w.mapLayers.indexOf og),
      w.isObjectGroup l = true → l ∈ s.model.mObjectGroups) :
    (∀ prev : LayerPtr,
      MapObjectModel.nearestTrackedBefore w s.model (w.mapLayers.indexOf og) = some prev →
      prev ∈ s.model.mObjectGroups ∧
      (MapObjectModel.layerAdded w s og).model.mObjectGroups =
        s.model.mObjectGroups.take (s.model.mObjectGroups.indexOf prev + 1) ++
          og :: s.model.mObjectGroups.drop (s.model.mObjectGroups.indexOf prev + 1)) ∧
    (MapObjectModel.nearestTrackedBefore w s.model (w.mapLayers.indexOf og) = none →
      (MapObjectModel.layerAdded w s og).model.mObjectGroups = og :: s.model.mObjectGroups) := by
  have hfilter : ((w.mapLayers.take (w.mapLayers.indexOf og)).filter fun l =>
      decide (l ∈ s.model.mObjectGroups) && w.isObjectGroup l) =
      (w.mapLayers.take (w.mapLayers.indexOf og)).filter w.isObjectGroup := by
    apply List.filter_congr
    intro l hl
    by_cases hp : w.isObjectGroup l = true
    · simp [hp, htracked l hl hp]
    · simp [hp]
  obtain ⟨hlist, _⟩ := MapObjectModel.layerAdded_mObjectGroups w s og hmem hog hnew
  unfold MapObjectModel.nearestTrackedBefore
  rw [hfilter, hlist]
  constructor
  · intro prev hprev
    have hprevmem : prev ∈ s.model.mObjectGroups := by
      have h1 := List.mem_of_getLast?_eq_some hprev
      have h2 := List.mem_filter.mp h1
      exact htracked prev h2.1 h2.2
    refine ⟨hprevmem, ?_⟩
    rw [hprev]
    simp only [QList.insert, QList.indexOf_toNat_of_mem hprevmem]
    have : ((s.model.mObjectGroups.indexOf prev : Int) + 1).toNat
        = s.model.mObjectGroups.indexOf prev + 1 := by omega
    rw [this]
  · intro hnone
    rw [hnone]
    simp [QList.insert]

/-- Witness for C15 on the example stack `[1, 2, 3, 4]` (3 the only tracked
object group) with the new object group 5 inserted at the end and at the
front: `[1, 2, 3, 4, 5]` gives the rows `[3, 5]`, `[5, 1, 2, 3, 4]` gives the
rows `[5, 3]`. -/
theorem C15_layerAdded_places_group_after_nearest_preceding_witness :
    (MapObjectModel.layerAdded (objectExampleWorld.mapInsertLayer 4 5) objectExampleModel
      5).model.mObjectGroups = [3, 5] ∧
    (MapObjectModel.layerAdded (objectExampleWorld.mapInsertLayer 0 5) objectExampleModel
      5).model.mObjectGroups = [5, 3] :=
  ⟨(((C15_layerAdded_places_group_after_nearest_preceding
        (objectExampleWorld.mapInsertLayer 4 5) objectExampleModel 5 (by decide) (by decide)
        (by decide) (by decide)).1 3 (by decide)).2).trans (by decide),
   ((C15_layerAdded_places_group_after_nearest_preceding
        (objectExampleWorld.mapInsertLayer 0 5) objectExampleModel 5 (by decide) (by decide)
        (by decide) (by decide)).2 (by decide)).trans (by decide)⟩

/-! ## The map object tree model mirrors the layer stack -/

theorem QList.indexOf_middle {A B : List LayerPtr} {x : LayerPtr} (h : x ∉ A) :
    QList.indexOf (A ++ x :: B) x = (A.length : Int) := by
  have hm : x ∈ A ++ x :: B := by simp
  rw [QList.indexOf_toNat_of_mem hm, List.indexOf_append_of_not_mem h, List.indexOf_cons_self]
  simp

theorem QList.at_middle (A B : List LayerPtr) (x : LayerPtr) :
    QList.at (A ++ x :: B) (A.length : Int) = some x := by
  have h0 : (0 : Int) ≤ (A.length : Int) := Int.ofNat_nonneg _
  simp only [QList.at, h0, if_true, Int.toNat_ofNat]
  rw [List.getElem?_append_right (le_refl _)]
  simp

theorem QList.insert_middle (A B : List LayerPtr) (x : LayerPtr) :
    QList.insert (A ++ B) (A.length : Int) x = A ++ x :: B := by
  simp [QList.insert]

theorem QList.removeAt_middle (A B : List LayerPtr) (x : LayerPtr) :
    QList.removeAt (A ++ x :: B) (A.length : Int) = A ++ B := by
  simp only [QList.removeAt, Int.toNat_ofNat]
  rw [List.take_left, List.drop_append]
  rfl

/-- The slot `layerAdded` re-establishes the mirror after a layer has gone
into the top-level sequence. -/
theorem MapObjectModel.layerAdded_mirrors (w : World) (s : ObjectModelState) (X : LayerPtr)
    (A B : List LayerPtr) (hL : w.mapLayers = A ++ X :: B) (hn : (A ++ X :: B).Nodup)
    (hT : s.model.mObjectGroups = (A ++ B).filter w.isObjectGroup)
    (hG : ∀ g, g ∈ s.model.mGroups ↔ g ∈ s.model.mObjectGroups) :
    MapObjectModel.Mirrors w (MapObjectModel.layerAdded w s X).model := by
  have hXA : X ∉ A := fun h =>
    (List.nodup_append.mp hn).2.2 h (List.mem_cons_self _ _)
  have hXB : X ∉ B := (List.nodup_cons.mp (List.nodup_append.mp hn).2.1).1
  have hmem : X ∈ w.mapLayers := by rw [hL]; simp
  by_cases hp : w.isObjectGroup X = true
  · have hnew : X ∉ s.model.mGroups := by
      rw [hG, hT, List.mem_filter]
      intro h
      rcases List.mem_append.mp h.1 with h | h
      · exact hXA h
      · exact hXB h
    obtain ⟨hlist, hgroups⟩ := MapObjectModel.layerAdded_mObjectGroups w s X hmem hp hnew
    have hidx : w.mapLayers.indexOf X = A.length := by
      rw [hL, List.indexOf_append_of_not_mem hXA, List.indexOf_cons_self]; rfl
    have htake : w.mapLayers.take (w.mapLayers.indexOf X) = A := by
      rw [hidx, hL, List.take_left]
    rw [htake] at hlist
    have hTsplit : s.model.mObjectGroups = A.filter w.isObjectGroup ++ B.filter w.isObjectGroup := by
      rw [hT, List.filter_append]
    have hTn : (A.filter w.isObjectGroup ++ B.filter w.isObjectGroup).Nodup := by
      rw [← List.filter_append]
      exact List.Nodup.filter _ (List.nodup_middle.mp hn).of_cons
    have hpos : (match (A.filter w.isObjectGroup).getLast? with
        | some p => QList.indexOf s.model.mObjectGroups p + 1
        | none => 0) = ((A.filter w.isObjectGroup).length : Int) := by
      cases hlast : (A.filter w.isObjectGroup).getLast? with
      | none =>
        rw [List.getLast?_eq_none_iff] at hlast
        simp [hlast]
      | some q =>
        obtain ⟨ys, hys⟩ := List.getLast?_eq_some_iff.mp hlast
        have hq : q ∉ ys := by
          rw [hys, List.append_assoc] at hTn
          exact fun h => (List.nodup_append.mp hTn).2.2 h (by simp)
        have : QList.indexOf s.model.mObjectGroups q = (ys.length : Int) := by
          rw [hTsplit, hys, List.append_assoc]
          exact QList.indexOf_middle hq
        show QList.indexOf s.model.mObjectGroups q + 1 = _
        rw [this, hys]
        simp
    rw [hpos, hTsplit, QList.insert_middle] at hlist
    refine ⟨?_, fun g => ?_⟩
    · rw [hlist, hL, List.filter_append, List.filter_cons, if_pos hp]
    · rw [hgroups, hlist]
      simp only [QMap.insert]
      split
      · rename_i hin
        exact absurd hin hnew
      · rw [List.mem_append, hG, hTsplit]
        simp only [List.mem_append, List.mem_cons, List.mem_singleton, List.not_mem_nil,
          or_false]
        constructor
        · rintro (⟨h | h⟩ | h)
          · exact Or.inl h
          · exact Or.inr (Or.inr h)
          · exact Or.inr (Or.inl h)
        · rintro (h | h | h)
          · exact Or.inl (Or.inl h)
          · exact Or.inr h
          · exact Or.inl (Or.inr h)
  · have hp' : w.isObjectGroup X = false := by simpa using hp
    have hidx : QList.indexOf w.mapLayers X ≠ -1 := by
      rw [QList.indexOf_toNat_of_mem hmem]; omega
    have hsame : MapObjectModel.layerAdded w s X = s := by
      simp [MapObjectModel.layerAdded, hidx, World.asObjectGroup_eq, hp']
    rw [hsame]
    refine ⟨?_, hG⟩
    rw [hT, hL, List.filter_append, List.filter_append, List.filter_cons, if_neg hp]

/-- The slot `layerAboutToBeRemoved` keeps the tracked list the mirror of the
top-level sequence without the layer that is about to go. -/
theorem MapObjectModel.layerAboutToBeRemoved_mirrors (w : World) (s : ObjectModelState)
    (X : LayerPtr) (A B : List LayerPtr) (hL : w.mapLayers = A ++ X :: B)
    (hn : (A ++ X :: B).Nodup) (hinv : MapObjectModel.Mirrors w s.model) :
    (MapObjectModel.layerAboutToBeRemoved w s none (A.length : Int)).model.mObjectGroups =
      (A ++ B).filter w.isObjectGroup ∧
    ∀ g, g ∈ (MapObjectModel.layerAboutToBeRemoved w s none (A.length : Int)).model.mGroups ↔
      g ∈ (MapObjectModel.layerAboutToBeRemoved w s none (A.length : Int)).model.mObjectGroups := by
  obtain ⟨hT, hG⟩ := hinv
  have hXA : X ∉ A := fun h =>
    (List.nodup_append.mp hn).2.2 h (List.mem_cons_self _ _)
  have hXB : X ∉ B := (List.nodup_cons.mp (List.nodup_append.mp hn).2.1).1
  have hat : QList.at w.mapLayers (A.length : Int) = some X := by
    rw [hL]; exact QList.at_middle A B X
  by_cases hp : w.isObjectGroup X = true
  · have hTsplit : s.model.mObjectGroups =
        A.filter w.isObjectGroup ++ X :: B.filter w.isObjectGroup := by
      rw [hT, hL, List.filter_append, List.filter_cons, if_pos hp]
    have hXFA : X ∉ A.filter w.isObjectGroup := fun h => hXA (List.mem_filter.mp h).1
    have hXFB : X ∉ B.filter w.isObjectGroup := fun h => hXB (List.mem_filter.mp h).1
    have hrow : QList.indexOf s.model.mObjectGroups X =
        ((A.filter w.isObjectGroup).length : Int) := by
      rw [hTsplit]; exact QList.indexOf_middle hXFA
    have hatrow : QList.at s.model.mObjectGroups
        ((A.filter w.isObjectGroup).length : Int) = some X := by
      rw [hTsplit]; exact QList.at_middle _ _ X
    have hrem : QList.removeAtChecked s.model.mObjectGroups
        (QList.indexOf s.model.mObjectGroups X) =
        A.filter w.isObjectGroup ++ B.filter w.isObjectGroup := by
      rw [hrow, QList.removeAtChecked_of_at hatrow, hTsplit]
      exact QList.removeAt_middle _ _ X
    have hlist : (MapObjectModel.layerAboutToBeRemoved w s none (A.length : Int)).model.mObjectGroups
        = A.filter w.isObjectGroup ++ B.filter w.isObjectGroup := by
      simp only [MapObjectModel.layerAboutToBeRemoved, hat, World.asObjectGroup_eq, hp,
        ObjectModelState.emit]
      simp only [Option.isSome_none, Bool.false_eq_true, if_false, if_true]
      exact hrem
    have hgroups : (MapObjectModel.layerAboutToBeRemoved w s none (A.length : Int)).model.mGroups
        = QMap.take s.model.mGroups X := by
      simp only [MapObjectModel.layerAboutToBeRemoved, hat, World.asObjectGroup_eq, hp,
        ObjectModelState.emit]
      simp only [Option.isSome_none, Bool.false_eq_true, if_false, if_true]
    refine ⟨by rw [hlist, List.filter_append], fun g => ?_⟩
    rw [hgroups, hlist, QMap.mem_take, hG, hTsplit]
    simp only [List.mem_append, List.mem_cons]
    constructor
    · rintro ⟨h | h | h, hne⟩
      · exact Or.inl h
      · exact absurd h hne
      · exact Or.inr h
    · rintro (h | h)
      · exact ⟨Or.inl h, fun e => hXFA (e ▸ h)⟩
      · exact ⟨Or.inr (Or.inr h), fun e => hXFB (e ▸ h)⟩
  · have hp' : w.isObjectGroup X = false := by simpa using hp
    have hsame : MapObjectModel.layerAboutToBeRemoved w s none (A.length : Int) = s := by
      simp [MapObjectModel.layerAboutToBeRemoved, hat, World.asObjectGroup_eq, hp']
    rw [hsame]
    refine ⟨?_, hG⟩
    rw [hT, hL, List.filter_append, List.filter_append, List.filter_cons, if_neg hp]

theorem layerType_update_parentLayer (f : LayerPtr → Layer) (p c : LayerPtr)
    (x : Option LayerPtr) :
    (Function.update f p { f p with parentLayer := x } c).layerType = (f c).layerType := by
  by_cases h : c = p
  · subst h; simp
  · simp [Function.update_noteq h]

theorem World.isObjectGroup_mapInsertLayer (w : World) (index : Int) (layer : LayerPtr) :
    (w.insertLayer none index layer).isObjectGroup = w.isObjectGroup := by
  funext l
  simp [World.isObjectGroup, World.insertLayer, World.mapInsertLayer,
    layerType_update_parentLayer]

theorem World.isObjectGroup_mapTakeLayerAt {w w' : World} {index : Int} {x : LayerPtr}
    (h : w.takeLayerAt none index = some (x, w')) : w'.isObjectGroup = w.isObjectGroup := by
  simp only [World.takeLayerAt, World.mapTakeLayerAt] at h
  cases hat : QList.at w.mapLayers index with
  | none => simp [hat] at h
  | some y =>
    simp only [hat, Option.map_some', Option.some.injEq, Prod.mk.injEq] at h
    obtain ⟨_, rfl⟩ := h
    funext l
    simp [World.isObjectGroup, layerType_update_parentLayer]

theorem World.at_of_takeLayerAt {w w' : World} {parentLayer : Option LayerPtr} {index : Int}
    {x : LayerPtr} (h : w.takeLayerAt parentLayer index = some (x, w')) :
    QList.at (w.container parentLayer) index = some x := by
  cases parentLayer with
  | none =>
    simp only [World.takeLayerAt, World.mapTakeLayerAt] at h
    cases hat : QList.at w.mapLayers index with
    | none => simp [hat] at h
    | some y =>
      simp only [hat, Option.map_some', Option.some.injEq, Prod.mk.injEq] at h
      rw [← h.1]
      exact hat
  | some g =>
    simp only [World.takeLayerAt, World.groupTakeLayerAt] at h
    cases hat : QList.at (w.groupLayers g) index with
    | none => simp [hat] at h
    | some y =>
      simp only [hat, Option.map_some', Option.some.injEq, Prod.mk.injEq] at h
      rw [← h.1]
      exact hat

theorem ObjectModelState.handleAll_insertLayer (s : ObjectModelState) (d : MapDocument)
    (parentLayer : Option LayerPtr) (index : Int) (layer : LayerPtr) :
    s.handleAll ((LayerModel.insertLayer d parentLayer index layer).emittedSince d) =
      MapObjectModel.layerAdded (d.world.insertLayer parentLayer index layer) s layer := by
  simp [MapDocument.emittedSince, LayerModel.insertLayer, MapDocument.emit,
    ObjectModelState.handleAll, ObjectModelState.handle, List.append_assoc]

theorem ObjectModelState.handleAll_takeLayerAt (s : ObjectModelState) {d d' : MapDocument}
    {parentLayer : Option LayerPtr} {index : Int} {layer : LayerPtr}
    (h : LayerModel.takeLayerAt d parentLayer index = some (layer, d')) :
    s.handleAll (d'.emittedSince d) =
      MapObjectModel.layerAboutToBeRemoved d.world s parentLayer index := by
  rw [LayerModel.takeLayerAt_eq] at h
  cases ht : d.world.takeLayerAt parentLayer index with
  | none => simp [ht] at h
  | some r =>
    simp only [ht, Option.map_some', Option.some.injEq, Prod.mk.injEq] at h
    obtain ⟨_, rfl⟩ := h
    simp [MapDocument.emittedSince, ObjectModelState.handleAll, ObjectModelState.handle]

/-- Inserting a new layer at the top level, with `layerAdded` handled, keeps
the model the mirror of the layer stack. -/
theorem MapObjectModel.mirrors_insertLayer (d : MapDocument) (s : ObjectModelState)
    (hm : d.world.mMap.isSome = true) (hn : d.world.mapLayers.Nodup)
    (hinv : MapObjectModel.Mirrors d.world s.model) (L : LayerPtr) (i : Int)
    (hL : L ∉ d.world.mapLayers) :
    MapObjectModel.Mirrors (LayerModel.insertLayer d none i L).world
      (s.handleAll ((LayerModel.insertLayer d none i L).emittedSince d)).model := by
  rw [ObjectModelState.handleAll_insertLayer, LayerModel.insertLayer_world]
  have hlayers : (d.world.insertLayer none i L).mapLayers =
      d.world.mapLayers.take i.toNat ++ L :: d.world.mapLayers.drop i.toNat := by
    have := World.container_insertLayer d.world none i L none (fun _ => hm)
    simpa [World.container, QList.insert] using this
  have hsplit : d.world.mapLayers.take i.toNat ++ d.world.mapLayers.drop i.toNat
      = d.world.mapLayers := List.take_append_drop _ _
  apply MapObjectModel.layerAdded_mirrors _ s L _ _ hlayers
  · rw [List.nodup_middle, hsplit]
    exact List.nodup_cons.mpr ⟨hL, hn⟩
  · rw [hsplit, World.isObjectGroup_mapInsertLayer]
    exact hinv.1
  · exact hinv.2

/-- C16: let the map be set with a duplicate-free top-level sequence, and let
the model mirror it (the tracked list is the list of object groups among the
top-level layers in the same order, and the groups with a wrapper are the
tracked ones). Then the model mirrors the layer stack again after
`insertLayer(nullptr, i, L)` for every layer `L` not yet in the sequence and
every index, with the `layerAdded` notification handled by the model, and
after every successful `takeLayerAt(nullptr, i)` with the
`layerAboutToBeRemoved` notification handled; and inserting the taken layer
again at the same index gives back the tracked list from before the removal,
so a removed object group returns to its old row. -/
theorem C16_tracked_groups_mirror_layer_stack (d : MapDocument) (s : ObjectModelState)
    (hm : d.world.mMap.isSome = true) (hn : d.world.mapLayers.Nodup)
    (hinv : MapObjectModel.Mirrors d.world s.model) :
    (∀ (L : LayerPtr) (i : Int), L ∉ d.world.mapLayers →
      MapObjectModel.Mirrors (LayerModel.insertLayer d none i L).world
        (s.handleAll ((LayerModel.insertLayer d none i L).emittedSince d)).model) ∧
    (∀ (i : Int) (L : LayerPtr) (d' : MapDocument),
      LayerModel.takeLayerAt d none i = some (L, d') →
      MapObjectModel.Mirrors d'.world (s.handleAll (d'.emittedSince d)).model ∧
      MapObjectModel.Mirrors (LayerModel.insertLayer d' none i L).world
        ((s.handleAll (d'.emittedSince d)).handleAll
          ((LayerModel.insertLayer d' none i L).emittedSince d')).model ∧
      ((s.handleAll (d'.emittedSince d)).handleAll
          ((LayerModel.insertLayer d' none i L).emittedSince d')).model.mObjectGroups
        = s.model.mObjectGroups) := by
  refine ⟨fun L i hL => MapObjectModel.mirrors_insertLayer d s hm hn hinv L i hL,
    fun i L d' htake => ?_⟩
  have hw := LayerModel.takeLayerAt_world htake
  have hat : QList.at d.world.mapLayers i = some L := World.at_of_takeLayerAt hw
  obtain ⟨h0, hlt, hx⟩ := QList.at_eq_some hat
  have hx' : d.world.mapLayers[i.toNat] = L := by
    rw [List.getElem?_eq_getElem hlt] at hx
    exact Option.some.inj hx
  have hsplit : d.world.mapLayers =
      d.world.mapLayers.take i.toNat ++ L :: d.world.mapLayers.drop (i.toNat + 1) := by
    rw [← hx', ← List.drop_eq_getElem_cons hlt, List.take_append_drop]
  have hlen : ((d.world.mapLayers.take i.toNat).length : Int) = i := by
    rw [List.length_take]; omega
  have hn' : (d.world.mapLayers.take i.toNat ++
      L :: d.world.mapLayers.drop (i.toNat + 1)).Nodup := by
    rw [← hsplit]; exact hn
  obtain ⟨hT1, hG1⟩ := MapObjectModel.layerAboutToBeRemoved_mirrors d.world s L _ _ hsplit hn' hinv
  rw [hlen] at hT1 hG1
  have hlayers' : d'.world.mapLayers =
      d.world.mapLayers.take i.toNat ++ d.world.mapLayers.drop (i.toNat + 1) := by
    have := World.container_takeLayerAt hw none
    simpa [World.container, QList.removeAt] using this
  have hmirror1 : MapObjectModel.Mirrors d'.world (s.handleAll (d'.emittedSince d)).model := by
    rw [ObjectModelState.handleAll_takeLayerAt s htake]
    refine ⟨?_, hG1⟩
    rw [hT1, hlayers', World.isObjectGroup_mapTakeLayerAt hw]
  have hm' : d'.world.mMap.isSome = true := by
    rw [World.mMap_isSome_takeLayerAt hw]; exact hm
  have hn1 : d'.world.mapLayers.Nodup := by
    rw [hlayers']
    exact (List.nodup_middle.mp hn').of_cons
  have hL1 : L ∉ d'.world.mapLayers := by
    rw [hlayers']
    exact (List.nodup_cons.mp (List.nodup_middle.mp hn')).1
  have hmirror2 := MapObjectModel.mirrors_insertLayer d' (s.handleAll (d'.emittedSince d))
    hm' hn1 hmirror1 L i hL1
  refine ⟨hmirror1, hmirror2, ?_⟩
  rw [hmirror2.1, hinv.1, LayerModel.insertLayer_world, World.isObjectGroup_mapInsertLayer,
    World.isObjectGroup_mapTakeLayerAt hw]
  congr 1
  have := World.insertLayer_takeLayerAt hw hat none
  simpa [World.container] using this

/-- Witness for C16 on the example stack `[1, 2, 3, 4]` with the tracked list
`[3]`: inserting the new object group 5 at position 1 gives the tracked list
`[5, 3]`; taking the object group at position 2 empties it, and inserting the
taken layer again at position 2 gives `[3]` back. -/
theorem C16_tracked_groups_mirror_layer_stack_witness :
    MapObjectModel.Mirrors objectExampleDocument.world objectExampleModel.model ∧
    (objectExampleModel.handleAll
      ((LayerModel.insertLayer objectExampleDocument none 1 5).emittedSince
        objectExampleDocument)).model.mObjectGroups = [5, 3] ∧
    (∃ d' : MapDocument,
      LayerModel.takeLayerAt objectExampleDocument none 2 = some (3, d') ∧
      (objectExampleModel.handleAll (d'.emittedSince objectExampleDocument)).model.mObjectGroups
        = [] ∧
      ((objectExampleModel.handleAll (d'.emittedSince objectExampleDocument)).handleAll
        ((LayerModel.insertLayer d' none 2 3).emittedSince d')).model.mObjectGroups = [3]) := by
  have hinv : MapObjectModel.Mirrors objectExampleDocument.world objectExampleModel.model :=
    ⟨by decide, fun _ => Iff.rfl⟩
  have h := C16_tracked_groups_mirror_layer_stack objectExampleDocument objectExampleModel
    (by decide) (by decide) hinv
  refine ⟨hinv, ((h.1 5 1 (by decide)).1).trans (by decide), ?_⟩
  obtain ⟨d', hd'⟩ : ∃ d', LayerModel.takeLayerAt objectExampleDocument none 2 = some (3, d') :=
    ⟨_, rfl⟩
  obtain ⟨h1, _, h3⟩ := h.2 2 3 d' hd'
  refine ⟨d', hd', ?_, h3⟩
  rw [h1.1]
  have hw := LayerModel.takeLayerAt_world hd'
  have hlayers : d'.world.mapLayers = [1, 2, 4] := by
    have := World.container_takeLayerAt hw none
    simpa [World.container] using this.trans (by decide)
  rw [hlayers, World.isObjectGroup_mapTakeLayerAt hw]
  decide


/-! ## The map object tree model: `setData` and `flags` in column 1 -/

/-- C20 as stated fails: in the example state the index in column 1 of the
row of object 10 (visible, in the tracked group 3) is not user-checkable by
`flags`, yet a `CheckStateRole` write of `Qt::Unchecked` through it returns
true, pushes `SetMapObjectVisible(10, false)` and hides the object; the index
in column 1 of the row of group 3 is not editable by `flags`, yet an `EditRole`
write through it pushes `RenameLayer(3, "Renamed")` and renames the layer, and
a `CheckStateRole` write through it pushes `SetLayerVisible(3, false)`. -/
theorem C20_setData_in_column_1_ignores_the_column :
    MapObjectModel.flags editorExample (createObjectIndex 0 1 (some (ObjectOrGroup.object 10)))
      = some ⟨false, true⟩ ∧
    (editorExample.object 10).visible = true ∧
    (MapObjectModel.setData editorExample
        (createObjectIndex 0 1 (some (ObjectOrGroup.object 10))) ⟨0, none, ""⟩
        Qt.CheckStateRole).map
      (fun r => (r.1, r.2.document.undoStack, (r.2.object 10).visible)) =
      some (true, [Command.SetMapObjectVisible 10 false], false) ∧
    MapObjectModel.flags editorExample (createObjectIndex 0 1 (some (ObjectOrGroup.group 3)))
      = some ⟨false, false⟩ ∧
    (MapObjectModel.setData editorExample
        (createObjectIndex 0 1 (some (ObjectOrGroup.group 3))) ⟨0, none, "Renamed"⟩
        Qt.EditRole).map
      (fun r => (r.1, r.2.document.undoStack, (r.2.document.world.layer 3).name)) =
      some (true, [Command.RenameLayer 3 "Renamed"], "Renamed") ∧
    (MapObjectModel.setData editorExample
        (createObjectIndex 0 1 (some (ObjectOrGroup.group 3))) ⟨0, none, "Renamed"⟩
        Qt.CheckStateRole).map
      (fun r => (r.1, r.2.document.undoStack, (r.2.document.world.layer 3).visible)) =
      some (true, [Command.SetLayerVisible 3 false], false) :=
  ⟨by decide, rfl, rfl, by decide, rfl, rfl⟩

/-- C20 (amended): the restriction of column 1 is made by `flags`, not by
`setData`. `flags` adds user-checkable and editable in column 0; in any other
column it adds editable only, and only on the row of an object whose group is
tracked (nothing on a group row). `setData` handles a `CheckStateRole` write
without looking at the column: on an object row it pushes
`SetMapObjectVisible` when the visibility differs and nothing otherwise, on a
group row it forwards the write to the layer model; and it handles an
`EditRole` write to a group row without looking at the column: it pushes
`RenameLayer` when the name differs and nothing otherwise. For an `EditRole`
write to column 1 of an object row it pushes one "Change Object Type" macro
holding one `ChangeMapObject` with the current name and the new type when the
text differs from the type, and nothing otherwise. All these calls return
true. -/
theorem C20_column_1_is_restricted_by_flags_only (e : Editor) (index : ObjectIndex)
    (value : EditValue) :
    (index.column = 0 → MapObjectModel.flags e index = some ⟨true, true⟩) ∧
    (∀ o og : Nat, index.column ≠ 0 → MapObjectModel.toMapObject index = some (some o) →
      (e.object o).objectGroup = some og → og ∈ e.objectModel.model.mObjectGroups →
      MapObjectModel.flags e index = some ⟨false, true⟩) ∧
    (index.column ≠ 0 → MapObjectModel.toMapObject index = some none →
      MapObjectModel.flags e index = some ⟨false, false⟩) ∧
    (∀ o : ObjectPtr, MapObjectModel.toMapObject index = some (some o) →
      (decide (value.toInt = Qt.Checked) ≠ (e.object o).visible →
        MapObjectModel.setData e index value Qt.CheckStateRole =
          some (true, e.push
            (Command.SetMapObjectVisible o (decide (value.toInt = Qt.Checked))))) ∧
      (decide (value.toInt = Qt.Checked) = (e.object o).visible →
        MapObjectModel.setData e index value Qt.CheckStateRole = some (true, e)) ∧
      (index.column = 1 → value.toString ≠ (e.object o).type →
        MapObjectModel.setData e index value Qt.EditRole =
          some (true, ((e.beginMacro "Change Object Type").push
            (Command.ChangeMapObject o (e.object o).name value.toString)).endMacro)) ∧
      (index.column = 1 → value.toString = (e.object o).type →
        MapObjectModel.setData e index value Qt.EditRole = some (true, e))) ∧
    (∀ g : LayerPtr, MapObjectModel.toMapObject index = some none →
      MapObjectModel.toObjectGroup index = some (some g) →
      MapObjectModel.setData e index value Qt.CheckStateRole =
        (LayerModel.setData e.document (LayerModel.indexOfLayer e.document.world (some g))
          value Qt.CheckStateRole).map (fun r => (true, e.applyDocument r.2)) ∧
      ((e.document.world.layer g).name ≠ value.toString →
        MapObjectModel.setData e index value Qt.EditRole =
          some (true, e.push (Command.RenameLayer g value.toString))) ∧
      ((e.document.world.layer g).name = value.toString →
        MapObjectModel.setData e index value Qt.EditRole = some (true, e))) := by
  have hEdit : Qt.EditRole ≠ Qt.CheckStateRole := by decide
  refine ⟨fun hc => ?_, fun o og hc ho hog hmem => ?_, fun hc ho => ?_,
    fun o ho => ⟨fun h => ?_, fun h => ?_, fun hc h => ?_, fun hc h => ?_⟩,
    fun g ho hg => ⟨?_, fun h => ?_, fun h => ?_⟩⟩
  · simp [MapObjectModel.flags, hc]
  · have hrow : 0 ≤ QList.indexOf e.objectModel.model.mObjectGroups og :=
      (QList.indexOf_of_mem hmem).1
    simp [MapObjectModel.flags, hc, MapObjectModel.parent, ho, hog,
      MapObjectModel.indexOfGroup, ObjectIndex.isValid_createObjectIndex _ hrow (le_refl 0)]
  · simp [MapObjectModel.flags, hc, MapObjectModel.parent, ho, ObjectIndex.invalid,
      ObjectIndex.isValid]
  · simp [MapObjectModel.setData, ho, h]
  · simp [MapObjectModel.setData, ho, h]
  · have h0 : index.column ≠ 0 := by rw [hc]; decide
    simp [MapObjectModel.setData, ho, hEdit, hc, h]
  · have h0 : index.column ≠ 0 := by rw [hc]; decide
    simp [MapObjectModel.setData, ho, hEdit, hc, h]
  · simp [MapObjectModel.setData, ho, hg]
  · simp [MapObjectModel.setData, ho, hg, hEdit, h]
  · simp [MapObjectModel.setData, ho, hg, hEdit, h]

/-- Witness for C20 (amended) in the example state, in column 1 of the row of
object 10 ("Door", type "exit", visible, in the tracked group 3) and of the
row of group 3 ("Objects"). -/
theorem C20_column_1_is_restricted_by_flags_only_witness :
    MapObjectModel.flags editorExample (createObjectIndex 0 1 (some (ObjectOrGroup.object 10)))
      = some ⟨false, true⟩ ∧
    MapObjectModel.flags editorExample (createObjectIndex 0 1 (some (ObjectOrGroup.group 3)))
      = some ⟨false, false⟩ ∧
    MapObjectModel.setData editorExample
        (createObjectIndex 0 1 (some (ObjectOrGroup.object 10))) ⟨0, none, "door"⟩
        Qt.CheckStateRole =
      some (true, editorExample.push (Command.SetMapObjectVisible 10 false)) ∧
    MapObjectModel.setData editorExample
        (createObjectIndex 0 1 (some (ObjectOrGroup.object 10))) ⟨0, none, "door"⟩ Qt.EditRole =
      some (true, ((editorExample.beginMacro "Change Object Type").push
        (Command.ChangeMapObject 10 "Door" "door")).endMacro) ∧
    MapObjectModel.setData editorExample
        (createObjectIndex 0 1 (some (ObjectOrGroup.group 3))) ⟨0, none, "Objects"⟩ Qt.EditRole =
      some (true, editorExample) :=
  have ho := C20_column_1_is_restricted_by_flags_only editorExample
    (createObjectIndex 0 1 (some (ObjectOrGroup.object 10))) ⟨0, none, "door"⟩
  have hg := C20_column_1_is_restricted_by_flags_only editorExample
    (createObjectIndex 0 1 (some (ObjectOrGroup.group 3))) ⟨0, none, "Objects"⟩
  ⟨ho.2.1 10 3 (by decide) (by decide) rfl (by decide),
   hg.2.2.1 (by decide) (by decide),
   (ho.2.2.2.1 10 (by decide)).1 (by decide),
   (ho.2.2.2.1 10 (by decide)).2.2.1 rfl (by decide),
   (hg.2.2.2.2 3 (by decide) (by decide)).2.2 rfl⟩

/-! ## The map object tree model: `setData` with `EditRole` -/

theorem MapObjectModel.setObjectName_document (e : Editor) (o : ObjectPtr) (name : String) :
    (MapObjectModel.setObjectName e o name).document = e.document := by
  unfold MapObjectModel.setObjectName
  split <;> rfl

theorem MapObjectModel.setObjectType_document (e : Editor) (o : ObjectPtr) (type : String) :
    (MapObjectModel.setObjectType e o type).document = e.document := by
  unfold MapObjectModel.setObjectType
  split <;> rfl

theorem MapObjectModel.setObjectName_object (e : Editor) (o : ObjectPtr) (name : String) :
    (MapObjectModel.setObjectName e o name).object =
      Function.update e.object o { e.object o with name := name } := by
  unfold MapObjectModel.setObjectName
  split
  · next h =>
    funext p
    by_cases hp : p = o
    · subst hp; simp [← h]
    · simp [Function.update_noteq hp]
  · rfl

theorem MapObjectModel.setObjectType_object (e : Editor) (o : ObjectPtr) (type : String) :
    (MapObjectModel.setObjectType e o type).object =
      Function.update e.object o { e.object o with type := type } := by
  unfold MapObjectModel.setObjectType
  split
  · next h =>
    funext p
    by_cases hp : p = o
    · subst hp; simp [← h]
    · simp [Function.update_noteq hp]
  · rfl

theorem Editor.redo_changeMapObject (e : Editor) (o : ObjectPtr) (name type : String) :
    (e.redo (Command.ChangeMapObject o name type)).document = e.document ∧
    (e.redo (Command.ChangeMapObject o name type)).object =
      Function.update e.object o { e.object o with name := name, type := type } := by
  have hr : e.redo (Command.ChangeMapObject o name type) =
      MapObjectModel.setObjectType (MapObjectModel.setObjectName e o name) o type := by
    simp [Editor.redo]
  rw [hr, MapObjectModel.setObjectType_document, MapObjectModel.setObjectName_document,
    MapObjectModel.setObjectType_object, MapObjectModel.setObjectName_object]
  refine ⟨rfl, ?_⟩
  funext p
  by_cases hp : p = o
  · subst hp; simp
  · simp [Function.update_noteq hp]

/-- C21: `MapObjectModel::setData` with `EditRole`. On the row of an object
`o` (an object of a group, as every object of the map is; for an object
without group the source dereferences null when the command is applied): in
column 0 with a text different from the name it returns true and the
undo stack gains exactly one entry, the macro "Change Object Name" holding
exactly one `ChangeMapObject` with the new name and the current type (applied
at once: the name is the text, the type as before); in column 1 with a text
different from the type the undo stack gains exactly one macro "Change Object
Type" holding exactly one `ChangeMapObject` with the current name and the new
type; when the text equals the attribute of the column it returns true and
leaves the state as it is. On the row of a group `g` it returns true and the
undo stack gains exactly one `RenameLayer(g, text)` when the name differs, and
the state stays as it is when the name is the text. -/
theorem C21_setData_edit_role_pushes_independent_entries (e : Editor) (index : ObjectIndex)
    (value : EditValue) :
    (∀ o : ObjectPtr, MapObjectModel.toMapObject index = some (some o) →
      (e.object o).objectGroup ≠ none →
      (index.column = 0 → value.toString ≠ (e.object o).name →
        ∃ e', MapObjectModel.setData e index value Qt.EditRole = some (true, e') ∧
          e'.document.undoStack = e.document.undoStack ++
            [Command.UndoMacro "Change Object Name"
              [Command.ChangeMapObject o value.toString (e.object o).type]] ∧
          (e'.object o).name = value.toString ∧ (e'.object o).type = (e.object o).type) ∧
      (index.column = 1 → value.toString ≠ (e.object o).type →
        ∃ e', MapObjectModel.setData e index value Qt.EditRole = some (true, e') ∧
          e'.document.undoStack = e.document.undoStack ++
            [Command.UndoMacro "Change Object Type"
              [Command.ChangeMapObject o (e.object o).name value.toString]] ∧
          (e'.object o).name = (e.object o).name ∧ (e'.object o).type = value.toString) ∧
      ((index.column = 0 → value.toString = (e.object o).name) →
        (index.column = 1 → value.toString = (e.object o).type) →
        MapObjectModel.setData e index value Qt.EditRole = some (true, e))) ∧
    (∀ g : LayerPtr, MapObjectModel.toMapObject index = some none →
      MapObjectModel.toObjectGroup index = some (some g) →
      ((e.document.world.layer g).name ≠ value.toString →
        ∃ e', MapObjectModel.setData e index value Qt.EditRole = some (true, e') ∧
          e'.document.undoStack =
            e.document.undoStack ++ [Command.RenameLayer g value.toString]) ∧
      ((e.document.world.layer g).name = value.toString →
        MapObjectModel.setData e index value Qt.EditRole = some (true, e))) := by
  have hEdit : Qt.EditRole ≠ Qt.CheckStateRole := by decide
  refine ⟨fun o ho _ => ⟨fun hc h => ?_, fun hc h => ?_, fun h0 h1 => ?_⟩,
    fun g ho hg => ⟨fun h => ?_, fun h => ?_⟩⟩
  · have h1 : index.column ≠ 1 := by rw [hc]; decide
    obtain ⟨hd, hobj⟩ := Editor.redo_changeMapObject e o value.toString (e.object o).type
    refine ⟨((e.beginMacro "Change Object Name").push
      (Command.ChangeMapObject o value.toString (e.object o).type)).endMacro, ?_, ?_, ?_, ?_⟩
    · simp [MapObjectModel.setData, ho, hEdit, hc, h]
    · simp [OpenEditorMacro.endMacro, OpenEditorMacro.push, Editor.beginMacro, hd]
    · simp [OpenEditorMacro.endMacro, OpenEditorMacro.push, Editor.beginMacro, hobj]
    · simp [OpenEditorMacro.endMacro, OpenEditorMacro.push, Editor.beginMacro, hobj]
  · have h0 : index.column ≠ 0 := by rw [hc]; decide
    obtain ⟨hd, hobj⟩ := Editor.redo_changeMapObject e o (e.object o).name value.toString
    refine ⟨((e.beginMacro "Change Object Type").push
      (Command.ChangeMapObject o (e.object o).name value.toString)).endMacro, ?_, ?_, ?_, ?_⟩
    · simp [MapObjectModel.setData, ho, hEdit, hc, h]
    · simp [OpenEditorMacro.endMacro, OpenEditorMacro.push, Editor.beginMacro, hd]
    · simp [OpenEditorMacro.endMacro, OpenEditorMacro.push, Editor.beginMacro, hobj]
    · simp [OpenEditorMacro.endMacro, OpenEditorMacro.push, Editor.beginMacro, hobj]
  · have hn0 : ¬ (index.column = 0 ∧ value.toString ≠ (e.object o).name) :=
      fun hh => hh.2 (h0 hh.1)
    have hn1 : ¬ (index.column = 1 ∧ value.toString ≠ (e.object o).type) :=
      fun hh => hh.2 (h1 hh.1)
    simp only [MapObjectModel.setData, ho, hEdit, if_false, if_true]
    rw [if_neg hn0, if_neg hn1]
  · refine ⟨e.push (Command.RenameLayer g value.toString), ?_, ?_⟩
    · simp [MapObjectModel.setData, ho, hg, hEdit, h]
    · have hr : e.redo (Command.RenameLayer g value.toString) =
          e.applyDocument (LayerModel.renameLayer e.document g value.toString) := by
        simp [Editor.redo]
      have hu := Command.redo_undoStack e.document (Command.RenameLayer g value.toString)
      have hu' : (LayerModel.renameLayer e.document g value.toString).undoStack =
          e.document.undoStack := by
        simpa [Command.redo] using hu
      simp [Editor.push, hr, Editor.applyDocument, hu']
  · simp [MapObjectModel.setData, ho, hg, hEdit, h]

/-- Witness for C21 in the example state: the row of object 10 ("Door", type
"exit") in columns 0 and 1 with the text "Gate", in column 0 with the text
"Door", and the row of group 3 ("Objects") with the texts "Things" and
"Objects". -/
theorem C21_setData_edit_role_pushes_independent_entries_witness :
    (∃ e', MapObjectModel.setData editorExample
        (createObjectIndex 0 0 (some (ObjectOrGroup.object 10))) ⟨0, none, "Gate"⟩ Qt.EditRole =
          some (true, e') ∧
        e'.document.undoStack = editorExample.document.undoStack ++
          [Command.UndoMacro "Change Object Name" [Command.ChangeMapObject 10 "Gate" "exit"]] ∧
        (e'.object 10).name = "Gate" ∧ (e'.object 10).type = "exit") ∧
    (∃ e', MapObjectModel.setData editorExample
        (createObjectIndex 0 1 (some (ObjectOrGroup.object 10))) ⟨0, none, "Gate"⟩ Qt.EditRole =
          some (true, e') ∧
        e'.document.undoStack = editorExample.document.undoStack ++
          [Command.UndoMacro "Change Object Type" [Command.ChangeMapObject 10 "Door" "Gate"]] ∧
        (e'.object 10).name = "Door" ∧ (e'.object 10).type = "Gate") ∧
    MapObjectModel.setData editorExample
        (createObjectIndex 0 0 (some (ObjectOrGroup.object 10))) ⟨0, none, "Door"⟩ Qt.EditRole =
      some (true, editorExample) ∧
    (∃ e', MapObjectModel.setData editorExample
        (createObjectIndex 0 0 (some (ObjectOrGroup.group 3))) ⟨0, none, "Things"⟩ Qt.EditRole =
          some (true, e') ∧
        e'.document.undoStack =
          editorExample.document.undoStack ++ [Command.RenameLayer 3 "Things"]) ∧
    MapObjectModel.setData editorExample
        (createObjectIndex 0 0 (some (ObjectOrGroup.group 3))) ⟨0, none, "Objects"⟩ Qt.EditRole =
      some (true, editorExample) :=
  have hn := C21_setData_edit_role_pushes_independent_entries editorExample
    (createObjectIndex 0 0 (some (ObjectOrGroup.object 10))) ⟨0, none, "Gate"⟩
  have ht := C21_setData_edit_role_pushes_independent_entries editorExample
    (createObjectIndex 0 1 (some (ObjectOrGroup.object 10))) ⟨0, none, "Gate"⟩
  have hs := C21_setData_edit_role_pushes_independent_entries editorExample
    (createObjectIndex 0 0 (some (ObjectOrGroup.object 10))) ⟨0, none, "Door"⟩
  have hg := C21_setData_edit_role_pushes_independent_entries editorExample
    (createObjectIndex 0 0 (some (ObjectOrGroup.group 3))) ⟨0, none, "Things"⟩
  have hg' := C21_setData_edit_role_pushes_independent_entries editorExample
    (createObjectIndex 0 0 (some (ObjectOrGroup.group 3))) ⟨0, none, "Objects"⟩
  ⟨(hn.1 10 (by decide) (by decide)).1 rfl (by decide),
   (ht.1 10 (by decide) (by decide)).2.1 rfl (by decide),
   (hs.1 10 (by decide) (by decide)).2.2 (fun _ => by decide) (fun h => absurd h (by decide)),
   (hg.2 3 (by decide) (by decide)).1 (by decide),
   (hg'.2 3 (by decide) (by decide)).2 (by decide)⟩

/-! ## The map object tree model: `setObjectType` -/

/-- C24 as stated fails for a map object without a wrapper. In the example
state with object 13 in the nested object group 7, which the model does not
track, `setObjectType(13, "gate")` emits its data-changed for an index in
column 1 that carries a null wrapper: it is not the cell of object 13 (that
would carry the wrapper of 13), and the model cannot resolve it to an object. -/
theorem C24_untracked_object_cell_is_not_announced :
    (nestedObjectExample.object 13).objectGroup = some 7 ∧
    nestedObjectExample.document.world.objects 7 = [13] ∧
    nestedObjectExample.objectModel.model.mObjects = [10, 11] ∧
    (nestedObjectExample.object 13).type ≠ "gate" ∧
    (MapObjectModel.setObjectType nestedObjectExample 13 "gate").objectModel.signals =
      [ObjectSignal.dataChanged (createObjectIndex 0 1 none) (createObjectIndex 0 1 none),
       ObjectSignal.objectsChanged [13], ObjectSignal.objectsTypeChanged [13]] ∧
    createObjectIndex 0 1 none ≠ createObjectIndex 0 1 (some (ObjectOrGroup.object 13)) ∧
    MapObjectModel.toMapObject (createObjectIndex 0 1 none) = none := by
  decide

/-- C24 (amended): for every map object `o` (an object of a group `og`, as
every object of the map is; for an object without group the source
dereferences null in `index(o, 1)`) and every type string `t`. If `t` differs
from the type of `o`, `setObjectType(o, t)` stores `t` as the type of `o` and
changes nothing else (the other attributes of `o`, every other object, the
layers, the undo stack, the members of the model), and it emits exactly three
notifications, in this order: data-changed for `index(o, 1)`,
`objectsChanged([o])` and `objectsTypeChanged([o])`. The index lies in column
1; when `o` is in the sequence of its group and has a wrapper, it is valid and
resolves to `o`, so it is the column-1 cell of `o`; when `o` has no wrapper,
it carries a null wrapper. If `t` is the type of `o`, the state is unchanged
and nothing is emitted. -/
theorem C24_setObjectType_stores_and_notifies (e : Editor) (o : ObjectPtr) (t : String) :
    (∀ og, (e.object o).objectGroup = some og → t ≠ (e.object o).type →
      (MapObjectModel.setObjectType e o t).object o = { e.object o with type := t } ∧
      (∀ p, p ≠ o → (MapObjectModel.setObjectType e o t).object p = e.object p) ∧
      (MapObjectModel.setObjectType e o t).document = e.document ∧
      (MapObjectModel.setObjectType e o t).objectModel.model = e.objectModel.model ∧
      (MapObjectModel.setObjectType e o t).objectModel.signals =
        e.objectModel.signals ++
          [ObjectSignal.dataChanged (MapObjectModel.indexOfObject e o 1)
             (MapObjectModel.indexOfObject e o 1),
           ObjectSignal.objectsChanged [o], ObjectSignal.objectsTypeChanged [o]] ∧
      (MapObjectModel.indexOfObject e o 1).column = 1 ∧
      (o ∈ e.document.world.objects og → o ∈ e.objectModel.model.mObjects →
        (MapObjectModel.indexOfObject e o 1).isValid = true ∧
        MapObjectModel.toMapObject (MapObjectModel.indexOfObject e o 1) = some (some o)) ∧
      (o ∉ e.objectModel.model.mObjects →
        (MapObjectModel.indexOfObject e o 1).internalPointer = none)) ∧
    (t = (e.object o).type → MapObjectModel.setObjectType e o t = e) := by
  refine ⟨fun og hog h => ?_, fun h => ?_⟩
  · have h' : ¬ (e.object o).type = t := fun hh => h hh.symm
    refine ⟨?_, ?_, ?_, ?_, ?_, rfl, ?_, ?_⟩
    · simp [MapObjectModel.setObjectType, h', Editor.emitObject]
    · intro p hp
      simp [MapObjectModel.setObjectType, h', Editor.emitObject, Function.update_noteq hp]
    · simp [MapObjectModel.setObjectType, h', Editor.emitObject]
    · simp [MapObjectModel.setObjectType, h', Editor.emitObject, ObjectModelState.emit]
    · have hidx : MapObjectModel.indexOfObject
          { e with object := Function.update e.object o { e.object o with type := t } } o 1 =
          MapObjectModel.indexOfObject e o 1 := by
        simp [MapObjectModel.indexOfObject]
      simp [MapObjectModel.setObjectType, h', Editor.emitObject, ObjectModelState.emit,
        ObjectModelState.signals, hidx]
    · intro hmem hw
      have hrow : 0 ≤ QList.indexOf (e.document.world.objects og) o :=
        (QList.indexOf_of_mem hmem).1
      have hv : (MapObjectModel.indexOfObject e o 1).isValid = true := by
        simp only [MapObjectModel.indexOfObject, hog]
        exact ObjectIndex.isValid_createObjectIndex _ hrow (by decide)
      refine ⟨hv, ?_⟩
      simp only [MapObjectModel.toMapObject, hv]
      simp [MapObjectModel.indexOfObject, createObjectIndex, MapObjectModel.objectWrapper, hw]
    · intro hw
      simp [MapObjectModel.indexOfObject, createObjectIndex, MapObjectModel.objectWrapper, hw]
  · simp [MapObjectModel.setObjectType, h]

/-- Witness for C24 (amended) in the example state: object 10 ("Door", type
"exit", row 0 of the tracked group 3) gets the type "gate", and then the type
"exit" that it has. -/
theorem C24_setObjectType_stores_and_notifies_witness :
    ((MapObjectModel.setObjectType editorExample 10 "gate").object 10 =
        { editorExample.object 10 with type := "gate" } ∧
      (MapObjectModel.setObjectType editorExample 10 "gate").objectModel.signals =
        [ObjectSignal.dataChanged (createObjectIndex 0 1 (some (ObjectOrGroup.object 10)))
           (createObjectIndex 0 1 (some (ObjectOrGroup.object 10))),
         ObjectSignal.objectsChanged [10], ObjectSignal.objectsTypeChanged [10]] ∧
      MapObjectModel.toMapObject (MapObjectModel.indexOfObject editorExample 10 1) =
        some (some 10)) ∧
    MapObjectModel.setObjectType editorExample 10 "exit" = editorExample :=
  have h := C24_setObjectType_stores_and_notifies editorExample 10 "gate"
  have h' := C24_setObjectType_stores_and_notifies editorExample 10 "exit"
  ⟨⟨(h.1 3 rfl (by decide)).1, (h.1 3 rfl (by decide)).2.2.2.2.1.trans (by decide),
    ((h.1 3 rfl (by decide)).2.2.2.2.2.2.1 (by decide) (by decide)).2⟩,
   h'.2 rfl⟩

/-! ## `toggleOtherLayers`: the state afterwards -/

theorem Layer.with_visible_self (x : Layer) : { x with visible := x.visible } = x := by
  cases x; rfl

theorem LayerModel.setLayerVisible_world (d : MapDocument) (l : LayerPtr) (visible : Bool) :
    (LayerModel.setLayerVisible d l visible).world.mMap = d.world.mMap ∧
    ∀ p, (LayerModel.setLayerVisible d l visible).world.layer p =
      if p = l then { d.world.layer l with visible := visible } else d.world.layer p := by
  unfold LayerModel.setLayerVisible
  split
  · next h =>
    refine ⟨rfl, fun p => ?_⟩
    by_cases hp : p = l
    · subst hp
      rw [if_pos rfl, ← h, Layer.with_visible_self]
    · rw [if_neg hp]
  · refine ⟨rfl, fun p => ?_⟩
    by_cases hp : p = l
    · subst hp
      simp [MapDocument.emit, MapDocument.setLayer]
    · simp [MapDocument.emit, MapDocument.setLayer, Function.update_noteq hp, hp]

theorem LayerModel.toggleOtherLayers.pushAll_world (layer : LayerPtr) (visibility : Bool)
    (ls : List LayerPtr) :
    ∀ m : OpenMacro,
      (LayerModel.toggleOtherLayers.pushAll layer visibility m ls).document.world.mMap =
        m.document.world.mMap ∧
      ∀ p, (LayerModel.toggleOtherLayers.pushAll layer visibility m ls).document.world.layer p =
        if p ∈ ls ∧ p ≠ layer then { m.document.world.layer p with visible := visibility }
        else m.document.world.layer p := by
  induction ls with
  | nil => intro m; simp [LayerModel.toggleOtherLayers.pushAll]
  | cons l ls ih =>
    intro m
    simp only [LayerModel.toggleOtherLayers.pushAll]
    by_cases hla : l = layer
    · rw [if_pos hla]
      obtain ⟨h1, h2⟩ := ih m
      refine ⟨h1, fun p => ?_⟩
      rw [h2 p]
      by_cases hp : p = layer
      · simp [hp]
      · have : p ≠ l := fun e => hp (e.trans hla)
        simp [hp, this]
    · by_cases hv : visibility ≠ (m.document.world.layer l).visible
      · rw [if_neg hla, if_pos hv]
        obtain ⟨h1, h2⟩ := ih (m.push (Command.SetLayerVisible l visibility))
        obtain ⟨w1, w2⟩ := LayerModel.setLayerVisible_world m.document l visibility
        have hd : (m.push (Command.SetLayerVisible l visibility)).document =
            LayerModel.setLayerVisible m.document l visibility := by
          simp [OpenMacro.push, Command.redo]
        rw [hd] at h1 h2
        refine ⟨h1.trans w1, fun p => ?_⟩
        rw [h2 p, w2 p]
        by_cases hp : p = l
        · subst hp
          simp [hla]
        · simp [hp]
      · rw [if_neg hla, if_neg hv]
        obtain ⟨h1, h2⟩ := ih m
        refine ⟨h1, fun p => ?_⟩
        rw [h2 p]
        by_cases hp : p = l
        · subst hp
          have hv' : visibility = (m.document.world.layer p).visible := not_not.mp hv
          by_cases hm : p ∈ ls
          · simp [hm, hla]
          · simp only [hm, false_and, if_false, List.mem_cons, true_or, true_and, ne_eq, hla,
              not_false_eq_true, if_true]
            rw [hv', Layer.with_visible_self]
        · simp [hp]

theorem LayerModel.toggleOtherLayers_world (d : MapDocument) (A : LayerPtr)
    (h2 : 2 ≤ (d.world.mapLayers.length : Int)) :
    (LayerModel.toggleOtherLayers d A).world.mMap = d.world.mMap ∧
    ∀ p, (LayerModel.toggleOtherLayers d A).world.layer p =
      if p ∈ d.world.mapLayers ∧ p ≠ A then
        { d.world.layer p with visible := LayerModel.toggleTarget d.world A }
      else d.world.layer p := by
  have hgt : ¬ (d.world.mapLayers.length : Int) ≤ 1 := by omega
  simp only [LayerModel.toggleOtherLayers, hgt, if_false]
  rw [LayerModel.toggleOtherLayers.visibility_eq]
  rw [show (!(d.world.mapLayers.any fun l => decide (l ≠ A) && (d.world.layer l).visible))
    = LayerModel.toggleTarget d.world A from rfl]
  obtain ⟨h1, h2'⟩ := LayerModel.toggleOtherLayers.pushAll_world A
    (LayerModel.toggleTarget d.world A) d.world.mapLayers
    (if LayerModel.toggleTarget d.world A = true then
      QUndoStack.beginMacro d "Show Other Layers"
      else QUndoStack.beginMacro d "Hide Other Layers")
  have hdoc : (if LayerModel.toggleTarget d.world A = true then
      QUndoStack.beginMacro d "Show Other Layers"
      else QUndoStack.beginMacro d "Hide Other Layers").document = d := by
    split <;> rfl
  rw [hdoc] at h1 h2'
  exact ⟨h1, h2'⟩

/-- C27 as stated fails for layers nested in a group layer. In the example
tree (top level `[1, 2]`, group layer 1 visible with the visible children 3
and 6, layer 2 hidden) `toggleOtherLayers(2)` hides layer 1 only: layer 3,
which is not layer 2, is as visible as before. In the example tree cut down to
the top-level group layer 1, a map of four layers, `toggleOtherLayers(3)`
changes nothing: layer 1 and layer 6, both visible and not layer 3, stay
visible. -/
theorem C27_nested_layers_keep_their_visibility :
    ((exampleDocument.world.layer 1).visible = true ∧
      1 ∈ exampleDocument.world.mapLayers ∧ 3 ∈ exampleDocument.world.groupLayers 1 ∧
      ((LayerModel.toggleOtherLayers exampleDocument 2).world.layer 1).visible = false ∧
      ((LayerModel.toggleOtherLayers exampleDocument 2).world.layer 3).visible = true) ∧
    (singleLayerExample.world.mapLayers = [1] ∧
      singleLayerExample.world.groupLayers 1 = [3, 6] ∧
      singleLayerExample.world.groupLayers 3 = [4] ∧
      ((LayerModel.toggleOtherLayers singleLayerExample 3).world.layer 1).visible = true ∧
      ((LayerModel.toggleOtherLayers singleLayerExample 3).world.layer 6).visible = true) := by
  decide

/-- C27 (amended): for every map with at least two top-level layers and every
layer `A`, after `toggleOtherLayers(A)` (each pushed command being applied on
push) every top-level layer other than `A` is hidden when some top-level layer
other than `A` was visible before the call, and every one of them is visible
otherwise. The visibility of `A` is as before, every layer that is not
top-level is as before, and so is every attribute other than the visibility
of every layer in the store; the layer sequence itself is unchanged. -/
theorem C27_toggleOtherLayers_hides_or_shows_the_others (d : MapDocument) (A : LayerPtr)
    (h2 : 2 ≤ (d.world.mapLayers.length : Int)) :
    ((∃ l ∈ d.world.mapLayers, l ≠ A ∧ (d.world.layer l).visible = true) →
      ∀ l ∈ d.world.mapLayers, l ≠ A →
        ((LayerModel.toggleOtherLayers d A).world.layer l).visible = false) ∧
    ((¬ ∃ l ∈ d.world.mapLayers, l ≠ A ∧ (d.world.layer l).visible = true) →
      ∀ l ∈ d.world.mapLayers, l ≠ A →
        ((LayerModel.toggleOtherLayers d A).world.layer l).visible = true) ∧
    ((LayerModel.toggleOtherLayers d A).world.layer A).visible = (d.world.layer A).visible ∧
    (∀ l, l ∉ d.world.mapLayers →
      (LayerModel.toggleOtherLayers d A).world.layer l = d.world.layer l) ∧
    (∀ l, (LayerModel.toggleOtherLayers d A).world.layer l =
      { d.world.layer l with
        visible := ((LayerModel.toggleOtherLayers d A).world.layer l).visible }) ∧
    (LayerModel.toggleOtherLayers d A).world.mapLayers = d.world.mapLayers := by
  obtain ⟨hm, hl⟩ := LayerModel.toggleOtherLayers_world d A h2
  have htarget : LayerModel.toggleTarget d.world A = false ↔
      ∃ l ∈ d.world.mapLayers, l ≠ A ∧ (d.world.layer l).visible = true := by
    simp [LayerModel.toggleTarget]
  refine ⟨fun hex l hmem hne => ?_, fun hex l hmem hne => ?_, ?_, fun l hnot => ?_,
    fun l => ?_, ?_⟩
  · rw [hl l, if_pos ⟨hmem, hne⟩]
    exact htarget.mpr hex
  · rw [hl l, if_pos ⟨hmem, hne⟩]
    have : ¬ LayerModel.toggleTarget d.world A = false := fun h => hex (htarget.mp h)
    simpa using this
  · rw [hl A]
    simp
  · rw [hl l, if_neg (fun h => hnot h.1)]
  · rw [hl l]
    split <;> rfl
  · simp [World.mapLayers, hm]

/-- Witness for C27 (amended): the top-level layers `[1 (visible), 2 (hidden),
3 (visible)]`. Toggled for layer 1, layers 2 and 3 end hidden and layer 1
stays visible; toggled then again for layer 1, where no other layer is
visible, layers 2 and 3 end visible. -/
theorem C27_toggleOtherLayers_hides_or_shows_the_others_witness :
    (((LayerModel.toggleOtherLayers toggleExample 1).world.layer 2).visible = false ∧
      ((LayerModel.toggleOtherLayers toggleExample 1).world.layer 3).visible = false ∧
      ((LayerModel.toggleOtherLayers toggleExample 1).world.layer 1).visible = true) ∧
    (((LayerModel.toggleOtherLayers (LayerModel.toggleOtherLayers toggleExample 1) 1).world.layer
        2).visible = true ∧
      ((LayerModel.toggleOtherLayers (LayerModel.toggleOtherLayers toggleExample 1) 1).world.layer
        3).visible = true) :=
  have h := C27_toggleOtherLayers_hides_or_shows_the_others toggleExample 1 (by decide)
  have h' := C27_toggleOtherLayers_hides_or_shows_the_others
    (LayerModel.toggleOtherLayers toggleExample 1) 1 (by decide)
  ⟨⟨h.1 ⟨3, by decide, by decide, by decide⟩ 2 (by decide) (by decide),
    h.1 ⟨3, by decide, by decide, by decide⟩ 3 (by decide) (by decide),
    h.2.2.1.trans (by decide)⟩,
   h'.2.1 (by decide) 2 (by decide) (by decide),
   h'.2.1 (by decide) 3 (by decide) (by decide)⟩

theorem LayerModel.toggleOtherLayers_undoStack (d : MapDocument) (A : LayerPtr)
    (h2 : 2 ≤ (d.world.mapLayers.length : Int)) (hnodup : d.world.mapLayers.Nodup) :
    (LayerModel.toggleOtherLayers d A).undoStack =
      d.undoStack ++
        [Command.UndoMacro (LayerModel.toggleTitle (LayerModel.toggleTarget d.world A))
          ((LayerModel.toggleAffected d.world A (LayerModel.toggleTarget d.world A)).map
            fun l => Command.SetLayerVisible l (LayerModel.toggleTarget d.world A))] := by
  have hgt : ¬ (d.world.mapLayers.length : Int) ≤ 1 := by omega
  simp only [LayerModel.toggleOtherLayers, hgt, if_false]
  rw [LayerModel.toggleOtherLayers.visibility_eq]
  obtain ⟨h1, h2', h3⟩ := LayerModel.toggleOtherLayers.pushAll_eq A
    (LayerModel.toggleTarget d.world A) d.world.mapLayers
    (if LayerModel.toggleTarget d.world A = true then
      QUndoStack.beginMacro d "Show Other Layers"
      else QUndoStack.beginMacro d "Hide Other Layers") hnodup
  simp only [OpenMacro.endMacro]
  change _ ++ [Command.UndoMacro _ _] = _
  rw [show (!(d.world.mapLayers.any fun l => decide (l ≠ A) && (d.world.layer l).visible))
    = LayerModel.toggleTarget d.world A from rfl]
  rw [h3, h2', h1]
  by_cases ht : LayerModel.toggleTarget d.world A = true
  · simp [ht, QUndoStack.beginMacro, LayerModel.toggleTitle, LayerModel.toggleAffected]
  · simp [ht, QUndoStack.beginMacro, LayerModel.toggleTitle, LayerModel.toggleAffected]

theorem QList.exists_ne_of_nodup {ls : List LayerPtr} (A : LayerPtr)
    (h2 : 2 ≤ (ls.length : Int)) (hnodup : ls.Nodup) : ∃ l ∈ ls, l ≠ A := by
  match ls, h2, hnodup with
  | [], h2, _ => simp at h2
  | [_], h2, _ => simp at h2
  | a :: b :: rest, _, hn =>
    have hab : a ≠ b := by
      intro e
      have := (List.nodup_cons.mp hn).1
      exact this (by simp [e])
    by_cases ha : a = A
    · exact ⟨b, by simp, fun e => hab (ha.trans e.symm)⟩
    · exact ⟨a, by simp, ha⟩

/-- C29: `toggleOtherLayers` never records an empty undo entry. For every map
with at least two top-level layers (the layer sequence being free of
duplicates) and every layer `A`, top-level or not, the one entry that
`toggleOtherLayers(A)` adds to the undo stack is a macro with at least one
child, and every child is a visibility-change command to the target
visibility for a top-level layer other than `A`. -/
theorem C29_toggleOtherLayers_entry_is_not_empty (d : MapDocument) (A : LayerPtr)
    (h2 : 2 ≤ (d.world.mapLayers.length : Int)) (hnodup : d.world.mapLayers.Nodup) :
    ∃ (title : String) (l : LayerPtr) (ls : List LayerPtr),
      (LayerModel.toggleOtherLayers d A).undoStack =
        d.undoStack ++
          [Command.UndoMacro title
            ((l :: ls).map fun x =>
              Command.SetLayerVisible x (LayerModel.toggleTarget d.world A))] ∧
      ∀ x ∈ l :: ls, x ∈ d.world.mapLayers ∧ x ≠ A := by
  have hne : LayerModel.toggleAffected d.world A (LayerModel.toggleTarget d.world A) ≠ [] := by
    by_cases ht : LayerModel.toggleTarget d.world A = true
    · obtain ⟨l, hl, hlA⟩ := QList.exists_ne_of_nodup A h2 hnodup
      have hvis : (d.world.layer l).visible = false := by
        by_contra hv
        have hv' : (d.world.layer l).visible = true := by simpa using hv
        have : LayerModel.toggleTarget d.world A = false := by
          simp only [LayerModel.toggleTarget, Bool.not_eq_false', List.any_eq_true,
            Bool.and_eq_true, decide_eq_true_eq]
          exact ⟨l, hl, hlA, hv'⟩
        rw [this] at ht
        exact Bool.false_ne_true ht
      have hmem : l ∈ LayerModel.toggleAffected d.world A (LayerModel.toggleTarget d.world A) := by
        simp only [LayerModel.toggleAffected, List.mem_filter, Bool.and_eq_true,
          decide_eq_true_eq]
        exact ⟨hl, hlA, by rw [ht, hvis]; decide⟩
      exact List.ne_nil_of_mem hmem
    · have hf : LayerModel.toggleTarget d.world A = false := by simpa using ht
      have hex : ∃ l ∈ d.world.mapLayers, l ≠ A ∧ (d.world.layer l).visible = true := by
        have := hf
        simpa [LayerModel.toggleTarget] using this
      obtain ⟨l, hl, hlA, hv⟩ := hex
      have hmem : l ∈ LayerModel.toggleAffected d.world A (LayerModel.toggleTarget d.world A) := by
        simp only [LayerModel.toggleAffected, List.mem_filter, Bool.and_eq_true,
          decide_eq_true_eq]
        exact ⟨hl, hlA, by rw [hf, hv]; decide⟩
      exact List.ne_nil_of_mem hmem
  have hstack := LayerModel.toggleOtherLayers_undoStack d A h2 hnodup
  match haff : LayerModel.toggleAffected d.world A (LayerModel.toggleTarget d.world A), hne with
  | [], hne => exact absurd rfl hne
  | l :: ls, _ =>
    refine ⟨LayerModel.toggleTitle (LayerModel.toggleTarget d.world A), l, ls, ?_, ?_⟩
    · rw [hstack, haff]
    · intro x hx
      have hx' : x ∈ LayerModel.toggleAffected d.world A (LayerModel.toggleTarget d.world A) := by
        rw [haff]; exact hx
      simp only [LayerModel.toggleAffected, List.mem_filter, Bool.and_eq_true,
        decide_eq_true_eq] at hx'
      exact ⟨hx'.1, hx'.2.1⟩

/-- Witness for C29 on the example tree: top-level layers `[1, 2]`, toggled
for layer 4, which is nested in the group layers 3 and 1. Layer 1 is visible,
so the macro hides it; layer 2 is hidden already. -/
theorem C29_toggleOtherLayers_entry_is_not_empty_witness :
    ∃ (title : String) (l : LayerPtr) (ls : List LayerPtr),
      (LayerModel.toggleOtherLayers exampleDocument 4).undoStack =
        exampleDocument.undoStack ++
          [Command.UndoMacro title
            ((l :: ls).map fun x =>
              Command.SetLayerVisible x (LayerModel.toggleTarget exampleDocument.world 4))] ∧
      ∀ x ∈ l :: ls, x ∈ exampleDocument.world.mapLayers ∧ x ≠ 4 :=
  C29_toggleOtherLayers_entry_is_not_empty exampleDocument 4 (by decide) (by decide)

/-! ## The recent files list -/

theorem MainWindow.setRecentFile.removeExcess_eq_take (MaxRecentFiles : Nat) :
    ∀ (fuel : Nat) (files : List String), files.length ≤ fuel →
      MainWindow.setRecentFile.removeExcess MaxRecentFiles fuel files =
        files.take MaxRecentFiles := by
  intro fuel
  induction fuel with
  | zero =>
    intro files h
    have : files = [] := List.length_eq_zero.mp (by omega)
    subst this
    simp [MainWindow.setRecentFile.removeExcess]
  | succ n ih =>
    intro files h
    simp only [MainWindow.setRecentFile.removeExcess]
    by_cases hgt : files.length > MaxRecentFiles
    · rw [if_pos hgt, ih files.dropLast (by rw [List.length_dropLast]; omega)]
      rw [List.dropLast_eq_take, List.take_take]
      congr 1
      omega
    · rw [if_neg hgt]
      exact (List.take_of_length_le (by omega)).symm

/-- C30: `MainWindow::setRecentFile`. When the canonical path `p` of the file
is not empty, the list stored afterwards is `p` followed by the previous
entries other than `p` in their previous order, cut to its first
`MaxRecentFiles` entries; for `MaxRecentFiles >= 1` it has `p` at the head,
holds `p` exactly once and has at most `MaxRecentFiles` entries, and it is
free of duplicates when the previous list was. When the canonical path is
empty the settings are unchanged. -/
theorem C30_setRecentFile_is_front_unique_bounded (MaxRecentFiles : Nat)
    (canonicalFilePath : String → String) (mSettings : QSettings) (fileName : String) :
    ((canonicalFilePath fileName).isEmpty = false →
      MainWindow.recentFiles
          (MainWindow.setRecentFile MaxRecentFiles canonicalFilePath mSettings fileName) =
        (canonicalFilePath fileName ::
          (MainWindow.recentFiles mSettings).filter
            fun f => decide (f ≠ canonicalFilePath fileName)).take MaxRecentFiles ∧
      (1 ≤ MaxRecentFiles →
        (MainWindow.recentFiles
          (MainWindow.setRecentFile MaxRecentFiles canonicalFilePath mSettings fileName)).head? =
          some (canonicalFilePath fileName) ∧
        (MainWindow.recentFiles
          (MainWindow.setRecentFile MaxRecentFiles canonicalFilePath mSettings fileName)).count
            (canonicalFilePath fileName) = 1 ∧
        (MainWindow.recentFiles
          (MainWindow.setRecentFile MaxRecentFiles canonicalFilePath mSettings fileName)).length
            ≤ MaxRecentFiles ∧
        ((MainWindow.recentFiles mSettings).Nodup →
          (MainWindow.recentFiles
            (MainWindow.setRecentFile MaxRecentFiles canonicalFilePath mSettings
              fileName)).Nodup))) ∧
    ((canonicalFilePath fileName).isEmpty = true →
      MainWindow.setRecentFile MaxRecentFiles canonicalFilePath mSettings fileName =
        mSettings) := by
  refine ⟨fun hne => ?_, fun he => ?_⟩
  · have hEq : MainWindow.recentFiles
          (MainWindow.setRecentFile MaxRecentFiles canonicalFilePath mSettings fileName) =
        (canonicalFilePath fileName ::
          (MainWindow.recentFiles mSettings).filter
            fun f => decide (f ≠ canonicalFilePath fileName)).take MaxRecentFiles := by
      simp only [MainWindow.setRecentFile, hne, MainWindow.recentFiles]
      exact MainWindow.setRecentFile.removeExcess_eq_take MaxRecentFiles _ _ (le_refl _)
    refine ⟨hEq, fun hM => ?_⟩
    obtain ⟨k, hk⟩ : ∃ k, MaxRecentFiles = k + 1 := ⟨MaxRecentFiles - 1, by omega⟩
    have hnot : canonicalFilePath fileName ∉
        ((MainWindow.recentFiles mSettings).filter
          fun f => decide (f ≠ canonicalFilePath fileName)).take k := by
      intro hm
      have := List.mem_of_mem_take hm
      simp at this
    rw [hEq, hk, List.take_succ_cons]
    refine ⟨rfl, ?_, ?_, fun hnd => ?_⟩
    · rw [List.count_cons_self, List.count_eq_zero_of_not_mem hnot]
    · simp only [List.length_cons, List.length_take]
      omega
    · refine List.nodup_cons.mpr ⟨hnot, ?_⟩
      exact ((hnd.sublist (List.filter_sublist _)).sublist (List.take_sublist _ _))
  · simp [MainWindow.setRecentFile, he]

/-- Witness for C30 with `MaxRecentFiles = 3`, a file system where every
name but "gone.tmx" is its own canonical path, and the stored list
`["a.tmx", "b.tmx", "c.tmx"]`: opening "c.tmx" moves it to the head, opening
"d.tmx" drops the oldest entry, and "gone.tmx" leaves the list as it is. -/
theorem C30_setRecentFile_is_front_unique_bounded_witness :
    MainWindow.recentFiles
        (MainWindow.setRecentFile 3 (fun f => if f = "gone.tmx" then "" else f)
          ⟨["a.tmx", "b.tmx", "c.tmx"]⟩ "c.tmx") = ["c.tmx", "a.tmx", "b.tmx"] ∧
    MainWindow.recentFiles
        (MainWindow.setRecentFile 3 (fun f => if f = "gone.tmx" then "" else f)
          ⟨["a.tmx", "b.tmx", "c.tmx"]⟩ "d.tmx") = ["d.tmx", "a.tmx", "b.tmx"] ∧
    MainWindow.setRecentFile 3 (fun f => if f = "gone.tmx" then "" else f)
        ⟨["a.tmx", "b.tmx", "c.tmx"]⟩ "gone.tmx" = ⟨["a.tmx", "b.tmx", "c.tmx"]⟩ :=
  ⟨((C30_setRecentFile_is_front_unique_bounded 3 (fun f => if f = "gone.tmx" then "" else f)
      ⟨["a.tmx", "b.tmx", "c.tmx"]⟩ "c.tmx").1 (by decide)).1.trans (by decide),
   ((C30_setRecentFile_is_front_unique_bounded 3 (fun f => if f = "gone.tmx" then "" else f)
      ⟨["a.tmx", "b.tmx", "c.tmx"]⟩ "d.tmx").1 (by decide)).1.trans (by decide),
   (C30_setRecentFile_is_front_unique_bounded 3 (fun f => if f = "gone.tmx" then "" else f)
      ⟨["a.tmx", "b.tmx", "c.tmx"]⟩ "gone.tmx").2 (by decide)⟩

/-! ## The map object tree model: inserting and removing objects -/

theorem MapDocument.objects_setLayer (d : MapDocument) (og : LayerPtr) (v : Layer)
    (g : LayerPtr) :
    (d.setLayer og v).world.objects g = if g = og then v.objects else d.world.objects g := by
  by_cases h : g = og
  · subst h
    simp [MapDocument.setLayer, World.objects]
  · simp [MapDocument.setLayer, World.objects, Function.update_noteq h, h]

theorem MapObjectModel.insertObject_objects (e : Editor) (og : LayerPtr) (index : Int)
    (o : ObjectPtr) (g : LayerPtr) :
    (MapObjectModel.insertObject e og index o).document.world.objects g =
      if g = og then
        QList.insert (e.document.world.objects og)
          (if index ≥ 0 then index else ((e.document.world.objects og).length : Int)) o
      else e.document.world.objects g := by
  simp only [MapObjectModel.insertObject, Editor.emitObject, ObjectGroup.insertObject,
    MapDocument.objects_setLayer]

theorem MapObjectModel.insertObject_model (e : Editor) (og : LayerPtr) (index : Int)
    (o : ObjectPtr) :
    (MapObjectModel.insertObject e og index o).objectModel.model =
      { e.objectModel.model with mObjects := QMap.insert e.objectModel.model.mObjects o } := by
  simp [MapObjectModel.insertObject, Editor.emitObject, ObjectGroup.insertObject,
    ObjectModelState.emit]

theorem MapObjectModel.removeObject_isSome (e : Editor) (og : LayerPtr) (o : ObjectPtr)
    (ho : o ∈ e.document.world.objects og) :
    ∃ e', MapObjectModel.removeObject e og o =
        some (QList.indexOf (e.document.world.objects og) o, e') ∧
      (∀ g, e'.document.world.objects g =
        if g = og then
          QList.removeAt (e.document.world.objects og)
            (QList.indexOf (e.document.world.objects og) o)
        else e.document.world.objects g) ∧
      e'.objectModel.model =
        { e.objectModel.model with mObjects := QMap.take e.objectModel.model.mObjects o } := by
  obtain ⟨_, hat⟩ := QList.indexOf_of_mem ho
  have hat' : QList.at
      ((e.emitObject (ObjectSignal.beginRemoveRows
        (MapObjectModel.indexOfGroup e.objectModel.model og)
        (QList.indexOf (e.document.world.objects og) o)
        (QList.indexOf (e.document.world.objects og) o))).document.world.objects og)
      (QList.indexOf (e.document.world.objects og) o) = some o := hat
  simp only [MapObjectModel.removeObject, ObjectGroup.removeObjectAt, hat', Option.map_some']
  refine ⟨_, rfl, fun g => ?_, ?_⟩
  · simp only [Editor.emitObject, MapDocument.objects_setLayer]
  · simp [Editor.emitObject, ObjectModelState.emit]

theorem QList.removeAt_indexOf_eq_erase {l : List LayerPtr} {x : LayerPtr} (h : x ∈ l) :
    QList.removeAt l (QList.indexOf l x) = l.erase x := by
  obtain ⟨A, B, rfl, hA⟩ := List.eq_append_cons_of_mem h
  rw [QList.indexOf_middle hA, QList.removeAt_middle, List.erase_append_right _ hA,
    List.erase_cons_head]

theorem QMap.mem_insert {keys : List Nat} {key k : Nat} :
    k ∈ QMap.insert keys key ↔ k ∈ keys ∨ k = key := by
  unfold QMap.insert
  split
  · next h =>
    constructor
    · exact Or.inl
    · rintro (h' | rfl)
      · exact h'
      · exact h
  · simp
theorem QList.indexOf_insert {l : List LayerPtr} {i : Int} {x : LayerPtr} (h0 : 0 ≤ i)
    (h1 : i ≤ (l.length : Int)) (hx : x ∉ l) : QList.indexOf (QList.insert l i x) x = i := by
  have hA : x ∉ l.take i.toNat := fun hm => hx (List.mem_of_mem_take hm)
  unfold QList.insert
  rw [QList.indexOf_middle hA, List.length_take]
  omega

theorem QList.insert_length {l : List LayerPtr} (x : LayerPtr) :
    QList.insert l (l.length : Int) x = l ++ [x] := by
  simp [QList.insert]

/-- C23 as stated fails. First, for an object without a wrapper: in the
example state with object 13 in the nested object group 7 (which the model
does not track), `removeObject(7, 13)` returns row 0 and the following
`insertObject(7, 0, 13)` restores the sequence of group 7 but leaves the
wrapper table with the new key 13. Second, for an object that is in the group
already: `insertObject(3, 2, 10)` on the sequence `[10, 11]` gives `[10, 11,
10]`, and the following `removeObject(3, 10)` returns row 0, not 2, and leaves
`[11, 10]`. -/
theorem C23_untracked_object_gains_a_wrapper :
    (nestedObjectExample.document.world.objects 7 = [13] ∧
      nestedObjectExample.objectModel.model.mObjectGroups = [3] ∧
      nestedObjectExample.objectModel.model.mObjects = [10, 11] ∧
      ∃ e1, MapObjectModel.removeObject nestedObjectExample 7 13 = some (0, e1) ∧
        (MapObjectModel.insertObject e1 7 0 13).document.world.objects 7 = [13] ∧
        (MapObjectModel.insertObject e1 7 0 13).objectModel.model.mObjects = [10, 11, 13]) ∧
    (editorExample.document.world.objects 3 = [10, 11] ∧
      (MapObjectModel.insertObject editorExample 3 2 10).document.world.objects 3 =
        [10, 11, 10] ∧
      ∃ e2, MapObjectModel.removeObject (MapObjectModel.insertObject editorExample 3 2 10) 3 10 =
          some (0, e2) ∧
        e2.document.world.objects 3 = [11, 10]) :=
  ⟨⟨by decide, by decide, by decide, _, rfl, by decide, by decide⟩,
   ⟨by decide, by decide, _, rfl, by decide⟩⟩

/-- C23 (amended): `removeObject` and `insertObject` undo each other. For an
object `o` of the group that has a wrapper (as every object of a tracked group
has while the wrapper tables are in step), `removeObject(group, o)` returns
the row `r` that `o` occupied and takes only `o` out of the group's sequence
(the other objects keep their order, other groups are untouched), and a
following `insertObject(group, r, o)` gives back the old sequence and the old
key set of the object wrappers, the tracked groups and their wrappers being
untouched.
Conversely, for an object `o` that is not in the group, `insertObject(group,
i, o)` puts `o` at row `i` when `0 <= i <= count` and at the end when `i` is
negative, and a following `removeObject(group, o)` returns that row and gives
back the old sequence. -/
theorem C23_removeObject_and_insertObject_are_inverse (e : Editor) (og : LayerPtr)
    (o : ObjectPtr) :
    (o ∈ e.document.world.objects og → o ∈ e.objectModel.model.mObjects →
      ∃ e1, MapObjectModel.removeObject e og o =
          some (QList.indexOf (e.document.world.objects og) o, e1) ∧
        QList.at (e.document.world.objects og)
          (QList.indexOf (e.document.world.objects og) o) = some o ∧
        e1.document.world.objects og = (e.document.world.objects og).erase o ∧
        (∀ g, g ≠ og → e1.document.world.objects g = e.document.world.objects g) ∧
        (∀ g, (MapObjectModel.insertObject e1 og
            (QList.indexOf (e.document.world.objects og) o) o).document.world.objects g =
          e.document.world.objects g) ∧
        (∀ k, k ∈ (MapObjectModel.insertObject e1 og
            (QList.indexOf (e.document.world.objects og) o) o).objectModel.model.mObjects ↔
          k ∈ e.objectModel.model.mObjects) ∧
        (MapObjectModel.insertObject e1 og
            (QList.indexOf (e.document.world.objects og) o) o).objectModel.model.mObjectGroups =
          e.objectModel.model.mObjectGroups ∧
        (MapObjectModel.insertObject e1 og
            (QList.indexOf (e.document.world.objects og) o) o).objectModel.model.mGroups =
          e.objectModel.model.mGroups) ∧
    (∀ i : Int, o ∉ e.document.world.objects og →
      i ≤ ((e.document.world.objects og).length : Int) →
      (0 ≤ i →
        (MapObjectModel.insertObject e og i o).document.world.objects og =
          (e.document.world.objects og).take i.toNat ++
            o :: (e.document.world.objects og).drop i.toNat ∧
        QList.at ((MapObjectModel.insertObject e og i o).document.world.objects og) i =
          some o) ∧
      (i < 0 →
        (MapObjectModel.insertObject e og i o).document.world.objects og =
          e.document.world.objects og ++ [o]) ∧
      ∃ e2, MapObjectModel.removeObject (MapObjectModel.insertObject e og i o) og o =
          some (if i ≥ 0 then i else ((e.document.world.objects og).length : Int), e2) ∧
        (∀ g, e2.document.world.objects g = e.document.world.objects g)) := by
  constructor
  · intro ho hw
    obtain ⟨e1, hrem, hobjs, hmodel⟩ := MapObjectModel.removeObject_isSome e og o ho
    obtain ⟨h0, hat⟩ := QList.indexOf_of_mem ho
    have hge : QList.indexOf (e.document.world.objects og) o ≥ 0 := h0
    refine ⟨e1, hrem, hat, ?_, fun g hg => ?_, fun g => ?_, fun k => ?_, ?_, ?_⟩
    · rw [hobjs og, if_pos rfl, QList.removeAt_indexOf_eq_erase ho]
    · rw [hobjs g, if_neg hg]
    · rw [MapObjectModel.insertObject_objects]
      by_cases hg : g = og
      · subst hg
        rw [if_pos rfl, if_pos hge, hobjs g, if_pos rfl, QList.insert_removeAt hat]
      · rw [if_neg hg, hobjs g, if_neg hg]
    · rw [MapObjectModel.insertObject_model, hmodel]
      simp only [QMap.mem_insert, QMap.mem_take]
      constructor
      · rintro (⟨h, _⟩ | rfl)
        · exact h
        · exact hw
      · intro h
        by_cases hk : k = o
        · exact Or.inr hk
        · exact Or.inl ⟨h, hk⟩
    · rw [MapObjectModel.insertObject_model, hmodel]
    · rw [MapObjectModel.insertObject_model, hmodel]
  · intro i hno hi
    have hrow0 : 0 ≤ (if i ≥ 0 then i else ((e.document.world.objects og).length : Int)) := by
      split <;> omega
    have hrow1 : (if i ≥ 0 then i else ((e.document.world.objects og).length : Int)) ≤
        ((e.document.world.objects og).length : Int) := by
      split <;> omega
    have hins := MapObjectModel.insertObject_objects e og i o og
    rw [if_pos rfl] at hins
    have hmem : o ∈ (MapObjectModel.insertObject e og i o).document.world.objects og := by
      rw [hins]
      simp [QList.insert]
    obtain ⟨e2, hrem, hobjs, _⟩ :=
      MapObjectModel.removeObject_isSome (MapObjectModel.insertObject e og i o) og o hmem
    refine ⟨fun h0 => ?_, fun hneg => ?_, e2, ?_, fun g => ?_⟩
    · have hi0 : i ≥ 0 := h0
      rw [hins, if_pos hi0]
      exact ⟨rfl, QList.at_insert o h0 hi⟩
    · have hi0 : ¬ i ≥ 0 := by omega
      rw [hins, if_neg hi0, QList.insert_length]
    · rw [hrem, hins, QList.indexOf_insert hrow0 hrow1 hno]
    · rw [hobjs g]
      by_cases hg : g = og
      · subst hg
        rw [if_pos rfl, hins, QList.indexOf_insert hrow0 hrow1 hno,
          QList.removeAt_insert o hrow0 hrow1]
      · rw [if_neg hg, MapObjectModel.insertObject_objects, if_neg hg]

/-- Witness for C23 (amended) in the example state, where the tracked group 3
holds the objects `[10, 11]`: object 11 is removed from row 1 and inserted
again; object 12 is inserted at row 1 and at the end and removed again. -/
theorem C23_removeObject_and_insertObject_are_inverse_witness :
    (∃ e1, MapObjectModel.removeObject editorExample 3 11 = some (1, e1) ∧
      e1.document.world.objects 3 = [10] ∧
      (MapObjectModel.insertObject e1 3 1 11).document.world.objects 3 = [10, 11]) ∧
    (MapObjectModel.insertObject editorExample 3 1 12).document.world.objects 3 =
      [10, 12, 11] ∧
    (MapObjectModel.insertObject editorExample 3 (-1) 12).document.world.objects 3 =
      [10, 11, 12] ∧
    (∃ e2, MapObjectModel.removeObject (MapObjectModel.insertObject editorExample 3 (-1) 12)
        3 12 = some (2, e2) ∧
      e2.document.world.objects 3 = [10, 11]) :=
  have h := C23_removeObject_and_insertObject_are_inverse editorExample 3 11
  have h' := C23_removeObject_and_insertObject_are_inverse editorExample 3 12
  ⟨(h.1 (by decide) (by decide)).elim fun e1 he1 =>
      ⟨e1, he1.1, he1.2.2.1.trans (by decide), (he1.2.2.2.2.1 3).trans (by decide)⟩,
   ((h'.2 1 (by decide) (by decide)).1 (by decide)).1.trans (by decide),
   ((h'.2 (-1) (by decide) (by decide)).2.1 (by decide)).trans (by decide),
   (h'.2 (-1) (by decide) (by decide)).2.2.elim fun e2 he2 =>
      ⟨e2, he2.1, (he2.2 3).trans (by decide)⟩⟩

/-! ## The identity-wrapper tables stay in step with the tracked content -/

theorem QMap.mem_foldl_insert (objs : List Nat) :
    ∀ (keys : List Nat) (k : Nat),
      k ∈ objs.foldl (fun keys o => QMap.insert keys o) keys ↔ k ∈ keys ∨ k ∈ objs := by
  induction objs with
  | nil => intro keys k; simp
  | cons o objs ih =>
    intro keys k
    simp only [List.foldl_cons, ih, QMap.mem_insert, List.mem_cons]
    constructor
    · rintro ((h | h) | h)
      · exact Or.inl h
      · exact Or.inr (Or.inl h)
      · exact Or.inr (Or.inr h)
    · rintro (h | h | h)
      · exact Or.inl (Or.inl h)
      · exact Or.inl (Or.inr h)
      · exact Or.inr h

theorem QMap.mem_foldl_insert_new (objs : List Nat) :
    ∀ (keys : List Nat) (k : Nat),
      k ∈ objs.foldl (fun keys o => if ¬ o ∈ keys then QMap.insert keys o else keys) keys ↔
        k ∈ keys ∨ k ∈ objs := by
  have hstep : ∀ (keys : List Nat) (o : Nat),
      (if ¬ o ∈ keys then QMap.insert keys o else keys) = QMap.insert keys o := by
    intro keys o
    by_cases h : o ∈ keys
    · simp [QMap.insert, h]
    · simp [h]
  simp only [hstep]
  exact QMap.mem_foldl_insert objs

theorem World.mem_objectGroups (w : World) (g : LayerPtr) :
    g ∈ w.objectGroups ↔ g ∈ w.mapLayers ∧ w.isObjectGroup g = true := by
  simp only [World.objectGroups, List.mem_filterMap, World.asObjectGroup_eq]
  constructor
  · rintro ⟨a, ha, h⟩
    by_cases hp : w.isObjectGroup a = true
    · simp only [hp, if_true, Option.some.injEq] at h
      subst h
      exact ⟨ha, hp⟩
    · simp [hp] at h
  · rintro ⟨hm, hp⟩
    exact ⟨g, hm, by simp [hp]⟩

theorem MapObjectModel.setMapDocument.populate_eq (w : World) (ogs : List LayerPtr) :
    ∀ m : MapObjectModel,
      (MapObjectModel.setMapDocument.populate w m ogs).mObjectGroups = m.mObjectGroups ++ ogs ∧
      (MapObjectModel.setMapDocument.populate w m ogs).mMapDocument = m.mMapDocument ∧
      (∀ g, g ∈ (MapObjectModel.setMapDocument.populate w m ogs).mGroups ↔
        g ∈ m.mGroups ∨ g ∈ ogs) ∧
      (∀ o, o ∈ (MapObjectModel.setMapDocument.populate w m ogs).mObjects ↔
        o ∈ m.mObjects ∨ ∃ g ∈ ogs, o ∈ w.objects g) := by
  induction ogs with
  | nil => intro m; simp [MapObjectModel.setMapDocument.populate]
  | cons og ogs ih =>
    intro m
    simp only [MapObjectModel.setMapDocument.populate]
    obtain ⟨h1, h2, h3, h4⟩ := ih
      { mMapDocument := m.mMapDocument, mObjectGroups := m.mObjectGroups ++ [og],
        mGroups := QMap.insert m.mGroups og,
        mObjects := (w.objects og).foldl (fun keys o => QMap.insert keys o) m.mObjects }
    refine ⟨?_, h2, fun g => ?_, fun o => ?_⟩
    · rw [h1]; simp
    · rw [h3 g]
      simp only [QMap.mem_insert, List.mem_cons]
      constructor
      · rintro ((h | h) | h)
        · exact Or.inl h
        · exact Or.inr (Or.inl h)
        · exact Or.inr (Or.inr h)
      · rintro (h | h | h)
        · exact Or.inl (Or.inl h)
        · exact Or.inl (Or.inr h)
        · exact Or.inr h
    · rw [h4 o]
      simp only [QMap.mem_foldl_insert, List.mem_cons, exists_eq_or_imp]
      constructor
      · rintro ((h | h) | h)
        · exact Or.inl h
        · exact Or.inr (Or.inl h)
        · exact Or.inr (Or.inr h)
      · rintro (h | h | h)
        · exact Or.inl (Or.inl h)
        · exact Or.inl (Or.inr h)
        · exact Or.inr h

theorem MapObjectModel.setMapDocument_model (w : World) (s : ObjectModelState)
    (mapDocument : Bool) :
    (MapObjectModel.setMapDocument w s false mapDocument).model.mObjectGroups =
      (if mapDocument then w.objectGroups else []) ∧
    MapObjectModel.WrappersInSync w (MapObjectModel.setMapDocument w s false mapDocument).model := by
  cases mapDocument with
  | false =>
    simp [MapObjectModel.setMapDocument, ObjectModelState.emit, MapObjectModel.WrappersInSync]
  | true =>
    obtain ⟨h1, _, h3, h4⟩ := MapObjectModel.setMapDocument.populate_eq w w.objectGroups
      { mMapDocument := true, mObjectGroups := [], mGroups := [], mObjects := [] }
    have hm : (MapObjectModel.setMapDocument w s false true).model =
        MapObjectModel.setMapDocument.populate w
          { mMapDocument := true, mObjectGroups := [], mGroups := [], mObjects := [] }
          w.objectGroups := by
      simp [MapObjectModel.setMapDocument, ObjectModelState.emit]
    rw [hm]
    refine ⟨by simpa using h1, fun g => ?_, fun o => ?_⟩
    · rw [h3 g, h1]; simp
    · rw [h4 o, h1]; simp

theorem QList.mem_insertRow {l : List LayerPtr} {i : Int} {x k : LayerPtr} :
    k ∈ QList.insert l i x ↔ k ∈ l ∨ k = x := by
  unfold QList.insert
  rw [List.mem_append, List.mem_cons]
  constructor
  · rintro (h | h | h)
    · exact Or.inl (List.mem_of_mem_take h)
    · exact Or.inr h
    · exact Or.inl (List.mem_of_mem_drop h)
  · rintro (h | h)
    · have : k ∈ l.take i.toNat ++ l.drop i.toNat := by rwa [List.take_append_drop]
      rcases List.mem_append.mp this with h' | h'
      · exact Or.inl h'
      · exact Or.inr (Or.inr h')
    · exact Or.inr (Or.inl h)

theorem QList.nodup_insert {l : List LayerPtr} {i : Int} {x : LayerPtr} (hn : l.Nodup)
    (hx : x ∉ l) : (QList.insert l i x).Nodup := by
  unfold QList.insert
  have hl : (l.take i.toNat ++ l.drop i.toNat).Nodup := by rwa [List.take_append_drop]
  exact List.nodup_middle.mpr (List.nodup_cons.mpr
    ⟨fun hm => hx (by
      rw [← List.take_append_drop i.toNat l]; exact hm), hl⟩)

theorem MapObjectModel.layerAdded_sync (w : World) (s : ObjectModelState) (layer : LayerPtr)
    (h : MapObjectModel.WrappersInSync w s.model) :
    MapObjectModel.WrappersInSync w (MapObjectModel.layerAdded w s layer).model ∧
    (s.model.mObjectGroups.Nodup → (MapObjectModel.layerAdded w s layer).model.mObjectGroups.Nodup) := by
  unfold MapObjectModel.layerAdded
  simp only
  split
  · exact ⟨h, id⟩
  · split
    · exact ⟨h, id⟩
    · next og hog =>
      split
      · exact ⟨h, id⟩
      · next hnew =>
        have hnew' : og ∉ s.model.mObjectGroups := fun hm => hnew ((h.1 og).mpr hm)
        simp only [ObjectModelState.emit]
        refine ⟨⟨fun g => ?_, fun o => ?_⟩, fun hn => QList.nodup_insert hn hnew'⟩
        · simp only [QMap.mem_insert, QList.mem_insertRow, h.1 g]
        · simp only [QMap.mem_foldl_insert_new, QList.mem_insertRow, h.2 o]
          constructor
          · rintro (⟨g, hg, ho⟩ | ho)
            · exact ⟨g, Or.inl hg, ho⟩
            · exact ⟨og, Or.inr rfl, ho⟩
          · rintro ⟨g, hg | hg, ho⟩
            · exact Or.inl ⟨g, hg, ho⟩
            · subst hg; exact Or.inr ho

theorem QList.mem_removeAt_indexOf {l : List LayerPtr} {x k : LayerPtr} (hn : l.Nodup)
    (hx : x ∈ l) : k ∈ QList.removeAt l (QList.indexOf l x) ↔ k ∈ l ∧ k ≠ x := by
  rw [QList.removeAt_indexOf_eq_erase hx, hn.mem_erase_iff]
  exact and_comm

theorem MapObjectModel.layerAboutToBeRemoved_sync (w : World) (s : ObjectModelState)
    (groupLayer : Option LayerPtr) (index : Int)
    (h : MapObjectModel.WrappersInSync w s.model) (hn : s.model.mObjectGroups.Nodup)
    (hw : w.ObjectsOwnedOnce) :
    MapObjectModel.WrappersInSync w
      (MapObjectModel.layerAboutToBeRemoved w s groupLayer index).model ∧
    (MapObjectModel.layerAboutToBeRemoved w s groupLayer index).model.mObjectGroups.Nodup := by
  unfold MapObjectModel.layerAboutToBeRemoved
  split
  · exact ⟨h, hn⟩
  · split
    · exact ⟨h, hn⟩
    · next layer _ =>
      split
      · exact ⟨h, hn⟩
      · next og hog =>
        simp only [ObjectModelState.emit]
        have hmem : ∀ k, k ∈ QList.removeAtChecked s.model.mObjectGroups
            (QList.indexOf s.model.mObjectGroups og) ↔ k ∈ s.model.mObjectGroups ∧ k ≠ og := by
          intro k
          by_cases hog' : og ∈ s.model.mObjectGroups
          · rw [QList.removeAtChecked_of_at (QList.indexOf_of_mem hog').2,
              QList.mem_removeAt_indexOf hn hog']
          · have : QList.indexOf s.model.mObjectGroups og = -1 := by simp [QList.indexOf, hog']
            rw [this]
            simp only [QList.removeAtChecked]
            rw [if_neg (by omega)]
            exact ⟨fun hk => ⟨hk, fun e => hog' (e ▸ hk)⟩, fun hk => hk.1⟩
        have hnd : (QList.removeAtChecked s.model.mObjectGroups
            (QList.indexOf s.model.mObjectGroups og)).Nodup := by
          by_cases hog' : og ∈ s.model.mObjectGroups
          · rw [QList.removeAtChecked_of_at (QList.indexOf_of_mem hog').2,
              QList.removeAt_indexOf_eq_erase hog']
            exact hn.erase og
          · have : QList.indexOf s.model.mObjectGroups og = -1 := by simp [QList.indexOf, hog']
            rw [this]
            simp only [QList.removeAtChecked]
            rw [if_neg (by omega)]
            exact hn
        refine ⟨⟨fun g => ?_, fun o => ?_⟩, hnd⟩
        · rw [QMap.mem_take, hmem, h.1 g]
        · rw [QMap.mem_foldl_take, h.2 o]
          constructor
          · rintro ⟨⟨g, hg, ho⟩, hno⟩
            exact ⟨g, (hmem g).mpr ⟨hg, fun e => hno (e ▸ ho)⟩, ho⟩
          · rintro ⟨g, hg, ho⟩
            obtain ⟨hg1, hg2⟩ := (hmem g).mp hg
            exact ⟨⟨g, hg1, ho⟩, fun ho' => hg2 (hw.2 g og o ho ho')⟩
theorem MapObjectModel.insertObject_sync (e : Editor) (og : LayerPtr) (index : Int)
    (o : ObjectPtr) (h : MapObjectModel.WrappersInSync e.document.world e.objectModel.model)
    (hog : og ∈ e.objectModel.model.mObjectGroups)
    (hnew : ∀ g, o ∉ e.document.world.objects g) :
    MapObjectModel.WrappersInSync (MapObjectModel.insertObject e og index o).document.world
      (MapObjectModel.insertObject e og index o).objectModel.model ∧
    (e.document.world.ObjectsOwnedOnce →
      (MapObjectModel.insertObject e og index o).document.world.ObjectsOwnedOnce) := by
  have hobjs := MapObjectModel.insertObject_objects e og index o
  have hmodel := MapObjectModel.insertObject_model e og index o
  refine ⟨⟨fun g => ?_, fun k => ?_⟩, fun hw => ⟨fun g => ?_, fun g g' k hk hk' => ?_⟩⟩
  · rw [hmodel]; exact h.1 g
  · rw [hmodel]
    simp only [QMap.mem_insert, h.2 k]
    constructor
    · rintro (⟨g, hg, hk⟩ | rfl)
      · refine ⟨g, hg, ?_⟩
        rw [hobjs g]
        by_cases hgo : g = og
        · subst hgo
          rw [if_pos rfl]
          exact QList.mem_insertRow.mpr (Or.inl hk)
        · rw [if_neg hgo]; exact hk
      · refine ⟨og, hog, ?_⟩
        rw [hobjs og, if_pos rfl]
        exact QList.mem_insertRow.mpr (Or.inr rfl)
    · rintro ⟨g, hg, hk⟩
      rw [hobjs g] at hk
      by_cases hgo : g = og
      · subst hgo
        rw [if_pos rfl] at hk
        rcases QList.mem_insertRow.mp hk with hk | hk
        · exact Or.inl ⟨g, hg, hk⟩
        · exact Or.inr hk
      · rw [if_neg hgo] at hk
        exact Or.inl ⟨g, hg, hk⟩
  · rw [hobjs g]
    by_cases hgo : g = og
    · subst hgo
      rw [if_pos rfl]
      exact QList.nodup_insert (hw.1 g) (hnew g)
    · rw [if_neg hgo]; exact hw.1 g
  · have hmem : ∀ x, k ∈ (MapObjectModel.insertObject e og index o).document.world.objects x →
        (k = o ∧ x = og) ∨ (k ≠ o ∧ k ∈ e.document.world.objects x) := by
      intro x hx
      rw [hobjs x] at hx
      by_cases hxo : x = og
      · subst hxo
        rw [if_pos rfl] at hx
        rcases QList.mem_insertRow.mp hx with hx | hx
        · exact Or.inr ⟨fun e' => hnew x (e' ▸ hx), hx⟩
        · exact Or.inl ⟨hx, rfl⟩
      · rw [if_neg hxo] at hx
        exact Or.inr ⟨fun e' => hnew x (e' ▸ hx), hx⟩
    rcases hmem g hk with ⟨_, h1⟩ | ⟨h1, h1'⟩ <;> rcases hmem g' hk' with ⟨h2, h2'⟩ | ⟨_, h2'⟩
    · rw [h1, h2']
    · exact absurd ‹k = o› (by assumption)
    · exact absurd h2 h1
    · exact hw.2 g g' k h1' h2'

theorem MapObjectModel.removeObject_sync (e : Editor) (og : LayerPtr) (o : ObjectPtr)
    (h : MapObjectModel.WrappersInSync e.document.world e.objectModel.model)
    (ho : o ∈ e.document.world.objects og) (hw : e.document.world.ObjectsOwnedOnce) :
    ∃ e', MapObjectModel.removeObject e og o =
        some (QList.indexOf (e.document.world.objects og) o, e') ∧
      MapObjectModel.WrappersInSync e'.document.world e'.objectModel.model ∧
      e'.document.world.ObjectsOwnedOnce ∧
      e'.objectModel.model =
        { e.objectModel.model with mObjects := QMap.take e.objectModel.model.mObjects o } := by
  obtain ⟨e', hrem, hobjs, hmodel⟩ := MapObjectModel.removeObject_isSome e og o ho
  have hobjs' : ∀ g, e'.document.world.objects g =
      if g = og then (e.document.world.objects og).erase o else e.document.world.objects g := by
    intro g
    rw [hobjs g, QList.removeAt_indexOf_eq_erase ho]
  have hsub : ∀ g k, k ∈ e'.document.world.objects g → k ∈ e.document.world.objects g := by
    intro g k hk
    rw [hobjs' g] at hk
    by_cases hgo : g = og
    · subst hgo
      rw [if_pos rfl] at hk
      exact List.mem_of_mem_erase hk
    · rwa [if_neg hgo] at hk
  refine ⟨e', hrem, ⟨fun g => ?_, fun k => ?_⟩, ⟨fun g => ?_, fun g g' k hk hk' => ?_⟩, hmodel⟩
  · rw [hmodel]; exact h.1 g
  · rw [hmodel]
    simp only [QMap.mem_take, h.2 k]
    constructor
    · rintro ⟨⟨g, hg, hk⟩, hne⟩
      refine ⟨g, hg, ?_⟩
      rw [hobjs' g]
      by_cases hgo : g = og
      · subst hgo
        rw [if_pos rfl]
        exact ((hw.1 g).mem_erase_iff).mpr ⟨hne, hk⟩
      · rw [if_neg hgo]; exact hk
    · rintro ⟨g, hg, hk⟩
      refine ⟨⟨g, hg, hsub g k hk⟩, ?_⟩
      rw [hobjs' g] at hk
      by_cases hgo : g = og
      · subst hgo
        rw [if_pos rfl] at hk
        exact (((hw.1 g).mem_erase_iff).mp hk).1
      · rw [if_neg hgo] at hk
        intro hko
        subst hko
        exact hgo (hw.2 g og k hk ho)
  · rw [hobjs' g]
    by_cases hgo : g = og
    · subst hgo
      rw [if_pos rfl]
      exact (hw.1 g).erase o
    · rw [if_neg hgo]; exact hw.1 g
  · exact hw.2 g g' k (hsub g k hk) (hsub g' k hk')

/-- C22: the identity-wrapper tables stay in step with the tracked content.
The invariant "the groups with a wrapper are exactly the tracked object
groups, and the objects with a wrapper are exactly the objects contained in
tracked object groups" holds after `setMapDocument` (for a new document, whose
top-level object groups are then the tracked ones, and for no document). It is
preserved by `insertObject` for a tracked group and an object that is in no
group yet, which adds exactly one key, that of the object; by `removeObject`
for an object of the group, which erases exactly one key, that of the object;
by `layerAdded`; and by `layerAboutToBeRemoved`. The store is taken to be well
formed (every object is owned once, the tracked list is free of duplicates),
which these operations preserve as well. -/
theorem C22_wrapper_tables_stay_in_sync :
    (∀ (w : World) (s : ObjectModelState) (mapDocument : Bool),
      MapObjectModel.WrappersInSync w
        (MapObjectModel.setMapDocument w s false mapDocument).model ∧
      (MapObjectModel.setMapDocument w s false mapDocument).model.mObjectGroups =
        (if mapDocument then w.objectGroups else [])) ∧
    (∀ (e : Editor) (og : LayerPtr) (index : Int) (o : ObjectPtr),
      MapObjectModel.WrappersInSync e.document.world e.objectModel.model →
      og ∈ e.objectModel.model.mObjectGroups →
      (∀ g, o ∉ e.document.world.objects g) →
      MapObjectModel.WrappersInSync (MapObjectModel.insertObject e og index o).document.world
        (MapObjectModel.insertObject e og index o).objectModel.model ∧
      o ∉ e.objectModel.model.mObjects ∧
      (∀ k, k ∈ (MapObjectModel.insertObject e og index o).objectModel.model.mObjects ↔
        k ∈ e.objectModel.model.mObjects ∨ k = o) ∧
      (MapObjectModel.insertObject e og index o).objectModel.model.mObjectGroups =
        e.objectModel.model.mObjectGroups ∧
      (e.document.world.ObjectsOwnedOnce →
        (MapObjectModel.insertObject e og index o).document.world.ObjectsOwnedOnce)) ∧
    (∀ (e : Editor) (og : LayerPtr) (o : ObjectPtr),
      MapObjectModel.WrappersInSync e.document.world e.objectModel.model →
      og ∈ e.objectModel.model.mObjectGroups →
      o ∈ e.document.world.objects og →
      e.document.world.ObjectsOwnedOnce →
      ∃ (row : Int) (e' : Editor), MapObjectModel.removeObject e og o = some (row, e') ∧
        MapObjectModel.WrappersInSync e'.document.world e'.objectModel.model ∧
        o ∈ e.objectModel.model.mObjects ∧
        (∀ k, k ∈ e'.objectModel.model.mObjects ↔ k ∈ e.objectModel.model.mObjects ∧ k ≠ o) ∧
        e'.objectModel.model.mObjectGroups = e.objectModel.model.mObjectGroups ∧
        e'.document.world.ObjectsOwnedOnce) ∧
    (∀ (w : World) (s : ObjectModelState) (layer : LayerPtr),
      MapObjectModel.WrappersInSync w s.model →
      MapObjectModel.WrappersInSync w (MapObjectModel.layerAdded w s layer).model ∧
      (s.model.mObjectGroups.Nodup →
        (MapObjectModel.layerAdded w s layer).model.mObjectGroups.Nodup)) ∧
    (∀ (w : World) (s : ObjectModelState) (groupLayer : Option LayerPtr) (index : Int),
      MapObjectModel.WrappersInSync w s.model →
      s.model.mObjectGroups.Nodup → w.ObjectsOwnedOnce →
      MapObjectModel.WrappersInSync w
        (MapObjectModel.layerAboutToBeRemoved w s groupLayer index).model ∧
      (MapObjectModel.layerAboutToBeRemoved w s groupLayer index).model.mObjectGroups.Nodup) := by
  refine ⟨fun w s mapDocument => ?_, fun e og index o h hog hnew => ?_,
    fun e og o h hog ho hw => ?_, fun w s layer h => ?_,
    fun w s groupLayer index h hn hw => ?_⟩
  · obtain ⟨h1, h2⟩ := MapObjectModel.setMapDocument_model w s mapDocument
    exact ⟨h2, h1⟩
  · obtain ⟨h1, h2⟩ := MapObjectModel.insertObject_sync e og index o h hog hnew
    refine ⟨h1, ?_, fun k => ?_, ?_, h2⟩
    · intro hm
      obtain ⟨g, _, hg⟩ := (h.2 o).mp hm
      exact hnew g hg
    · rw [MapObjectModel.insertObject_model]
      exact QMap.mem_insert
    · rw [MapObjectModel.insertObject_model]
  · obtain ⟨e', h1, h2, h3, h4⟩ := MapObjectModel.removeObject_sync e og o h ho hw
    refine ⟨_, e', h1, h2, (h.2 o).mpr ⟨og, hog, ho⟩, fun k => ?_, ?_, h3⟩
    · rw [h4]
      exact QMap.mem_take
    · rw [h4]
  · exact MapObjectModel.layerAdded_sync w s layer h
  · exact MapObjectModel.layerAboutToBeRemoved_sync w s groupLayer index h hn hw
theorem objectExampleWorld_objects (g : LayerPtr) :
    objectExampleWorld.objects g = if g = 3 then [10, 11] else if g = 5 then [12] else [] := by
  simp only [World.objects, objectExampleWorld]
  split <;> simp_all [Layer.blank]

theorem objectExample_wrappersInSync :
    MapObjectModel.WrappersInSync objectExampleWorld objectExampleModel.model := by
  refine ⟨fun _ => Iff.rfl, fun o => ?_⟩
  simp [objectExampleModel, objectExampleWorld_objects]

theorem objectExample_objectsOwnedOnce : objectExampleWorld.ObjectsOwnedOnce := by
  refine ⟨fun g => ?_, fun g g' o h h' => ?_⟩
  · rw [objectExampleWorld_objects]
    split
    · decide
    · split <;> decide
  · rw [objectExampleWorld_objects] at h h'
    by_cases h3 : g = 3 <;> by_cases h5 : g = 5 <;> by_cases h3' : g' = 3 <;>
      by_cases h5' : g' = 5 <;> simp_all

/-- Witness for C22 on the example stack and the example state: the model is
populated for the example document; object 13, which is in no group, is
inserted into the tracked group 3; object 10 is removed from it; the row of
group 3 is removed. -/
theorem C22_wrapper_tables_stay_in_sync_witness :
    (MapObjectModel.setMapDocument objectExampleWorld ⟨⟨false, [], [], []⟩, []⟩ false
      true).model.mObjectGroups = [3] ∧
    MapObjectModel.WrappersInSync (MapObjectModel.insertObject editorExample 3 0 13).document.world
      (MapObjectModel.insertObject editorExample 3 0 13).objectModel.model ∧
    (∃ (row : Int) (e' : Editor), MapObjectModel.removeObject editorExample 3 10 = some (row, e') ∧
      MapObjectModel.WrappersInSync e'.document.world e'.objectModel.model) ∧
    MapObjectModel.WrappersInSync objectExampleWorld
      (MapObjectModel.layerAboutToBeRemoved objectExampleWorld objectExampleModel none 2).model :=
  ⟨(C22_wrapper_tables_stay_in_sync.1 objectExampleWorld ⟨⟨false, [], [], []⟩, []⟩ true).2.trans
      (by decide),
   (C22_wrapper_tables_stay_in_sync.2.1 editorExample 3 0 13 objectExample_wrappersInSync
      (by decide) (fun g => by
        show 13 ∉ objectExampleWorld.objects g
        rw [objectExampleWorld_objects]
        split
        · decide
        · split <;> decide)).1,
   (C22_wrapper_tables_stay_in_sync.2.2.1 editorExample 3 10 objectExample_wrappersInSync
      (by decide) (by decide) objectExample_objectsOwnedOnce).elim fun row h =>
        h.elim fun e' h' => ⟨row, e', h'.1, h'.2.1⟩,
   (C22_wrapper_tables_stay_in_sync.2.2.2.2 objectExampleWorld objectExampleModel none 2
      objectExample_wrappersInSync (by decide) objectExample_objectsOwnedOnce).1⟩

/-! ## The map object tree model: moving objects -/

theorem ObjectGroup.moveObjects_perm (objects : List ObjectPtr) (fromRow toRow count : Int) :
    (ObjectGroup.moveObjects objects fromRow toRow count).Perm objects := by
  unfold ObjectGroup.moveObjects
  split
  · exact List.Perm.refl _
  · simp only
    generalize (if toRow > fromRow then toRow - count else toRow).toNat = t
    have hsplit : objects = objects.take fromRow.toNat ++
        ((objects.drop fromRow.toNat).take count.toNat ++
          objects.drop (fromRow.toNat + count.toNat)) := by
      have h1 := (List.take_append_drop count.toNat (objects.drop fromRow.toNat)).symm
      rw [List.drop_drop] at h1
      have h2 := (List.take_append_drop fromRow.toNat objects).symm
      rw [h1] at h2
      exact h2
    have hothers : ((objects.take fromRow.toNat ++
        objects.drop (fromRow.toNat + count.toNat)).take t ++
        (objects.take fromRow.toNat ++
          objects.drop (fromRow.toNat + count.toNat)).drop t) =
        objects.take fromRow.toNat ++ objects.drop (fromRow.toNat + count.toNat) :=
      List.take_append_drop _ _
    generalize hA : objects.take fromRow.toNat = A at *
    generalize hM : (objects.drop fromRow.toNat).take count.toNat = M at *
    generalize hB : objects.drop (fromRow.toNat + count.toNat) = B at *
    generalize hT : (A ++ B).take t = T at *
    generalize hD : (A ++ B).drop t = D at *
    have hp1 : (T ++ M ++ D).Perm (M ++ (T ++ D)) := by
      rw [List.append_assoc]
      exact List.perm_append_comm_assoc T M D
    have hp2 : (M ++ (A ++ B)).Perm (A ++ (M ++ B)) := List.perm_append_comm_assoc M A B
    rw [hothers] at hp1
    rw [hsplit]
    exact hp1.trans hp2

/-- C28: a move that the view framework rejects changes nothing. When
`beginMoveRows` refuses the range, as it does for every destination row in
`[from, from + count]`, `moveObjects(group, from, to, count)` returns the state
as it was: the object order of every group, the wrapper tables and the log of
notifications are unchanged (no move is announced, none is completed). When
the range is accepted, the objects of the group are moved by one
`moveObjects(from, to, count)` of the group, other groups and the wrapper
tables stay as they are, and exactly two notifications are logged: the begin
of the move on the old object order and the end of the move on the new one.
In either case the group holds the same objects as before. -/
theorem C28_moveObjects_rejected_changes_nothing (e : Editor) (og : LayerPtr)
    (fromRow toRow count : Int) :
    ((MapObjectModel.beginMoveRows e (MapObjectModel.indexOfGroup e.objectModel.model og)
        fromRow (fromRow + count - 1) toRow).1 = false →
      MapObjectModel.moveObjects e og fromRow toRow count = e) ∧
    (fromRow ≤ toRow → toRow ≤ fromRow + count →
      (MapObjectModel.beginMoveRows e (MapObjectModel.indexOfGroup e.objectModel.model og)
        fromRow (fromRow + count - 1) toRow).1 = false) ∧
    ((MapObjectModel.beginMoveRows e (MapObjectModel.indexOfGroup e.objectModel.model og)
        fromRow (fromRow + count - 1) toRow).1 = true →
      (MapObjectModel.moveObjects e og fromRow toRow count).document.world.objects og =
        ObjectGroup.moveObjects (e.document.world.objects og) fromRow toRow count ∧
      (∀ g, g ≠ og →
        (MapObjectModel.moveObjects e og fromRow toRow count).document.world.objects g =
          e.document.world.objects g) ∧
      (MapObjectModel.moveObjects e og fromRow toRow count).objectModel.model =
        e.objectModel.model ∧
      (MapObjectModel.moveObjects e og fromRow toRow count).objectModel.emitted =
        e.objectModel.emitted ++
          [ObjectEmission.mk
            (ObjectSignal.beginMoveRows (MapObjectModel.indexOfGroup e.objectModel.model og)
              fromRow (fromRow + count - 1)
              (MapObjectModel.indexOfGroup e.objectModel.model og) toRow)
            e.objectModel.model e.document.world,
           ObjectEmission.mk ObjectSignal.endMoveRows e.objectModel.model
            (MapObjectModel.moveObjects e og fromRow toRow count).document.world]) ∧
    ((MapObjectModel.moveObjects e og fromRow toRow count).document.world.objects og).Perm
      (e.document.world.objects og) := by
  have hacc : (MapObjectModel.beginMoveRows e (MapObjectModel.indexOfGroup e.objectModel.model og)
        fromRow (fromRow + count - 1) toRow).1 = true →
      (MapObjectModel.moveObjects e og fromRow toRow count).document.world.objects og =
        ObjectGroup.moveObjects (e.document.world.objects og) fromRow toRow count := by
    intro h
    have ha : QAbstractItemModel.allowMove fromRow (fromRow + count - 1) toRow = true := by
      by_contra hn
      have hf : QAbstractItemModel.allowMove fromRow (fromRow + count - 1) toRow = false := by
        simpa using hn
      simp [MapObjectModel.beginMoveRows, hf] at h
    simp only [MapObjectModel.moveObjects, MapObjectModel.beginMoveRows, ha, if_true,
      Bool.not_true, Bool.false_eq_true, if_false, Editor.emitObject,
      MapDocument.objects_setLayer]
  refine ⟨fun h => ?_, fun h1 h2 => ?_, fun h => ?_, ?_⟩
  · simp [MapObjectModel.moveObjects, h]
  · have : QAbstractItemModel.allowMove fromRow (fromRow + count - 1) toRow = false := by
      simp only [QAbstractItemModel.allowMove, Bool.not_eq_false', Bool.and_eq_true,
        decide_eq_true_eq]
      exact ⟨h1, by omega⟩
    simp [MapObjectModel.beginMoveRows, this]
  · have ha : QAbstractItemModel.allowMove fromRow (fromRow + count - 1) toRow = true := by
      by_contra hn
      have hf : QAbstractItemModel.allowMove fromRow (fromRow + count - 1) toRow = false := by
        simpa using hn
      simp [MapObjectModel.beginMoveRows, hf] at h
    refine ⟨hacc h, fun g hg => ?_, ?_, ?_⟩
    · simp only [MapObjectModel.moveObjects, MapObjectModel.beginMoveRows, ha, if_true,
        Bool.not_true, Bool.false_eq_true, if_false, Editor.emitObject,
        MapDocument.objects_setLayer, if_neg hg]
    · simp [MapObjectModel.moveObjects, MapObjectModel.beginMoveRows, ha, Editor.emitObject,
        ObjectModelState.emit]
    · simp [MapObjectModel.moveObjects, MapObjectModel.beginMoveRows, ha, Editor.emitObject,
        ObjectModelState.emit]
  · by_cases h : (MapObjectModel.beginMoveRows e
        (MapObjectModel.indexOfGroup e.objectModel.model og)
        fromRow (fromRow + count - 1) toRow).1 = true
    · rw [hacc h]
      exact ObjectGroup.moveObjects_perm _ _ _ _
    · have hf : (MapObjectModel.beginMoveRows e
          (MapObjectModel.indexOfGroup e.objectModel.model og)
          fromRow (fromRow + count - 1) toRow).1 = false := by simpa using h
      simp [MapObjectModel.moveObjects, hf]

/-- Witness for C28 in the example state, where group 3 holds `[10, 11]`:
moving row 0 to row 1 is refused and changes nothing; moving row 0 to row 2
is accepted and gives `[11, 10]`. -/
theorem C28_moveObjects_rejected_changes_nothing_witness :
    MapObjectModel.moveObjects editorExample 3 0 1 1 = editorExample ∧
    (MapObjectModel.moveObjects editorExample 3 0 2 1).document.world.objects 3 = [11, 10] ∧
    (MapObjectModel.moveObjects editorExample 3 0 2 1).objectModel.signals =
      [ObjectSignal.beginMoveRows (createObjectIndex 0 0 (some (ObjectOrGroup.group 3))) 0 0
         (createObjectIndex 0 0 (some (ObjectOrGroup.group 3))) 2,
       ObjectSignal.endMoveRows] :=
  have h := C28_moveObjects_rejected_changes_nothing editorExample 3 0 1 1
  have h' := C28_moveObjects_rejected_changes_nothing editorExample 3 0 2 1
  ⟨h.1 (h.2.1 (by decide) (by decide)),
   (h'.2.2.1 (by decide)).1.trans (by decide),
   (congrArg (fun l => l.map ObjectEmission.signal) (h'.2.2.1 (by decide)).2.2.2).trans
     (by decide)⟩

/-! ## Removing a selected object -/

theorem MapObjectModel.removeObject_emitted (e : Editor) (og : LayerPtr) (o : ObjectPtr)
    (ho : o ∈ e.document.world.objects og) :
    ∃ e', MapObjectModel.removeObject e og o =
        some (QList.indexOf (e.document.world.objects og) o, e') ∧
      e'.document.world.objects og = (e.document.world.objects og).erase o ∧
      e'.objectModel.model =
        { e.objectModel.model with mObjects := QMap.take e.objectModel.model.mObjects o } ∧
      e'.objectModel.emitted =
        e.objectModel.emitted ++
          [ObjectEmission.mk
            (ObjectSignal.beginRemoveRows (MapObjectModel.indexOfGroup e.objectModel.model og)
              (QList.indexOf (e.document.world.objects og) o)
              (QList.indexOf (e.document.world.objects og) o))
            e.objectModel.model e.document.world,
           ObjectEmission.mk ObjectSignal.endRemoveRows e'.objectModel.model e'.document.world,
           ObjectEmission.mk (ObjectSignal.objectsRemoved [o]) e'.objectModel.model
            e'.document.world] := by
  obtain ⟨_, hat⟩ := QList.indexOf_of_mem ho
  have hat' : QList.at
      ((e.emitObject (ObjectSignal.beginRemoveRows
        (MapObjectModel.indexOfGroup e.objectModel.model og)
        (QList.indexOf (e.document.world.objects og) o)
        (QList.indexOf (e.document.world.objects og) o))).document.world.objects og)
      (QList.indexOf (e.document.world.objects og) o) = some o := hat
  simp only [MapObjectModel.removeObject, ObjectGroup.removeObjectAt, hat', Option.map_some']
  refine ⟨_, rfl, ?_, ?_, ?_⟩
  · simp only [Editor.emitObject, MapDocument.objects_setLayer, if_true]
    exact QList.removeAt_indexOf_eq_erase ho
  · simp [Editor.emitObject, ObjectModelState.emit]
  · simp [Editor.emitObject, ObjectModelState.emit]

/-- C25 as stated fails: in the example state with object 10 selected,
`removeObject(group 3, object 10)` logs three notifications. At the second,
the end of the remove bracket, the row is structurally removed (group 3 holds
only object 11) and object 10 is still selected; `objectsRemoved([10])`, the
notification on which the document purges the selection, is the third. -/
theorem C25_selection_is_purged_after_the_row_is_removed :
    ∃ e', MapObjectModel.removeObject editorExample 3 10 = some (0, e') ∧
      (e'.emittedSince editorExample).map (fun em => (em.signal, em.world.objects 3)) =
        [(ObjectSignal.beginRemoveRows (createObjectIndex 0 0 (some (ObjectOrGroup.group 3)))
            0 0, [10, 11]),
         (ObjectSignal.endRemoveRows, [11]),
         (ObjectSignal.objectsRemoved [10], [11])] ∧
      MapDocument.selectionTrace [10] (e'.emittedSince editorExample) = [[10], [10], []] :=
  ⟨_, rfl, by decide, by decide⟩

/-- C25 (amended): removing a map object of a group purges it from the
selected objects within the call, after its row is structurally removed.
`removeObject(group, o)` logs exactly: the begin of the remove bracket for the
row of `o`, on the old object sequence; the end of the bracket, on the
sequence without `o` and the wrapper table without the key of `o`; and then
`objectsRemoved([o])`. Whatever was selected stays selected up to the end of
the bracket, and after `objectsRemoved([o])` the selection is the old one
without `o`. -/
theorem C25_selection_is_purged_on_objectsRemoved (e : Editor) (og : LayerPtr)
    (o : ObjectPtr) (mSelectedObjects : List ObjectPtr)
    (ho : o ∈ e.document.world.objects og) :
    ∃ e', MapObjectModel.removeObject e og o =
        some (QList.indexOf (e.document.world.objects og) o, e') ∧
      e'.emittedSince e =
        [ObjectEmission.mk
          (ObjectSignal.beginRemoveRows (MapObjectModel.indexOfGroup e.objectModel.model og)
            (QList.indexOf (e.document.world.objects og) o)
            (QList.indexOf (e.document.world.objects og) o))
          e.objectModel.model e.document.world,
         ObjectEmission.mk ObjectSignal.endRemoveRows e'.objectModel.model e'.document.world,
         ObjectEmission.mk (ObjectSignal.objectsRemoved [o]) e'.objectModel.model
          e'.document.world] ∧
      e'.document.world.objects og = (e.document.world.objects og).erase o ∧
      ((e.document.world.objects og).Nodup → o ∉ e'.document.world.objects og) ∧
      (∀ k, k ∈ e'.objectModel.model.mObjects ↔ k ∈ e.objectModel.model.mObjects ∧ k ≠ o) ∧
      MapDocument.selectionTrace mSelectedObjects (e'.emittedSince e) =
        [mSelectedObjects, mSelectedObjects,
         mSelectedObjects.filter fun s => decide (s ≠ o)] := by
  obtain ⟨e', hrem, hobjs, hmodel, hlog⟩ := MapObjectModel.removeObject_emitted e og o ho
  have hsince : e'.emittedSince e =
      [ObjectEmission.mk
        (ObjectSignal.beginRemoveRows (MapObjectModel.indexOfGroup e.objectModel.model og)
          (QList.indexOf (e.document.world.objects og) o)
          (QList.indexOf (e.document.world.objects og) o))
        e.objectModel.model e.document.world,
       ObjectEmission.mk ObjectSignal.endRemoveRows e'.objectModel.model e'.document.world,
       ObjectEmission.mk (ObjectSignal.objectsRemoved [o]) e'.objectModel.model
        e'.document.world] := by
    simp [Editor.emittedSince, hlog]
  refine ⟨e', hrem, hsince, hobjs, fun hn => ?_, fun k => ?_, ?_⟩
  · rw [hobjs]
    exact fun hm => ((hn.mem_erase_iff).mp hm).1 rfl
  · rw [hmodel]
    exact QMap.mem_take
  · rw [hsince]
    simp [MapDocument.selectionTrace, MapDocument.selectionAfter, MapDocument.onObjectsRemoved,
      MapDocument.deselectObjects]

/-- Witness for C25 (amended) in the example state with the objects 10 and 11
selected: object 10 is removed from row 0 of group 3. -/
theorem C25_selection_is_purged_on_objectsRemoved_witness :
    ∃ e', MapObjectModel.removeObject editorExample 3 10 = some (0, e') ∧
      e'.document.world.objects 3 = [11] ∧
      MapDocument.selectionTrace [10, 11] (e'.emittedSince editorExample) =
        [[10, 11], [10, 11], [11]] :=
  (C25_selection_is_purged_on_objectsRemoved editorExample 3 10 [10, 11] (by decide)).elim
    fun e' h => ⟨e', h.1, h.2.2.1.trans (by decide), h.2.2.2.2.2.trans (by decide)⟩

/-! ## The bracket order of the structural operations -/

theorem MapObjectModel.insertObject_emitted (e : Editor) (og : LayerPtr) (index : Int)
    (o : ObjectPtr) :
    (MapObjectModel.insertObject e og index o).objectModel.emitted =
      e.objectModel.emitted ++
        [ObjectEmission.mk
          (ObjectSignal.beginInsertRows (MapObjectModel.indexOfGroup e.objectModel.model og)
            (if index ≥ 0 then index else ((e.document.world.objects og).length : Int))
            (if index ≥ 0 then index else ((e.document.world.objects og).length : Int)))
          e.objectModel.model e.document.world,
         ObjectEmission.mk ObjectSignal.endInsertRows
          (MapObjectModel.insertObject e og index o).objectModel.model
          (MapObjectModel.insertObject e og index o).document.world,
         ObjectEmission.mk (ObjectSignal.objectsAdded [o])
          (MapObjectModel.insertObject e og index o).objectModel.model
          (MapObjectModel.insertObject e og index o).document.world] := by
  simp [MapObjectModel.insertObject, Editor.emitObject, ObjectModelState.emit,
    ObjectGroup.insertObject]

/-- C26 (defect in the code): on the example stack with the object group 5
added as fifth top-level layer, in a model that tracks `[3]` and so reports
one row at the root, `layerAdded(5)` announces the insertion of row 1 when the
tracked list is `[3, 5]` already: at the begin of the insert bracket the model
reports two rows at the root, and the new row has no wrapper yet. The list is
the same at the end of the bracket; only the wrapper tables change inside the
bracket. -/
theorem C26_layerAdded_inserts_before_beginInsertRows :
    MapObjectModel.rowCount (objectExampleWorld.mapInsertLayer 4 5) objectExampleModel.model
      ObjectIndex.invalid = some 1 ∧
    (MapObjectModel.layerAdded (objectExampleWorld.mapInsertLayer 4 5) objectExampleModel
      5).emitted.map
        (fun em => (em.signal, em.model.mObjectGroups, em.model.mGroups,
          MapObjectModel.rowCount em.world em.model ObjectIndex.invalid,
          MapObjectModel.index em.world em.model 1 0 ObjectIndex.invalid)) =
      [(ObjectSignal.beginInsertRows ObjectIndex.invalid 1 1, [3, 5], [3], some 2,
          some (createObjectIndex 1 0 none)),
       (ObjectSignal.endInsertRows, [3, 5], [3, 5], some 2,
          some (createObjectIndex 1 0 (some (ObjectOrGroup.group 5))))] := by
  exact ⟨by decide, rfl⟩

end Tiled
